import Mathlib

/-!
Shallow embedding of the TecnicoFS in-memory file system
(`src/p1/tecnicofs/fs/state.c`, `src/p1/tecnicofs/fs/operations.c` and the
opcode dispatch of `src/p2/tecnicofs_ex2/fs/tfs_server.c`) together with
proofs settling the claims C1-C10.

Modelling conventions:
* The repository's `config.h` (which defines `BLOCK_SIZE`, `MAX_FILE_BLOCKS`,
  `INDIR_BLOCK_SIZE`, `DATA_BLOCKS`, `INODE_TABLE_SIZE`, `MAX_OPEN_FILES`,
  `MAX_FILE_NAME`) is not part of the sources; following the spec
  ("fixed-size", "fixed capacity `D`", "up to `M` further block indices")
  the numeric parameters are collected in a `Config` structure and all
  definitions are generic over it.
* C machine integers used as identifiers (inumbers, block numbers, file
  handles, cursors) are modelled as `Int`, with `-1` the universal "unused"
  sentinel as in the source; sizes and offsets (`size_t`) are `Nat`
  (the one reachable `size_t` underflow, in `tfs_read`, is modelled
  explicitly by `szSub`).
* The global tables are total functions from `Nat`; only indices below the
  respective capacity are ever used.
* A data block's storage is a `BlockContent`: the source type-puns one
  `char` array as raw bytes, as an `int` array (the indirect block) and as
  a `dir_entry_t` array.  The model records which view was last written;
  every access that the C code performs through a pointer that leaves the
  bounds of the addressed object (for example indexing the indirect block
  at `INDIR_BLOCK_SIZE`) is modelled as the distinguished outcome `none`
  ("undefined behaviour").  Clean in-code failures return `some` with the
  C return value `-1`.
* Lock operations (`pthread_*`, `inode_rdlock` ...) are modelled as
  always-succeeding no-ops: the claims below are single-threaded
  functional properties.  The cosmetic `insert_delay` is omitted.
-/

namespace TFS

/-- Numeric parameters of the file system.  Modelled from the spec: the
repository's `config.h` is not among the sources; the spec only requires the
sizes to be fixed positive constants ("fixed-size (BLOCK_SIZE bytes)",
direct list of "fixed capacity `D`", one indirect block of "up to `M`
further block indices"). -/
structure Config where
  blockSize : ℕ
  maxFileBlocks : ℕ
  indirBlockSize : ℕ
  dataBlocks : ℕ
  inodeTableSize : ℕ
  maxOpenFiles : ℕ
  maxDirEntries : ℕ
  maxFileName : ℕ
  blockSize_pos : 0 < blockSize

/-- Allocation state of a table slot (`allocation_state_t` in `state.h`). -/
inductive AllocState where
  | FREE
  | TAKEN
deriving DecidableEq

/-- Inode type (`inode_type` in `state.h`). -/
inductive InodeType where
  | T_FILE
  | T_DIRECTORY
deriving DecidableEq

/-- A directory entry (`dir_entry_t`): a name and an inumber, `-1` = empty. -/
structure DirEntry where
  d_name : String
  d_inumber : ℤ
deriving DecidableEq

/-- The contents of one data block.  The C code stores bytes, `int` indices
(for the indirect block) or `dir_entry_t` records into the same `char`
array; the model tracks the view in use.  `raw` is a never-written block
(the static array is zero-initialised, so raw bytes read as `0`). -/
inductive BlockContent where
  | raw
  | bytes (f : ℕ → ℕ)
  | ints (f : ℕ → ℤ)
  | dirents (f : ℕ → DirEntry)

/-- An i-node (`inode_t`, final revision used by `operations.c`:
type, size, `MAX_FILE_BLOCKS` direct block indices, the current direct
block cursor, one indirect block index and the current indirect slot
cursor; the per-inode rwlock is not modelled). -/
structure Inode where
  i_node_type : InodeType
  i_size : ℕ
  i_data_blocks : ℕ → ℤ
  i_curr_block : ℤ
  i_indir_block : ℤ
  i_curr_indir : ℤ

/-- An open file table entry (`open_file_entry_t`, final revision used by
`operations.c`: owning inumber plus decoupled read and write offsets). -/
structure OpenFileEntry where
  of_inumber : ℤ
  of_read_offset : ℕ
  of_write_offset : ℕ

/-- The whole file system state: the static tables of `state.c`. -/
structure FSState where
  freeinode_ts : ℕ → AllocState
  inode_table : ℕ → Inode
  free_blocks : ℕ → AllocState
  fs_data : ℕ → BlockContent
  free_open_file_entries : ℕ → AllocState
  open_file_table : ℕ → OpenFileEntry

/-- Static storage is zero-initialised: the all-zero inode. -/
def zeroInode : Inode :=
  ⟨InodeType.T_FILE, 0, fun _ => 0, 0, 0, 0⟩

/-- Static storage is zero-initialised: the all-zero open file entry. -/
def zeroOF : OpenFileEntry :=
  ⟨0, 0, 0⟩

/-- `state_init` (state.c:76): marks every inode, block and open-file slot
`FREE`; the table contents themselves are the zero-initialised statics. -/
def state_init (_cfg : Config) : FSState :=
  ⟨fun _ => AllocState.FREE, fun _ => zeroInode,
   fun _ => AllocState.FREE, fun _ => BlockContent.raw,
   fun _ => AllocState.FREE, fun _ => zeroOF⟩

/-- First-fit scan: `firstIdx p i k` returns the first index `j` with
`i ≤ j < i + k` and `p j`, scanning upwards — the shape of every
allocation loop in `state.c`. -/
def firstIdx (p : ℕ → Bool) : ℕ → ℕ → Option ℕ
  | _, 0 => none
  | i, k + 1 => if p i then some i else firstIdx p (i + 1) k

/-- Helpers to read the validity checks of `state.c`. -/
def valid_inumber (cfg : Config) (inumber : ℤ) : Prop :=
  0 ≤ inumber ∧ inumber < (cfg.inodeTableSize : ℤ)

/-- `valid_block_number` (state.c:38). -/
def valid_block_number (cfg : Config) (b : ℤ) : Prop :=
  0 ≤ b ∧ b < (cfg.dataBlocks : ℤ)

/-- `valid_file_handle` (state.c:42). -/
def valid_file_handle (cfg : Config) (fh : ℤ) : Prop :=
  0 ≤ fh ∧ fh < (cfg.maxOpenFiles : ℤ)

instance (cfg : Config) (x : ℤ) : Decidable (valid_inumber cfg x) := by
  unfold valid_inumber; infer_instance

instance (cfg : Config) (x : ℤ) : Decidable (valid_block_number cfg x) := by
  unfold valid_block_number; infer_instance

instance (cfg : Config) (x : ℤ) : Decidable (valid_file_handle cfg x) := by
  unfold valid_file_handle; infer_instance

/-- Update one inode in place. -/
def updInode (s : FSState) (i : ℕ) (g : Inode → Inode) : FSState :=
  { s with inode_table := Function.update s.inode_table i (g (s.inode_table i)) }

/-- Update one open file entry in place. -/
def updOF (s : FSState) (h : ℕ) (g : OpenFileEntry → OpenFileEntry) : FSState :=
  { s with open_file_table :=
      Function.update s.open_file_table h (g (s.open_file_table h)) }

/-- Replace one block's content. -/
def setBlockContent (s : FSState) (b : ℕ) (c : BlockContent) : FSState :=
  { s with fs_data := Function.update s.fs_data b c }

/-- The byte view underlying a block: a bytes block keeps its bytes, a
never-written block reads as zeros; bytes written over a type-punned
`int`/`dir_entry_t` view start from a zero base (those punned leftover
bytes are never read by any execution considered here). -/
def bytesBase : BlockContent → (ℕ → ℕ)
  | BlockContent.bytes f => f
  | _ => fun _ => 0

/-- The `int`-array view underlying a block (used for the indirect block). -/
def intsBase : BlockContent → (ℕ → ℤ)
  | BlockContent.ints f => f
  | _ => fun _ => 0

/-- `memcpy(block + off, data, data.length)`: overwrite `data.length` bytes
of the byte view starting at `off`. -/
def storeBytes (f : ℕ → ℕ) (off : ℕ) (data : List ℕ) : ℕ → ℕ :=
  fun j => if off ≤ j ∧ j < off + data.length then data.getD (j - off) 0 else f j

/-- Checked byte-range write into block `b`; `none` if the range would
leave the block (never reachable from `tfs_write`, which caps the length
at `BLOCK_SIZE - real_offset`). -/
def blockWriteBytes (cfg : Config) (s : FSState) (b : ℕ) (off : ℕ)
    (data : List ℕ) : Option FSState :=
  if off + data.length ≤ cfg.blockSize then
    some (setBlockContent s b
      (BlockContent.bytes (storeBytes (bytesBase (s.fs_data b)) off data)))
  else none

/-- Checked byte-range read from block `b` (the `memcpy` of `tfs_read`):
`none` when the range crosses the end of the block or the block currently
holds a type-punned `int`/`dir_entry_t` view. -/
def blockReadBytes (cfg : Config) (s : FSState) (b : ℕ) (off n : ℕ) :
    Option (List ℕ) :=
  if off + n ≤ cfg.blockSize then
    match s.fs_data b with
    | BlockContent.bytes f => some ((List.range n).map fun j => f (off + j))
    | BlockContent.raw => some ((List.range n).map fun _ => 0)
    | _ => none
  else none

/-- Read slot `j` of the indirect block `b` (`temp[j]` through an `int *`):
`none` when `j` is outside `0 ≤ j < INDIR_BLOCK_SIZE` (an out-of-bounds
access in C) or the block does not currently hold the `int` view. -/
def blockGetInt (cfg : Config) (s : FSState) (b : ℕ) (j : ℤ) : Option ℤ :=
  if 0 ≤ j ∧ j < (cfg.indirBlockSize : ℤ) then
    match s.fs_data b with
    | BlockContent.ints f => some (f j.toNat)
    | _ => none
  else none

/-- Write slot `j` of the indirect block `b` (`temp[j] = v`). -/
def blockSetInt (cfg : Config) (s : FSState) (b : ℕ) (j : ℤ) (v : ℤ) :
    Option FSState :=
  if 0 ≤ j ∧ j < (cfg.indirBlockSize : ℤ) then
    some (setBlockContent s b
      (BlockContent.ints (Function.update (intsBase (s.fs_data b)) j.toNat v)))
  else none

/-- `data_block_alloc` (state.c:389): first-fit scan of the free-block
bitmap; marks the found slot `TAKEN` and returns its index, `-1` when
exhausted. -/
def data_block_alloc (cfg : Config) (s : FSState) : FSState × ℤ :=
  match firstIdx (fun i => decide (s.free_blocks i = AllocState.FREE)) 0
      cfg.dataBlocks with
  | some i =>
      ({ s with free_blocks := Function.update s.free_blocks i AllocState.TAKEN },
       (i : ℤ))
  | none => (s, -1)

/-- `data_block_free` (state.c:420): rejects out-of-range block numbers,
otherwise unconditionally marks the slot `FREE` and returns `0`. -/
def data_block_free (cfg : Config) (s : FSState) (b : ℤ) : FSState × ℤ :=
  if valid_block_number cfg b then
    ({ s with free_blocks := Function.update s.free_blocks b.toNat AllocState.FREE }, 0)
  else (s, -1)

/-- `data_block_get` (state.c:436) as an index check: `some` of the array
index when valid, `none` for the C `NULL` return. -/
def data_block_get (cfg : Config) (b : ℤ) : Option ℕ :=
  if valid_block_number cfg b then some b.toNat else none

/-- The fresh file inode produced by `inode_create(T_FILE)`
(state.c:179-199): size 0, every direct slot, both cursors and the
indirect block index set to `-1`. -/
def freshFileInode : Inode :=
  ⟨InodeType.T_FILE, 0, fun _ => -1, -1, -1, -1⟩

/-- `inode_create` (state.c:107): first-fit scan of the inode bitmap;
initialises the found slot per type.  A directory additionally allocates
one data block for its entries (all marked empty); on block exhaustion the
inode slot is released again and `-1` returned. -/
def inode_create (cfg : Config) (s : FSState) (n_type : InodeType) :
    FSState × ℤ :=
  match firstIdx (fun i => decide (s.freeinode_ts i = AllocState.FREE)) 0
      cfg.inodeTableSize with
  | none => (s, -1)
  | some inumber =>
    let s1 : FSState :=
      { s with freeinode_ts := Function.update s.freeinode_ts inumber AllocState.TAKEN }
    match n_type with
    | InodeType.T_DIRECTORY =>
        let p := data_block_alloc cfg s1
        if p.2 = -1 then
          ({ p.1 with freeinode_ts := Function.update p.1.freeinode_ts inumber AllocState.FREE }, -1)
        else
          let s2 := updInode p.1 inumber fun _ =>
            ⟨InodeType.T_DIRECTORY, cfg.blockSize,
             fun i => if i = 0 then p.2 else -1, 0, -1, -1⟩
          match data_block_get cfg p.2 with
          | none =>
              ({ s2 with freeinode_ts := Function.update s2.freeinode_ts inumber AllocState.FREE }, -1)
          | some b =>
              (setBlockContent s2 b (BlockContent.dirents fun _ => ⟨"", -1⟩),
               (inumber : ℤ))
    | InodeType.T_FILE =>
        (updInode s1 inumber fun _ => freshFileInode, (inumber : ℤ))

/-- `inode_get` (state.c:258). -/
def inode_get (cfg : Config) (s : FSState) (inumber : ℤ) : Option Inode :=
  if valid_inumber cfg inumber then some (s.inode_table inumber.toNat) else none

/-- The direct-block loop of `free_inode_blocks` (state.c:545-552):
frees `i_data_blocks[i]` for `i` in `[i, i + k)`, aborting with the partial
frees applied when `data_block_free` rejects a slot. -/
def freeDirectLoop (cfg : Config) (blocks : ℕ → ℤ) : ℕ → ℕ → FSState →
    FSState × Bool
  | _, 0, s => (s, true)
  | i, k + 1, s =>
      let p := data_block_free cfg s (blocks i)
      if p.2 = -1 then (p.1, false) else freeDirectLoop cfg blocks (i + 1) k p.1

/-- The indirect-slot loop of `free_inode_blocks` (state.c:582-589):
frees `block[j]` for `j` in `[j, j + k)` reading slot values through the
`int` view of the indirect block `b`. -/
def freeIndirLoop (cfg : Config) (b : ℕ) : ℕ → ℕ → FSState →
    Option (FSState × Bool)
  | _, 0, s => some (s, true)
  | j, k + 1, s =>
      match blockGetInt cfg s b (j : ℤ) with
      | none => none
      | some v =>
          let p := data_block_free cfg s v
          if p.2 = -1 then some (p.1, false)
          else freeIndirLoop cfg b (j + 1) k p.1

/-- `free_inode_blocks` (state.c:531): frees every direct slot (whatever
its value), then, when an indirect block is present, the slots strictly
below `i_curr_indir` and finally the indirect block itself. -/
def free_inode_blocks (cfg : Config) (s : FSState) (inumber : ℤ) :
    Option (FSState × ℤ) :=
  if valid_inumber cfg inumber then
    let inum := inumber.toNat
    let p := freeDirectLoop cfg (s.inode_table inum).i_data_blocks 0
      cfg.maxFileBlocks s
    if p.2 = false then some (p.1, -1)
    else
      let s1 := p.1
      let ino := s1.inode_table inum
      if ino.i_indir_block = -1 then some (s1, 0)
      else
        match data_block_get cfg ino.i_indir_block with
        | none => some (s1, -1)
        | some b =>
            match freeIndirLoop cfg b 0 ino.i_curr_indir.toNat s1 with
            | none => none
            | some q =>
                if q.2 = false then some (q.1, -1)
                else
                  let r := data_block_free cfg q.1 ino.i_indir_block
                  if r.2 = -1 then some (r.1, -1) else some (r.1, 0)
  else some (s, -1)

/-- `inode_delete` (state.c:223): rejects invalid or already-free
inumbers; marks the slot `FREE` first, then releases the owned blocks when
the inode had nonzero size. -/
def inode_delete (cfg : Config) (s : FSState) (inumber : ℤ) :
    Option (FSState × ℤ) :=
  if valid_inumber cfg inumber ∧ s.freeinode_ts inumber.toNat = AllocState.TAKEN then
    let s1 : FSState :=
      { s with freeinode_ts := Function.update s.freeinode_ts inumber.toNat AllocState.FREE }
    if (s1.inode_table inumber.toNat).i_size > 0 then
      match free_inode_blocks cfg s1 inumber with
      | none => none
      | some p => if p.2 = -1 then some (p.1, -1) else some (p.1, 0)
    else some (s1, 0)
  else some (s, -1)

/-- `add_dir_entry` (state.c:275): validates both inumbers, the directory
type and a non-empty name; fills the first empty entry of the directory's
single data block with the name truncated to `MAX_FILE_NAME - 1`
characters. -/
def add_dir_entry (cfg : Config) (s : FSState) (inumber sub_inumber : ℤ)
    (sub_name : String) : Option (FSState × ℤ) :=
  if valid_inumber cfg inumber ∧ valid_inumber cfg sub_inumber then
    if (s.inode_table inumber.toNat).i_node_type = InodeType.T_DIRECTORY then
      if sub_name.length = 0 then some (s, -1)
      else
        match data_block_get cfg ((s.inode_table inumber.toNat).i_data_blocks 0) with
        | none => some (s, -1)
        | some b =>
            match s.fs_data b with
            | BlockContent.dirents f =>
                match firstIdx (fun i => decide ((f i).d_inumber = -1)) 0
                    cfg.maxDirEntries with
                | some i =>
                    some (setBlockContent s b (BlockContent.dirents
                      (Function.update f i
                        ⟨sub_name.take (cfg.maxFileName - 1), sub_inumber⟩)), 0)
                | none => some (s, -1)
            | _ => none
    else some (s, -1)
  else some (s, -1)

/-- `find_in_dir` (state.c:338): linear scan of the directory's entries for
a non-empty entry whose stored (already truncated) name `strncmp`-matches
the query; returns its inumber, `-1` on a miss. -/
def find_in_dir (cfg : Config) (s : FSState) (inumber : ℤ)
    (sub_name : String) : Option ℤ :=
  if valid_inumber cfg inumber ∧
      (s.inode_table inumber.toNat).i_node_type = InodeType.T_DIRECTORY then
    match data_block_get cfg ((s.inode_table inumber.toNat).i_data_blocks 0) with
    | none => some (-1)
    | some b =>
        match s.fs_data b with
        | BlockContent.dirents f =>
            match firstIdx
                (fun i => decide ((f i).d_inumber ≠ -1 ∧ (f i).d_name = sub_name))
                0 cfg.maxDirEntries with
            | some i => some (f i).d_inumber
            | none => some (-1)
        | _ => none
  else some (-1)

/-- `add_to_open_file_table`.  Modelled from the spec: the three-argument
revision called by `operations.c` (decoupled read and write offsets) is not
among the sources — only the stale two-argument version in `state.c:451`.
Spec §4.5: "`add(inum, read_offset, write_offset) -> handle | Exhausted`:
first-fit over a fixed-size bitmap-guarded array". -/
def add_to_open_file_table (cfg : Config) (s : FSState) (inumber : ℤ)
    (read_offset write_offset : ℕ) : FSState × ℤ :=
  match firstIdx (fun i => decide (s.free_open_file_entries i = AllocState.FREE)) 0
      cfg.maxOpenFiles with
  | some i =>
      ({ s with
          free_open_file_entries :=
            Function.update s.free_open_file_entries i AllocState.TAKEN,
          open_file_table :=
            Function.update s.open_file_table i
              ⟨inumber, read_offset, write_offset⟩ },
       (i : ℤ))
  | none => (s, -1)

/-- `remove_from_open_file_table` (state.c:488): fails unless the handle is
in range and currently `TAKEN`; marks it `FREE`. -/
def remove_from_open_file_table (cfg : Config) (s : FSState) (fhandle : ℤ) :
    FSState × ℤ :=
  if valid_file_handle cfg fhandle ∧
      s.free_open_file_entries fhandle.toNat = AllocState.TAKEN then
    ({ s with free_open_file_entries :=
        Function.update s.free_open_file_entries fhandle.toNat AllocState.FREE }, 0)
  else (s, -1)

/-- `get_open_file_entry` (state.c:518): only range-checks the handle — a
`FREE` entry is returned as-is, exactly as in the source. -/
def get_open_file_entry (cfg : Config) (s : FSState) (fhandle : ℤ) :
    Option OpenFileEntry :=
  if valid_file_handle cfg fhandle then some (s.open_file_table fhandle.toNat)
  else none

/-! ## The file system operations (`operations.c`) -/

/-- `tfs_init` (operations.c:15): initialise the state and create the root
directory inode, which must be `ROOT_DIR_INUM = 0`. -/
def tfs_init (cfg : Config) : FSState × ℤ :=
  let p := inode_create cfg (state_init cfg) InodeType.T_DIRECTORY
  if p.2 ≠ 0 then (p.1, -1) else (p.1, 0)

/-- `valid_pathname` (operations.c:32): non-null, length > 1, leading '/'. -/
def valid_pathname (name : String) : Prop :=
  1 < name.length ∧ name.take 1 = "/"

instance (name : String) : Decidable (valid_pathname name) := by
  unfold valid_pathname; infer_instance

/-- `tfs_lookup` (operations.c:37): validate the path, strip the leading
separator, search the root directory. -/
def tfs_lookup (cfg : Config) (s : FSState) (name : String) : Option ℤ :=
  if valid_pathname name then find_in_dir cfg s 0 (name.drop 1) else some (-1)

/-- `tfs_open` flag bits (`common.h`): `CREAT = 0b001`, `TRUNC = 0b010`,
`APPEND = 0b100`. -/
def TFS_O_CREAT : ℕ := 1

/-- `TFS_O_TRUNC` flag bit. -/
def TFS_O_TRUNC : ℕ := 2

/-- `TFS_O_APPEND` flag bit. -/
def TFS_O_APPEND : ℕ := 4

/-- `tfs_open` (operations.c:48).  For an existing file: optional truncate
(release all blocks via `free_inode_blocks`, then zero the size) when the
size is positive, then both offsets start at the (possibly reset) size
under `APPEND`, else at 0.  For a missing file with `CREAT`: create a file
inode, register it in the root directory (deleting the inode again when the
directory is full).  Finally register the open-file entry. -/
def tfs_open (cfg : Config) (s : FSState) (name : String) (flags : ℕ) :
    Option (FSState × ℤ) :=
  if valid_pathname name then
    match tfs_lookup cfg s name with
    | none => none
    | some inum =>
      if 0 ≤ inum then
        -- the file already exists; inode_rdlock/inode_get reject invalid inums
        if valid_inumber cfg inum then
          let truncRes : Option (Sum (FSState × ℤ) FSState) :=
            if flags &&& TFS_O_TRUNC ≠ 0 then
              if (s.inode_table inum.toNat).i_size > 0 then
                match free_inode_blocks cfg s inum with
                | none => none
                | some p =>
                    if p.2 = -1 then some (Sum.inl (p.1, -1))
                    else some (Sum.inr
                      (updInode p.1 inum.toNat fun ino => { ino with i_size := 0 }))
              else some (Sum.inr s)
            else some (Sum.inr s)
          match truncRes with
          | none => none
          | some (Sum.inl r) => some r
          | some (Sum.inr s1) =>
              let off : ℕ :=
                if flags &&& TFS_O_APPEND ≠ 0 then (s1.inode_table inum.toNat).i_size
                else 0
              some (add_to_open_file_table cfg s1 inum off off)
        else some (s, -1)
      else if flags &&& TFS_O_CREAT ≠ 0 then
        let p := inode_create cfg s InodeType.T_FILE
        if p.2 = -1 then some (p.1, -1)
        else
          match add_dir_entry cfg p.1 0 p.2 (name.drop 1) with
          | none => none
          | some q =>
              if q.2 = -1 then
                match inode_delete cfg q.1 p.2 with
                | none => none
                | some r => some (r.1, -1)
              else some (add_to_open_file_table cfg q.1 p.2 0 0)
      else some (s, -1)
  else some (s, -1)

/-- `tfs_close` (operations.c:152). -/
def tfs_close (cfg : Config) (s : FSState) (fhandle : ℤ) : FSState × ℤ :=
  remove_from_open_file_table cfg s fhandle

/-- The request-splitting step of `tfs_write` (operations.c:210-231): when
`to_write + real_offset > BLOCK_SIZE` the current step is capped at
`BLOCK_SIZE - real_offset`, and the remainder becomes `write_scraps` only
when `(int) i_curr_indir < (int)(INDIR_BLOCK_SIZE - 1)`; otherwise the
excess is dropped.  Returns `(to_write, write_scraps)`. -/
def writeSplit (cfg : Config) (len real_offset : ℕ) (curr_indir : ℤ) : ℕ × ℕ :=
  if len + real_offset > cfg.blockSize then
    (cfg.blockSize - real_offset,
     if curr_indir < (cfg.indirBlockSize : ℤ) - 1 then
       len - (cfg.blockSize - real_offset)
     else 0)
  else (len, 0)

/-- The eager-allocation loop of `tfs_write` (operations.c:243-250): for
each of the `k` direct slots starting at `i`, store the result of
`data_block_alloc` into the slot and abort with `false` on exhaustion. -/
def allocDirectLoop (cfg : Config) (inum : ℕ) : ℕ → ℕ → FSState →
    FSState × Bool
  | _, 0, s => (s, true)
  | i, k + 1, s =>
      let p := data_block_alloc cfg s
      let s1 := updInode p.1 inum fun ino =>
        { ino with i_data_blocks := Function.update ino.i_data_blocks i p.2 }
      if p.2 = -1 then (s1, false) else allocDirectLoop cfg inum (i + 1) k s1

/-- Lines 240-255 of `tfs_write`: on `i_size == 0` allocate the whole
direct capacity and reset `i_curr_block` to 0. -/
def writeAllocPhase (cfg : Config) (s : FSState) (inum : ℕ) :
    Sum (FSState × ℤ) FSState :=
  if (s.inode_table inum).i_size = 0 then
    let p := allocDirectLoop cfg inum 0 cfg.maxFileBlocks s
    if p.2 = false then Sum.inl (p.1, -1)
    else Sum.inr (updInode p.1 inum fun ino => { ino with i_curr_block := 0 })
  else Sum.inr s

/-- Lines 263-286 of `tfs_write`: when the inode has no indirect block
yet, allocate one, store its index, reset `i_curr_indir` to 0 and
initialise every slot of the new block to `-1`.  `Sum.inl` is an early
`return -1`. -/
def indirInitPhase (cfg : Config) (s : FSState) (inum : ℕ) :
    Option (Sum (FSState × ℤ) FSState) :=
  if (s.inode_table inum).i_indir_block = -1 then
    let p := data_block_alloc cfg s
    let s1 := updInode p.1 inum fun i => { i with i_indir_block := p.2 }
    if p.2 = -1 then some (Sum.inl (s1, -1))
    else
      let s2 := updInode s1 inum fun i => { i with i_curr_indir := 0 }
      match data_block_get cfg p.2 with
      | none => some (Sum.inl (s2, -1))
      | some b =>
          -- initialise every indirect slot to -1 (lines 283-285)
          some (Sum.inr (setBlockContent s2 b (BlockContent.ints fun _ => -1)))
  else some (Sum.inr s)

/-- Lines 288-306 of `tfs_write`: read the current slot of the indirect
block (`none` models the out-of-bounds access when `i_curr_indir` is not a
valid slot index), allocating a fresh data block into the slot on first
touch.  Returns the state and the resolved block index. -/
def indirSlotPhase (cfg : Config) (s : FSState) (inum : ℕ) :
    Option (Sum (FSState × ℤ) (FSState × ℤ)) :=
  let ino := s.inode_table inum
  match data_block_get cfg ino.i_indir_block with
  | none => some (Sum.inl (s, -1))
  | some b =>
      match blockGetInt cfg s b ino.i_curr_indir with
      | none => none
      | some v =>
          if v = -1 then
            let p := data_block_alloc cfg s
            match blockSetInt cfg p.1 b ino.i_curr_indir p.2 with
            | none => none
            | some s2 =>
                if p.2 = -1 then some (Sum.inl (s2, -1))
                else some (Sum.inr (s2, p.2))
          else some (Sum.inr (s, v))

/-- Lines 259-327 of `tfs_write`: resolve the data block that receives this
step's bytes and advance the relevant cursor when the block fills up or
bytes were deferred.  Returns the block index (`temp[i_curr_indir]` resp.
`i_data_blocks[i_curr_block]`) together with the updated state; `Sum.inl`
is an early `return -1`, `none` an out-of-bounds access. -/
def writeResolveBlock (cfg : Config) (s : FSState) (inum : ℕ)
    (to_write real_offset write_scraps : ℕ) :
    Option (Sum (FSState × ℤ) (FSState × ℤ)) :=
  if (s.inode_table inum).i_curr_block = (cfg.maxFileBlocks : ℤ) then
    -- the direct capacity is exhausted: use the indirect block
    match indirInitPhase cfg s inum with
    | none => none
    | some (Sum.inl r) => some (Sum.inl r)
    | some (Sum.inr s1) =>
        match indirSlotPhase cfg s1 inum with
        | none => none
        | some (Sum.inl r) => some (Sum.inl r)
        | some (Sum.inr (s2, bid)) =>
            let s3 :=
              if write_scraps > 0 ∨ to_write + real_offset = cfg.blockSize then
                updInode s2 inum fun i =>
                  { i with i_curr_indir := i.i_curr_indir + 1 }
              else s2
            some (Sum.inr (s3, bid))
  else
    -- a direct block receives the bytes (lines 318-327)
    if 0 ≤ (s.inode_table inum).i_curr_block ∧
        (s.inode_table inum).i_curr_block < (cfg.maxFileBlocks : ℤ) then
      let bid := (s.inode_table inum).i_data_blocks
        (s.inode_table inum).i_curr_block.toNat
      let s1 :=
        if write_scraps > 0 ∨ to_write + real_offset = cfg.blockSize then
          updInode s inum fun i => { i with i_curr_block := i.i_curr_block + 1 }
        else s
      some (Sum.inr (s1, bid))
    else none

/-- Lines 257-377 of `tfs_write` without the eager-allocation phase: block
resolution, the `NULL` check, the `memcpy`, and the size and write-offset
updates.  `Sum.inl` is an early `return -1`. -/
def writeCommit (cfg : Config) (s1 : FSState) (fh inum : ℕ)
    (to_write real_offset write_scraps : ℕ) (data : List ℕ) :
    Option (Sum (FSState × ℤ) FSState) :=
  match writeResolveBlock cfg s1 inum to_write real_offset write_scraps with
  | none => none
  | some (Sum.inl r) => some (Sum.inl r)
  | some (Sum.inr (s2, bid)) =>
      match data_block_get cfg bid with
      | none => some (Sum.inl (s2, -1))  -- block == NULL (line 333)
      | some b =>
          match blockWriteBytes cfg s2 b real_offset data with
          | none => none
          | some s3 =>
              let s4 := updInode s3 inum fun i =>
                { i with i_size := i.i_size + to_write }
              some (Sum.inr (updOF s4 fh fun e =>
                { e with of_write_offset := e.of_write_offset + to_write }))

/-- The body of one `tfs_write` invocation after the split (operations.c
lines 233-377): allocation phase, block resolution, the `memcpy`, the size
and write-offset updates.  `Sum.inl` is an early `return -1`. -/
def writeCore (cfg : Config) (s : FSState) (fh inum : ℕ)
    (to_write real_offset write_scraps : ℕ) (data : List ℕ) :
    Option (Sum (FSState × ℤ) FSState) :=
  match writeAllocPhase cfg s inum with
  | Sum.inl r => some (Sum.inl r)
  | Sum.inr s1 =>
      writeCommit cfg s1 fh inum to_write real_offset write_scraps data

/-- `tfs_write` (operations.c:154), with an explicit recursion bound: the
source recurses on the deferred remainder, which is strictly shorter than
the buffer, so `buffer.length + 1` units of fuel always suffice (see
`tfs_write`).  The recursive call's result is discarded except for its
state, exactly as in the source (line 383); the call returns
`to_write + write_scraps`. -/
def tfsWriteFuel (cfg : Config) : ℕ → FSState → ℤ → List ℕ →
    Option (FSState × ℤ)
  | 0, _, _, _ => none
  | fuel + 1, s, fhandle, buffer =>
    if valid_file_handle cfg fhandle then
      let fh := fhandle.toNat
      let file := s.open_file_table fh
      if valid_inumber cfg file.of_inumber then
        let inum := file.of_inumber.toNat
        let real_offset := file.of_write_offset % cfg.blockSize
        let sp := writeSplit cfg buffer.length real_offset
          (s.inode_table inum).i_curr_indir
        if sp.1 = 0 then some (s, ((sp.1 + sp.2 : ℕ) : ℤ))
        else
          match writeCore cfg s fh inum sp.1 real_offset sp.2
              (buffer.take sp.1) with
          | none => none
          | some (Sum.inl r) => some r
          | some (Sum.inr s1) =>
              if sp.2 > 0 then
                match tfsWriteFuel cfg fuel s1 fhandle (buffer.drop sp.1) with
                | none => none
                | some (s2, _) => some (s2, ((sp.1 + sp.2 : ℕ) : ℤ))
              else some (s1, ((sp.1 + sp.2 : ℕ) : ℤ))
      else some (s, -1)
    else some (s, -1)

/-- `tfs_write` entry point: the recursion of the source is bounded by the
buffer length (each step writes at least one byte before deferring). -/
def tfs_write (cfg : Config) (s : FSState) (fhandle : ℤ) (buffer : List ℕ) :
    Option (FSState × ℤ) :=
  tfsWriteFuel cfg (buffer.length + 1) s fhandle buffer

/-- The `size_t` subtraction `inode->i_size - file->of_read_offset` of
`tfs_read` (operations.c:429): wraps modulo `2 ^ 64` when the read offset
exceeds the size. -/
def szSub (a b : ℕ) : ℕ :=
  if b ≤ a then a - b else 2 ^ 64 - (b - a)

/-- `tfs_read` (operations.c:394): clamp the requested length to
`i_size - of_read_offset`, resolve the block containing the read offset
through the direct list or the indirect block, copy from the single
resolved block, and advance the read cursor by the bytes copied.  Returns
the new state, the bytes copied out and the C return value. -/
def tfs_read (cfg : Config) (s : FSState) (fhandle : ℤ) (len : ℕ) :
    Option (FSState × List ℕ × ℤ) :=
  if valid_file_handle cfg fhandle then
    let fh := fhandle.toNat
    let file := s.open_file_table fh
    if valid_inumber cfg file.of_inumber then
      let inum := file.of_inumber.toNat
      let ino := s.inode_table inum
      let to_read := min (szSub ino.i_size file.of_read_offset) len
      if to_read = 0 then some (s, [], 0)
      else
        let offset_block := file.of_read_offset / cfg.blockSize
        let real_offset := file.of_read_offset % cfg.blockSize
        let bidRes : Option (Option ℤ) :=
          if offset_block < cfg.maxFileBlocks then
            some (some (ino.i_data_blocks offset_block))
          else
            match data_block_get cfg ino.i_indir_block with
            | none => some none  -- temp == NULL: return -1 (line 474)
            | some b =>
                match blockGetInt cfg s b
                    ((offset_block : ℤ) - (cfg.maxFileBlocks : ℤ)) with
                | none => none
                | some v => some (some v)
        match bidRes with
        | none => none
        | some none => some (s, [], -1)
        | some (some bid) =>
            match data_block_get cfg bid with
            | none => some (s, [], -1)  -- block == NULL (line 486)
            | some b =>
                match blockReadBytes cfg s b real_offset to_read with
                | none => none
                | some out =>
                    some (updOF s fh fun e =>
                      { e with of_read_offset := e.of_read_offset + to_read },
                      out, (to_read : ℤ))
    else some (s, [], -1)
  else some (s, [], -1)

/-! ## The server's opcode dispatch (`tfs_server.c`) -/

/-- The seven request handlers of the server. -/
inductive ServerOp where
  | mount
  | unmount
  | sopen
  | sclose
  | swrite
  | sread
  | shutdown
deriving DecidableEq

/-- The opcode dispatch of the server loop (tfs_server.c:649-672): a
`switch` on the request's opcode whose cases 1-7 call, in order,
`tfs_server_mount`, `..._unmount`, `..._open`, `..._close`, `..._write`,
`..._read`, `..._shutdown`.  None of the cases ends in a `break`, so by C
`switch` semantics control falls through: the handlers invoked are the one
selected by the opcode followed by all later ones. -/
def serverDispatch (op : ℤ) : List ServerOp :=
  if op = 1 then
    [ServerOp.mount, ServerOp.unmount, ServerOp.sopen, ServerOp.sclose,
     ServerOp.swrite, ServerOp.sread, ServerOp.shutdown]
  else if op = 2 then
    [ServerOp.unmount, ServerOp.sopen, ServerOp.sclose, ServerOp.swrite,
     ServerOp.sread, ServerOp.shutdown]
  else if op = 3 then
    [ServerOp.sopen, ServerOp.sclose, ServerOp.swrite, ServerOp.sread,
     ServerOp.shutdown]
  else if op = 4 then
    [ServerOp.sclose, ServerOp.swrite, ServerOp.sread, ServerOp.shutdown]
  else if op = 5 then
    [ServerOp.swrite, ServerOp.sread, ServerOp.shutdown]
  else if op = 6 then
    [ServerOp.sread, ServerOp.shutdown]
  else if op = 7 then
    [ServerOp.shutdown]
  else []

/-- The handler that corresponds to each opcode in the request-frame
protocol (`common.h`: `TFS_OP_CODE_MOUNT = 1` ... `SHUTDOWN = 7`). -/
def opcodeHandler (op : ℤ) : Option ServerOp :=
  if op = 1 then some ServerOp.mount
  else if op = 2 then some ServerOp.unmount
  else if op = 3 then some ServerOp.sopen
  else if op = 4 then some ServerOp.sclose
  else if op = 5 then some ServerOp.swrite
  else if op = 6 then some ServerOp.sread
  else if op = 7 then some ServerOp.shutdown
  else none

/-! ## Concrete instances used by the witnesses and counterexamples -/

/-- A small concrete configuration used to evaluate the model on explicit
inputs: blocks of 4 bytes, 2 direct slots, 3 indirect slots, 16 data
blocks, 4 inodes, 3 open-file slots. -/
def wcfg : Config :=
  ⟨4, 2, 3, 16, 4, 3, 4, 8, by decide⟩

/-- The root directory inode of the concrete states: one data block
(block 0) holding the entries, size `BLOCK_SIZE`. -/
def rootInode : Inode :=
  ⟨InodeType.T_DIRECTORY, 4, fun i => if i = 0 then 0 else -1, 0, -1, -1⟩

/-- Root directory contents: the single file "f" at inode 1. -/
def rootDirents : ℕ → DirEntry :=
  fun i => if i = 0 then ⟨"f", 1⟩ else ⟨"", -1⟩

/-- Byte-block content taken from a list (unwritten bytes read 0). -/
def bytesOf (l : List ℕ) : BlockContent :=
  BlockContent.bytes fun j => l.getD j 0

/-- A concrete state on `wcfg`, as produced by `tfs_init`, then
`tfs_open "/f" CREAT` (file inode 1, handle 0), then writing the 14 bytes
`[1, ..., 14]` through handle 0: both direct blocks (1 and 2) are full, the
indirect block 3 was allocated, its slot 0 (= block 4) is full and its
slot 1 (= block 5) holds two bytes, so `i_curr_indir = 1` rests on the
partially filled slot 1. -/
def wSt14 : FSState where
  freeinode_ts := fun i => if i < 2 then AllocState.TAKEN else AllocState.FREE
  inode_table := fun i =>
    if i = 0 then rootInode
    else if i = 1 then
      ⟨InodeType.T_FILE, 14,
       (fun j => if j = 0 then 1 else if j = 1 then 2 else -1), 2, 3, 1⟩
    else zeroInode
  free_blocks := fun b => if b < 6 then AllocState.TAKEN else AllocState.FREE
  fs_data := fun b =>
    if b = 0 then BlockContent.dirents rootDirents
    else if b = 1 then bytesOf [1, 2, 3, 4]
    else if b = 2 then bytesOf [5, 6, 7, 8]
    else if b = 3 then
      BlockContent.ints fun j => if j = 0 then 4 else if j = 1 then 5 else -1
    else if b = 4 then bytesOf [9, 10, 11, 12]
    else if b = 5 then bytesOf [13, 14]
    else BlockContent.raw
  free_open_file_entries := fun h =>
    if h = 0 then AllocState.TAKEN else AllocState.FREE
  open_file_table := fun h => if h = 0 then ⟨1, 0, 14⟩ else zeroOF

/-- `wSt14` continued by writing 6 further bytes: the file's entire
direct + indirect capacity (20 bytes) is consumed and
`i_curr_indir = 3 = INDIR_BLOCK_SIZE`. -/
def wFull : FSState where
  freeinode_ts := fun i => if i < 2 then AllocState.TAKEN else AllocState.FREE
  inode_table := fun i =>
    if i = 0 then rootInode
    else if i = 1 then
      ⟨InodeType.T_FILE, 20,
       (fun j => if j = 0 then 1 else if j = 1 then 2 else -1), 2, 3, 3⟩
    else zeroInode
  free_blocks := fun b => if b < 7 then AllocState.TAKEN else AllocState.FREE
  fs_data := fun b =>
    if b = 0 then BlockContent.dirents rootDirents
    else if b = 1 then bytesOf [1, 2, 3, 4]
    else if b = 2 then bytesOf [5, 6, 7, 8]
    else if b = 3 then
      BlockContent.ints fun j =>
        if j = 0 then 4 else if j = 1 then 5 else if j = 2 then 6 else -1
    else if b = 4 then bytesOf [9, 10, 11, 12]
    else if b = 5 then bytesOf [13, 14, 21, 22]
    else if b = 6 then bytesOf [23, 24, 25, 26]
    else BlockContent.raw
  free_open_file_entries := fun h =>
    if h = 0 then AllocState.TAKEN else AllocState.FREE
  open_file_table := fun h => if h = 0 then ⟨1, 0, 20⟩ else zeroOF

/-! ## First-fit scan lemmas -/

theorem firstIdx_eq_some {p : ℕ → Bool} :
    ∀ {k i j : ℕ}, firstIdx p i k = some j →
      i ≤ j ∧ j < i + k ∧ p j = true ∧ ∀ m, i ≤ m → m < j → p m = false := by
  intro k
  induction k with
  | zero => intro i j h; simp [firstIdx] at h
  | succ k ih =>
      intro i j h
      rw [firstIdx] at h
      by_cases hp : p i
      · rw [if_pos hp] at h
        cases h
        exact ⟨le_refl _, by omega, hp, fun m h1 h2 => absurd h1 (by omega)⟩
      · rw [if_neg hp] at h
        obtain ⟨h1, h2, h3, h4⟩ := ih h
        refine ⟨by omega, by omega, h3, fun m hm1 hm2 => ?_⟩
        rcases Nat.eq_or_lt_of_le hm1 with rfl | hlt
        · exact Bool.eq_false_iff.mpr hp
        · exact h4 m hlt hm2

theorem firstIdx_eq_none {p : ℕ → Bool} :
    ∀ {k i : ℕ}, (∀ m, i ≤ m → m < i + k → p m = false) →
      firstIdx p i k = none := by
  intro k
  induction k with
  | zero => intro i _; rfl
  | succ k ih =>
      intro i h
      rw [firstIdx, if_neg, ih]
      · intro m h1 h2; exact h m (by omega) (by omega)
      · exact Bool.eq_false_iff.mp (h i (le_refl _) (by omega))

theorem firstIdx_spec_some {p : ℕ → Bool} :
    ∀ {k i j : ℕ}, i ≤ j → j < i + k → p j = true →
      (∀ m, i ≤ m → m < j → p m = false) → firstIdx p i k = some j := by
  intro k
  induction k with
  | zero => intro i j h1 h2; omega
  | succ k ih =>
      intro i j h1 h2 h3 h4
      rw [firstIdx]
      rcases Nat.eq_or_lt_of_le h1 with rfl | hlt
      · rw [if_pos h3]
      · rw [if_neg (Bool.eq_false_iff.mp (h4 i (le_refl _) hlt))]
        exact ih (by omega) (by omega) h3 (fun m hm1 hm2 => h4 m (by omega) hm2)

/-! ## Claim C10 -/

/-- C10: for every in-range block number, `data_block_free` marks the block
`FREE` and returns 0 — with no hypothesis on the block's current allocation
state, so freeing an already-free block is also accepted: the immediately
repeated free again returns 0.  A double free is never reported as an
error. -/
theorem data_block_free_not_exactly_once (cfg : Config) (s : FSState) (b : ℤ)
    (hv : valid_block_number cfg b) :
    (data_block_free cfg s b).2 = 0 ∧
    (data_block_free cfg s b).1.free_blocks b.toNat = AllocState.FREE ∧
    (data_block_free cfg (data_block_free cfg s b).1 b).2 = 0 ∧
    (data_block_free cfg (data_block_free cfg s b).1 b).1.free_blocks b.toNat
      = AllocState.FREE := by
  have he : ∀ t : FSState, data_block_free cfg t b =
      ({ t with free_blocks := Function.update t.free_blocks b.toNat AllocState.FREE }, 0) := by
    intro t; unfold data_block_free; rw [if_pos hv]
  rw [he, he]
  exact ⟨rfl, Function.update_same _ _ _, rfl, Function.update_same _ _ _⟩

/-- Witness for C10: freeing block 5 of `wSt14` (currently `TAKEN`)
succeeds, and so does freeing it a second time. -/
theorem data_block_free_not_exactly_once_witness :
    valid_block_number wcfg 5 ∧
    ((data_block_free wcfg wSt14 5).2 = 0 ∧
     (data_block_free wcfg wSt14 5).1.free_blocks (5 : ℤ).toNat = AllocState.FREE ∧
     (data_block_free wcfg (data_block_free wcfg wSt14 5).1 5).2 = 0 ∧
     (data_block_free wcfg (data_block_free wcfg wSt14 5).1 5).1.free_blocks
        (5 : ℤ).toNat = AllocState.FREE) :=
  ⟨by decide, data_block_free_not_exactly_once wcfg wSt14 5 (by decide)⟩

/-! ## Claim C9 -/

/-- C9: after a successful `tfs_close` of a taken handle, a second
`tfs_close` of the same handle (no intervening open) fails with `-1` and
leaves the state unchanged: close never succeeds twice on one handle. -/
theorem tfs_close_never_succeeds_twice (cfg : Config) (s : FSState) (fh : ℤ)
    (hv : valid_file_handle cfg fh)
    (ht : s.free_open_file_entries fh.toNat = AllocState.TAKEN) :
    (tfs_close cfg s fh).2 = 0 ∧
    (tfs_close cfg (tfs_close cfg s fh).1 fh).2 = -1 ∧
    (tfs_close cfg (tfs_close cfg s fh).1 fh).1 = (tfs_close cfg s fh).1 := by
  unfold tfs_close remove_from_open_file_table
  rw [if_pos ⟨hv, ht⟩]
  refine ⟨rfl, ?_, ?_⟩ <;>
    simp [Function.update_same]

/-- Witness for C9: closing handle 0 of `wSt14` succeeds once and fails the
second time. -/
theorem tfs_close_never_succeeds_twice_witness :
    valid_file_handle wcfg 0 ∧
    wSt14.free_open_file_entries (0 : ℤ).toNat = AllocState.TAKEN ∧
    ((tfs_close wcfg wSt14 0).2 = 0 ∧
     (tfs_close wcfg (tfs_close wcfg wSt14 0).1 0).2 = -1 ∧
     (tfs_close wcfg (tfs_close wcfg wSt14 0).1 0).1 = (tfs_close wcfg wSt14 0).1) :=
  ⟨by decide, by decide,
   tfs_close_never_succeeds_twice wcfg wSt14 0 (by decide) (by decide)⟩

/-! ## Claim C7 -/

/-- C7 (evaluation of the defect): the server's `switch` has no `break`
statements, so a request frame with opcode 1 invokes not just the mount
handler but, by fall-through, every later handler as well — the dispatch is
not "exactly the handler corresponding to the frame's opcode". -/
theorem serverDispatch_opcode1_falls_through :
    serverDispatch 1 = [ServerOp.mount, ServerOp.unmount, ServerOp.sopen,
      ServerOp.sclose, ServerOp.swrite, ServerOp.sread, ServerOp.shutdown] ∧
    opcodeHandler 1 = some ServerOp.mount ∧
    serverDispatch 1 ≠ [ServerOp.mount] := by
  decide

/-! ## Claim C2 -/

/-- The index, in the combined sequence of `MAX_FILE_BLOCKS` direct slots
followed by `INDIR_BLOCK_SIZE` indirect slots, of the block slot the write
cursor currently rests on. -/
def currentSlotIndex (cfg : Config) (curr_block curr_indir : ℤ) : ℤ :=
  if curr_indir < 0 then curr_block else (cfg.maxFileBlocks : ℤ) + curr_indir

/-- Well-formedness of the two cursors as maintained by sequential writes:
either the indirect cursor is still unused (`-1`) and the direct cursor is
within `[0, MAX_FILE_BLOCKS]`, or the direct capacity is exhausted and the
indirect cursor is within `[0, INDIR_BLOCK_SIZE]`. -/
def WFCursors (cfg : Config) (curr_block curr_indir : ℤ) : Prop :=
  (curr_indir = -1 ∧ 0 ≤ curr_block ∧ curr_block ≤ (cfg.maxFileBlocks : ℤ)) ∨
  (curr_block = (cfg.maxFileBlocks : ℤ) ∧ 0 ≤ curr_indir ∧
    curr_indir ≤ (cfg.indirBlockSize : ℤ))

/-- C2: when the requested length plus the intra-block offset exceeds
`BLOCK_SIZE`, the step is capped at exactly `BLOCK_SIZE - real_offset`
bytes, and the remainder is deferred (`write_scraps ≠ 0`, in which case it
is the whole excess) if and only if at least one more block slot — direct
or indirect — lies beyond the slot currently being written; otherwise the
excess is dropped (`write_scraps = 0`), and `tfs_write` performs the
deferred recursion only when `write_scraps > 0`. -/
theorem writeSplit_defers_iff_slot_available (cfg : Config) (len ro : ℕ)
    (cb ci : ℤ) (hWF : WFCursors cfg cb ci) (hM : 2 ≤ cfg.indirBlockSize)
    (hro : ro < cfg.blockSize) (hover : cfg.blockSize < len + ro) :
    (writeSplit cfg len ro ci).1 = cfg.blockSize - ro ∧
    ((writeSplit cfg len ro ci).2 ≠ 0 ↔
      currentSlotIndex cfg cb ci <
        (cfg.maxFileBlocks : ℤ) + (cfg.indirBlockSize : ℤ) - 1) ∧
    ((writeSplit cfg len ro ci).2 ≠ 0 →
      (writeSplit cfg len ro ci).2 = len - (cfg.blockSize - ro)) := by
  unfold writeSplit
  rw [if_pos (by omega)]
  refine ⟨rfl, ?_, ?_⟩
  · by_cases hci : ci < (cfg.indirBlockSize : ℤ) - 1
    · rw [if_pos hci]
      unfold currentSlotIndex
      unfold WFCursors at hWF
      constructor
      · intro _
        rcases hWF with ⟨h1, h2, h3⟩ | ⟨h1, h2, h3⟩
        · rw [if_pos (by omega)]; omega
        · rw [if_neg (by omega)]; omega
      · intro _; omega
    · rw [if_neg hci]
      unfold currentSlotIndex
      unfold WFCursors at hWF
      constructor
      · intro h; exact absurd rfl h
      · intro h
        rcases hWF with ⟨h1, h2, h3⟩ | ⟨h1, h2, h3⟩
        · omega
        · rw [if_neg (by omega)] at h; omega
  · intro h
    by_cases hci : ci < (cfg.indirBlockSize : ℤ) - 1
    · rw [if_pos hci]
    · rw [if_neg hci] at h ⊢; exact absurd rfl h

/-- Witness for C2: on the small configuration with the cursor on indirect
slot 0, a 5-byte request at intra-block offset 2 is capped at 2 bytes and
the 3 excess bytes are deferred. -/
theorem writeSplit_defers_iff_slot_available_witness :
    WFCursors wcfg 2 0 ∧ 2 ≤ wcfg.indirBlockSize ∧ 2 < wcfg.blockSize ∧
    wcfg.blockSize < 5 + 2 ∧
    ((writeSplit wcfg 5 2 0).1 = wcfg.blockSize - 2 ∧
     ((writeSplit wcfg 5 2 0).2 ≠ 0 ↔
       currentSlotIndex wcfg 2 0 <
         (wcfg.maxFileBlocks : ℤ) + (wcfg.indirBlockSize : ℤ) - 1) ∧
     ((writeSplit wcfg 5 2 0).2 ≠ 0 →
       (writeSplit wcfg 5 2 0).2 = 5 - (wcfg.blockSize - 2))) :=
  ⟨by unfold WFCursors; right; refine ⟨rfl, by decide, by decide⟩,
   by decide, by decide, by decide,
   writeSplit_defers_iff_slot_available wcfg 5 2 2 0
     (by unfold WFCursors; right; refine ⟨rfl, by decide, by decide⟩)
     (by decide) (by decide) (by decide)⟩

/-! ## Claim C4 -/

/-- C4 (evaluation of the defect): `wFull` holds a file whose combined
direct plus indirect capacity (20 bytes) is fully consumed
(`i_curr_indir = 3 = INDIR_BLOCK_SIZE`, every slot allocated and full).
One more one-byte `tfs_write` does not fail with an out-of-space error: it
indexes the indirect block's `int` array at `INDIR_BLOCK_SIZE` — an
out-of-bounds access (undefined behaviour, `none` in the model) that in C
reads whatever lies directly after the indirect block and can then address
and modify a block not owned by the file. -/
theorem tfs_write_beyond_capacity_out_of_bounds :
    (wFull.inode_table 1).i_curr_indir = (wcfg.indirBlockSize : ℤ) ∧
    (wFull.inode_table 1).i_size = 20 ∧
    (wFull.inode_table 1).i_curr_block = (wcfg.maxFileBlocks : ℤ) ∧
    tfs_write wcfg wFull 0 [99] = none := by
  refine ⟨by decide, by decide, by decide, ?_⟩
  rfl

/-! ## Claim C6 -/

/-- The state after `n` consecutive `inode_create(T_FILE)` calls starting
from `state_init`. -/
def createN (cfg : Config) : ℕ → FSState
  | 0 => state_init cfg
  | n + 1 => (inode_create cfg (createN cfg n) InodeType.T_FILE).1

/-- Equation for a file-inode creation once the first-fit scan found a free
slot. -/
theorem inode_create_file_eq (cfg : Config) (s : FSState) (n : ℕ)
    (h : firstIdx (fun i => decide (s.freeinode_ts i = AllocState.FREE)) 0
      cfg.inodeTableSize = some n) :
    inode_create cfg s InodeType.T_FILE =
      (updInode
        { s with freeinode_ts := Function.update s.freeinode_ts n AllocState.TAKEN }
        n (fun _ => freshFileInode), (n : ℤ)) := by
  unfold inode_create
  rw [h]

/-- Equation for `inode_create` when the table is exhausted: the state is
returned untouched with `-1`. -/
theorem inode_create_exhausted (cfg : Config) (s : FSState) (ty : InodeType)
    (h : firstIdx (fun i => decide (s.freeinode_ts i = AllocState.FREE)) 0
      cfg.inodeTableSize = none) :
    inode_create cfg s ty = (s, -1) := by
  unfold inode_create
  rw [h]

/-- After `n ≤ capacity` creates from the fresh state, exactly the slots
below `n` are `TAKEN` and every inode record has size 0. -/
theorem createN_characterisation (cfg : Config) :
    ∀ n, n ≤ cfg.inodeTableSize →
      (∀ i, (createN cfg n).freeinode_ts i =
          if i < n then AllocState.TAKEN else AllocState.FREE) ∧
      (∀ i, ((createN cfg n).inode_table i).i_size = 0) := by
  intro n
  induction n with
  | zero =>
      intro _
      constructor
      · intro i; rfl
      · intro i; rfl
  | succ n ih =>
      intro h
      obtain ⟨hb, hs⟩ := ih (by omega)
      have hfi : firstIdx
          (fun i => decide ((createN cfg n).freeinode_ts i = AllocState.FREE)) 0
          cfg.inodeTableSize = some n := by
        apply firstIdx_spec_some (Nat.zero_le n) (by omega)
        · rw [hb n, if_neg (lt_irrefl n)]; decide
        · intro m _ hm
          rw [hb m, if_pos hm]; decide
      constructor
      · intro i
        show ((inode_create cfg (createN cfg n) InodeType.T_FILE).1).freeinode_ts i = _
        rw [inode_create_file_eq cfg _ n hfi]
        show (Function.update (createN cfg n).freeinode_ts n AllocState.TAKEN) i = _
        by_cases hi : i = n
        · subst hi
          rw [Function.update_same, if_pos (by omega)]
        · rw [Function.update_noteq hi, hb i]
          by_cases hi2 : i < n
          · rw [if_pos hi2, if_pos (by omega)]
          · rw [if_neg hi2, if_neg (by omega)]
      · intro i
        show (((inode_create cfg (createN cfg n) InodeType.T_FILE).1).inode_table i).i_size = 0
        rw [inode_create_file_eq cfg _ n hfi]
        show ((Function.update (createN cfg n).inode_table n freshFileInode) i).i_size = 0
        by_cases hi : i = n
        · subst hi; rw [Function.update_same]; rfl
        · rw [Function.update_noteq hi]; exact hs i

/-- C6: starting from the initialised state, the first `capacity` calls of
`inode_create` each succeed and return the slots `0, 1, ...` in order
(first-fit over the free bitmap); the `(capacity+1)`-th create fails with
`-1` and leaves the state unchanged; and after `inode_delete` of any one
inode `k`, the next create succeeds and returns exactly that recycled
slot. -/
theorem inode_table_exhaustion_and_recycle (cfg : Config) (k : ℕ)
    (hk : k < cfg.inodeTableSize) :
    (∀ j, j < cfg.inodeTableSize →
      (inode_create cfg (createN cfg j) InodeType.T_FILE).2 = (j : ℤ)) ∧
    inode_create cfg (createN cfg cfg.inodeTableSize) InodeType.T_FILE
      = (createN cfg cfg.inodeTableSize, -1) ∧
    ∃ sd : FSState,
      inode_delete cfg (createN cfg cfg.inodeTableSize) (k : ℤ) = some (sd, 0) ∧
      (inode_create cfg sd InodeType.T_FILE).2 = (k : ℤ) := by
  have hN := createN_characterisation cfg cfg.inodeTableSize (le_refl _)
  refine ⟨?_, ?_, ?_⟩
  · intro j hj
    obtain ⟨hb, _⟩ := createN_characterisation cfg j (by omega)
    have hfi : firstIdx
        (fun i => decide ((createN cfg j).freeinode_ts i = AllocState.FREE)) 0
        cfg.inodeTableSize = some j := by
      apply firstIdx_spec_some (Nat.zero_le j) (by omega)
      · rw [hb j, if_neg (lt_irrefl j)]; decide
      · intro m _ hm
        rw [hb m, if_pos hm]; decide
    rw [inode_create_file_eq cfg _ j hfi]
  · apply inode_create_exhausted
    apply firstIdx_eq_none
    intro m _ hm
    rw [hN.1 m, if_pos (by omega)]
    decide
  · have hvk : valid_inumber cfg (k : ℤ) := ⟨Int.ofNat_nonneg k, by exact_mod_cast hk⟩
    have htk : (createN cfg cfg.inodeTableSize).freeinode_ts (k : ℤ).toNat
        = AllocState.TAKEN := by
      rw [Int.toNat_natCast, hN.1 k, if_pos hk]
    refine ⟨{ createN cfg cfg.inodeTableSize with
        freeinode_ts := Function.update
          (createN cfg cfg.inodeTableSize).freeinode_ts
          (k : ℤ).toNat AllocState.FREE }, ?_, ?_⟩
    · unfold inode_delete
      rw [if_pos ⟨hvk, htk⟩, if_neg]
      simp only [Int.toNat_natCast]
      by_cases hkk : ((createN cfg cfg.inodeTableSize).inode_table k).i_size = 0
      · omega
      · exact absurd (hN.2 k) hkk
    · have hfi : firstIdx
          (fun i => decide ((Function.update
            (createN cfg cfg.inodeTableSize).freeinode_ts
            (k : ℤ).toNat AllocState.FREE) i = AllocState.FREE)) 0
          cfg.inodeTableSize = some k := by
        apply firstIdx_spec_some (Nat.zero_le k) (by omega)
        · rw [Int.toNat_natCast, Function.update_same]; decide
        · intro m _ hm
          rw [Int.toNat_natCast, Function.update_noteq (by omega),
            hN.1 m, if_pos (by omega)]
          decide
      rw [inode_create_file_eq cfg _ k hfi]

/-- Witness for C6: the recycled slot is slot 2 of the small
configuration's 4-entry inode table. -/
theorem inode_table_exhaustion_and_recycle_witness :
    2 < wcfg.inodeTableSize ∧
    ((∀ j, j < wcfg.inodeTableSize →
      (inode_create wcfg (createN wcfg j) InodeType.T_FILE).2 = (j : ℤ)) ∧
    inode_create wcfg (createN wcfg wcfg.inodeTableSize) InodeType.T_FILE
      = (createN wcfg wcfg.inodeTableSize, -1) ∧
    ∃ sd : FSState,
      inode_delete wcfg (createN wcfg wcfg.inodeTableSize) ((2 : ℕ) : ℤ) = some (sd, 0) ∧
      (inode_create wcfg sd InodeType.T_FILE).2 = ((2 : ℕ) : ℤ)) :=
  ⟨by decide, inode_table_exhaustion_and_recycle wcfg 2 (by decide)⟩

/-! ## The sequential-file invariant

`FileInv cfg s inum content` captures the state of a file inode that has
only ever been appended to (created fresh, then written through
`tfs_write`, no truncation): `content` is the byte sequence written so
far.  The fields record exactly what `inode_create` establishes and each
`tfs_write` step maintains. -/

/-- Whether a block currently holds the byte view. -/
def isBytesView : BlockContent → Bool
  | BlockContent.bytes _ => true
  | _ => false

/-- Read one byte of a block through the byte view (0 otherwise). -/
def byteVal : BlockContent → ℕ → ℕ
  | BlockContent.bytes f, j => f j
  | _, _ => 0

/-- Whether a block currently holds the `int`-array view. -/
def isIntsView : BlockContent → Bool
  | BlockContent.ints _ => true
  | _ => false

/-- Read one slot of a block through the `int`-array view (0 otherwise). -/
def intVal : BlockContent → ℕ → ℤ
  | BlockContent.ints f, j => f j
  | _, _ => 0

/-- Number of data blocks touched by a file of `L` bytes. -/
def numBlocks (cfg : Config) (L : ℕ) : ℕ :=
  (L + cfg.blockSize - 1) / cfg.blockSize

/-- The physical block index backing logical block `b` of an inode:
direct slot `b` below `MAX_FILE_BLOCKS`, otherwise slot
`b - MAX_FILE_BLOCKS` of the indirect block. -/
def physBlock (cfg : Config) (s : FSState) (ino : Inode) (b : ℕ) : ℤ :=
  if b < cfg.maxFileBlocks then ino.i_data_blocks b
  else intVal (s.fs_data ino.i_indir_block.toNat) (b - cfg.maxFileBlocks)

/-- Enumeration of the block indices owned by a file with positive size:
positions below `MAX_FILE_BLOCKS` are the (eagerly allocated) direct slots,
position `MAX_FILE_BLOCKS` is the indirect block and later positions its
slots. -/
def liveBlockIdx (cfg : Config) (s : FSState) (ino : Inode) (i : ℕ) : ℤ :=
  if i < cfg.maxFileBlocks then ino.i_data_blocks i
  else if i = cfg.maxFileBlocks then ino.i_indir_block
  else intVal (s.fs_data ino.i_indir_block.toNat) (i - cfg.maxFileBlocks - 1)

/-- How many of the `liveBlockIdx` positions are owned at size `L`. -/
def liveLen (cfg : Config) (L : ℕ) : ℕ :=
  cfg.maxFileBlocks +
    (if cfg.maxFileBlocks * cfg.blockSize < L then
      1 + numBlocks cfg (L - cfg.maxFileBlocks * cfg.blockSize)
    else 0)

/-- Number of `FREE` slots in the block bitmap. -/
def freeBlockCount (cfg : Config) (s : FSState) : ℕ :=
  (List.range cfg.dataBlocks).countP fun i =>
    decide (s.free_blocks i = AllocState.FREE)

/-- Number of blocks a sequentially written file of `L` bytes has taken
from the block store. -/
def allocatedFor (cfg : Config) (L : ℕ) : ℕ :=
  if L = 0 then 0
  else cfg.maxFileBlocks +
    (if L ≤ cfg.maxFileBlocks * cfg.blockSize then 0
     else 1 + numBlocks cfg (L - cfg.maxFileBlocks * cfg.blockSize))

/-- The invariant of a sequentially appended file. -/
structure FileInv (cfg : Config) (s : FSState) (inum : ℕ)
    (content : List ℕ) : Prop where
  inum_lt : inum < cfg.inodeTableSize
  taken : s.freeinode_ts inum = AllocState.TAKEN
  isFile : (s.inode_table inum).i_node_type = InodeType.T_FILE
  size_eq : (s.inode_table inum).i_size = content.length
  cap : content.length ≤ (cfg.maxFileBlocks + cfg.indirBlockSize) * cfg.blockSize
  fresh : content.length = 0 →
    (s.inode_table inum).i_curr_block = -1 ∧
    (s.inode_table inum).i_indir_block = -1 ∧
    (s.inode_table inum).i_curr_indir = -1 ∧
    ∀ i, i < cfg.maxFileBlocks → (s.inode_table inum).i_data_blocks i = -1
  direct_valid : 0 < content.length → ∀ i, i < cfg.maxFileBlocks →
    0 ≤ (s.inode_table inum).i_data_blocks i ∧
    (s.inode_table inum).i_data_blocks i < (cfg.dataBlocks : ℤ) ∧
    s.free_blocks ((s.inode_table inum).i_data_blocks i).toNat = AllocState.TAKEN
  curr_block_eq : 0 < content.length →
    (s.inode_table inum).i_curr_block =
      ((min (content.length / cfg.blockSize) cfg.maxFileBlocks : ℕ) : ℤ)
  no_indir : 0 < content.length →
    content.length ≤ cfg.maxFileBlocks * cfg.blockSize →
    (s.inode_table inum).i_indir_block = -1 ∧
    (s.inode_table inum).i_curr_indir = -1
  indir_valid : cfg.maxFileBlocks * cfg.blockSize < content.length →
    0 ≤ (s.inode_table inum).i_indir_block ∧
    (s.inode_table inum).i_indir_block < (cfg.dataBlocks : ℤ) ∧
    s.free_blocks (s.inode_table inum).i_indir_block.toNat = AllocState.TAKEN ∧
    isIntsView (s.fs_data (s.inode_table inum).i_indir_block.toNat) = true ∧
    (s.inode_table inum).i_curr_indir =
      (((content.length - cfg.maxFileBlocks * cfg.blockSize) / cfg.blockSize : ℕ) : ℤ) ∧
    (∀ j, j < numBlocks cfg (content.length - cfg.maxFileBlocks * cfg.blockSize) →
      0 ≤ intVal (s.fs_data (s.inode_table inum).i_indir_block.toNat) j ∧
      intVal (s.fs_data (s.inode_table inum).i_indir_block.toNat) j < (cfg.dataBlocks : ℤ) ∧
      s.free_blocks (intVal (s.fs_data (s.inode_table inum).i_indir_block.toNat) j).toNat
        = AllocState.TAKEN) ∧
    (∀ j, numBlocks cfg (content.length - cfg.maxFileBlocks * cfg.blockSize) ≤ j →
      j < cfg.indirBlockSize →
      intVal (s.fs_data (s.inode_table inum).i_indir_block.toNat) j = -1)
  nodup : 0 < content.length →
    ∀ i2, i2 < liveLen cfg content.length → ∀ i1, i1 < i2 →
      liveBlockIdx cfg s (s.inode_table inum) i1
        ≠ liveBlockIdx cfg s (s.inode_table inum) i2
  content_ok : ∀ b, b < numBlocks cfg content.length →
    isBytesView (s.fs_data (physBlock cfg s (s.inode_table inum) b).toNat) = true ∧
    ∀ off, off < min cfg.blockSize (content.length - b * cfg.blockSize) →
      byteVal (s.fs_data (physBlock cfg s (s.inode_table inum) b).toNat) off
        = content.getD (b * cfg.blockSize + off) 0

/-- The invariant of a handle used for sequential appending: its write
offset tracks the inode size (both start at 0 on a fresh file and
`tfs_write` advances both by the same amount). -/
structure WriteHandleInv (cfg : Config) (s : FSState) (fh inum : ℕ)
    (L : ℕ) : Prop where
  fh_lt : fh < cfg.maxOpenFiles
  taken : s.free_open_file_entries fh = AllocState.TAKEN
  inum_eq : (s.open_file_table fh).of_inumber = (inum : ℤ)
  woff_eq : (s.open_file_table fh).of_write_offset = L

/-- The invariant of a handle used for reading: `off` bytes consumed. -/
structure ReadHandleInv (cfg : Config) (s : FSState) (fh inum : ℕ)
    (off : ℕ) : Prop where
  fh_lt : fh < cfg.maxOpenFiles
  taken : s.free_open_file_entries fh = AllocState.TAKEN
  inum_eq : (s.open_file_table fh).of_inumber = (inum : ℤ)
  roff_eq : (s.open_file_table fh).of_read_offset = off

/-! ### Projection lemmas for the state updaters -/

@[simp] theorem updInode_freeinode_ts (s : FSState) (i : ℕ) (g : Inode → Inode) :
    (updInode s i g).freeinode_ts = s.freeinode_ts := rfl

@[simp] theorem updInode_free_blocks (s : FSState) (i : ℕ) (g : Inode → Inode) :
    (updInode s i g).free_blocks = s.free_blocks := rfl

@[simp] theorem updInode_fs_data (s : FSState) (i : ℕ) (g : Inode → Inode) :
    (updInode s i g).fs_data = s.fs_data := rfl

@[simp] theorem updInode_free_open_file_entries (s : FSState) (i : ℕ)
    (g : Inode → Inode) :
    (updInode s i g).free_open_file_entries = s.free_open_file_entries := rfl

@[simp] theorem updInode_open_file_table (s : FSState) (i : ℕ) (g : Inode → Inode) :
    (updInode s i g).open_file_table = s.open_file_table := rfl

@[simp] theorem updInode_inode_table_same (s : FSState) (i : ℕ) (g : Inode → Inode) :
    (updInode s i g).inode_table i = g (s.inode_table i) := by
  unfold updInode
  exact Function.update_same _ _ _

theorem updInode_inode_table_noteq (s : FSState) (i j : ℕ) (g : Inode → Inode)
    (h : j ≠ i) : (updInode s i g).inode_table j = s.inode_table j := by
  unfold updInode
  exact Function.update_noteq h _ _

@[simp] theorem updOF_freeinode_ts (s : FSState) (h : ℕ) (g : OpenFileEntry → OpenFileEntry) :
    (updOF s h g).freeinode_ts = s.freeinode_ts := rfl

@[simp] theorem updOF_inode_table (s : FSState) (h : ℕ) (g : OpenFileEntry → OpenFileEntry) :
    (updOF s h g).inode_table = s.inode_table := rfl

@[simp] theorem updOF_free_blocks (s : FSState) (h : ℕ) (g : OpenFileEntry → OpenFileEntry) :
    (updOF s h g).free_blocks = s.free_blocks := rfl

@[simp] theorem updOF_fs_data (s : FSState) (h : ℕ) (g : OpenFileEntry → OpenFileEntry) :
    (updOF s h g).fs_data = s.fs_data := rfl

@[simp] theorem updOF_free_open_file_entries (s : FSState) (h : ℕ)
    (g : OpenFileEntry → OpenFileEntry) :
    (updOF s h g).free_open_file_entries = s.free_open_file_entries := rfl

@[simp] theorem updOF_open_file_table_same (s : FSState) (h : ℕ)
    (g : OpenFileEntry → OpenFileEntry) :
    (updOF s h g).open_file_table h = g (s.open_file_table h) := by
  unfold updOF
  exact Function.update_same _ _ _

theorem updOF_open_file_table_noteq (s : FSState) (h j : ℕ)
    (g : OpenFileEntry → OpenFileEntry) (hj : j ≠ h) :
    (updOF s h g).open_file_table j = s.open_file_table j := by
  unfold updOF
  exact Function.update_noteq hj _ _

@[simp] theorem setBlockContent_freeinode_ts (s : FSState) (b : ℕ) (c : BlockContent) :
    (setBlockContent s b c).freeinode_ts = s.freeinode_ts := rfl

@[simp] theorem setBlockContent_inode_table (s : FSState) (b : ℕ) (c : BlockContent) :
    (setBlockContent s b c).inode_table = s.inode_table := rfl

@[simp] theorem setBlockContent_free_blocks (s : FSState) (b : ℕ) (c : BlockContent) :
    (setBlockContent s b c).free_blocks = s.free_blocks := rfl

@[simp] theorem setBlockContent_free_open_file_entries (s : FSState) (b : ℕ)
    (c : BlockContent) :
    (setBlockContent s b c).free_open_file_entries = s.free_open_file_entries := rfl

@[simp] theorem setBlockContent_open_file_table (s : FSState) (b : ℕ) (c : BlockContent) :
    (setBlockContent s b c).open_file_table = s.open_file_table := rfl

@[simp] theorem setBlockContent_fs_data_same (s : FSState) (b : ℕ) (c : BlockContent) :
    (setBlockContent s b c).fs_data b = c := by
  unfold setBlockContent
  exact Function.update_same _ _ _

theorem setBlockContent_fs_data_noteq (s : FSState) (b j : ℕ) (c : BlockContent)
    (hj : j ≠ b) : (setBlockContent s b c).fs_data j = s.fs_data j := by
  unfold setBlockContent
  exact Function.update_noteq hj _ _

/-! ### Allocation lemmas -/

theorem firstIdx_none_forall {p : ℕ → Bool} :
    ∀ {k i : ℕ}, firstIdx p i k = none →
      ∀ m, i ≤ m → m < i + k → p m = false := by
  intro k
  induction k with
  | zero => intro i _ m h1 h2; omega
  | succ k ih =>
      intro i h m h1 h2
      rw [firstIdx] at h
      by_cases hp : p i
      · rw [if_pos hp] at h; cases h
      · rw [if_neg hp] at h
        rcases Nat.eq_or_lt_of_le h1 with rfl | hlt
        · exact Bool.eq_false_iff.mpr hp
        · exact ih h m hlt (by omega)

/-- Flipping one `true` position of the predicate to `false` lowers the
count over `List.range n` by one. -/
theorem countP_range_update (n k : ℕ) (p q : ℕ → Bool) (hk : k < n)
    (hpk : p k = true) (hq : ∀ i, q i = if i = k then false else p i) :
    (List.range n).countP q + 1 = (List.range n).countP p := by
  induction n with
  | zero => omega
  | succ n ih =>
      rw [List.range_succ, List.countP_append, List.countP_append]
      by_cases hkn : k = n
      · subst hkn
        have h1 : (List.range k).countP q = (List.range k).countP p := by
          apply List.countP_congr
          intro i hi
          rw [hq i, if_neg]
          intro hik
          rw [hik] at hi
          exact absurd (List.mem_range.mp hi) (lt_irrefl k)
        rw [h1]
        simp [List.countP_cons, hq k, hpk]
      · have h3 := ih (by omega)
        have hnk : ¬ n = k := fun h => hkn h.symm
        have h4 : ([n].countP q) = ([n].countP p) := by
          simp [List.countP_cons, hq n, hnk]
        omega

/-- Taking a free slot lowers the free-block count by one. -/
theorem freeBlockCount_update_taken (cfg : Config) (s : FSState) (i : ℕ)
    (hi : i < cfg.dataBlocks) (hfree : s.free_blocks i = AllocState.FREE) :
    freeBlockCount cfg
      { s with free_blocks := Function.update s.free_blocks i AllocState.TAKEN } + 1
      = freeBlockCount cfg s := by
  unfold freeBlockCount
  apply countP_range_update cfg.dataBlocks i _ _ hi
  · rw [hfree]; decide
  · intro m
    show decide (Function.update s.free_blocks i AllocState.TAKEN m = AllocState.FREE) = _
    by_cases hm : m = i
    · subst hm
      rw [if_pos rfl, Function.update_same]
      decide
    · rw [if_neg hm, Function.update_noteq hm]

/-- `freeBlockCount` only reads the bitmap below `DATA_BLOCKS`. -/
theorem freeBlockCount_congr (cfg : Config) (s s' : FSState)
    (h : ∀ b, b < cfg.dataBlocks → s'.free_blocks b = s.free_blocks b) :
    freeBlockCount cfg s' = freeBlockCount cfg s := by
  unfold freeBlockCount
  apply List.countP_congr
  intro i hi
  rw [h i (List.mem_range.mp hi)]

/-- Specification of a successful `data_block_alloc`: with at least one
free slot, it returns a previously free, in-range index, marks exactly that
slot `TAKEN`, leaves everything else untouched, and lowers the free count
by one. -/
theorem data_block_alloc_spec (cfg : Config) (s : FSState)
    (h : 0 < freeBlockCount cfg s) :
    ∃ i : ℕ,
      data_block_alloc cfg s =
        ({ s with free_blocks := Function.update s.free_blocks i AllocState.TAKEN },
         (i : ℤ)) ∧
      i < cfg.dataBlocks ∧ s.free_blocks i = AllocState.FREE ∧
      freeBlockCount cfg
        { s with free_blocks := Function.update s.free_blocks i AllocState.TAKEN }
        + 1 = freeBlockCount cfg s := by
  have hex : ∃ i, i < cfg.dataBlocks ∧ s.free_blocks i = AllocState.FREE := by
    have := List.countP_pos_iff
      (p := fun i => decide (s.free_blocks i = AllocState.FREE))
      (l := List.range cfg.dataBlocks) |>.mp h
    obtain ⟨a, ha, hpa⟩ := this
    exact ⟨a, List.mem_range.mp ha, of_decide_eq_true hpa⟩
  cases hfi : firstIdx (fun i => decide (s.free_blocks i = AllocState.FREE)) 0
      cfg.dataBlocks with
  | none =>
      obtain ⟨i, hi, hfree⟩ := hex
      have := firstIdx_none_forall hfi i (Nat.zero_le i) (by omega)
      rw [hfree] at this
      simp at this
  | some i =>
      obtain ⟨_, hik, hpi, _⟩ := firstIdx_eq_some hfi
      have hfree : s.free_blocks i = AllocState.FREE := of_decide_eq_true hpi
      refine ⟨i, ?_, by omega, hfree,
        freeBlockCount_update_taken cfg s i (by omega) hfree⟩
      unfold data_block_alloc
      rw [hfi]


/-! ### Arithmetic on block counts -/

theorem numBlocks_zero (cfg : Config) : numBlocks cfg 0 = 0 := by
  unfold numBlocks
  have h := cfg.blockSize_pos
  rw [Nat.zero_add]
  exact Nat.div_eq_of_lt (by omega)

theorem numBlocks_eq (cfg : Config) (q r : ℕ) (hr : r < cfg.blockSize) :
    numBlocks cfg (cfg.blockSize * q + r) = q + if r = 0 then 0 else 1 := by
  unfold numBlocks
  have hBS := cfg.blockSize_pos
  have h1 : cfg.blockSize * q + r + cfg.blockSize - 1
      = cfg.blockSize * q + (r + cfg.blockSize - 1) := by omega
  rw [h1, Nat.mul_add_div hBS]
  by_cases hr0 : r = 0
  · subst hr0
    rw [if_pos rfl, Nat.div_eq_of_lt (by omega)]
  · rw [if_neg hr0]
    congr 1
    have h2 : 1 * cfg.blockSize ≤ r + cfg.blockSize - 1 := by omega
    have h3 : r + cfg.blockSize - 1 < (1 + 1) * cfg.blockSize := by omega
    exact Nat.div_eq_of_lt_le h2 h3

theorem div_mul_add (cfg : Config) (q r : ℕ) (hr : r < cfg.blockSize) :
    (cfg.blockSize * q + r) / cfg.blockSize = q ∧
    (cfg.blockSize * q + r) % cfg.blockSize = r := by
  have hBS := cfg.blockSize_pos
  constructor
  · rw [Nat.mul_add_div hBS, Nat.div_eq_of_lt hr]
    omega
  · rw [Nat.mul_add_mod, Nat.mod_eq_of_lt hr]

/-! ### The eager-allocation loop -/

/-- Specification of a successful `allocDirectLoop` run: with `k` free
blocks available, the slots `[i, i+k)` of inode `inum` receive `k`
distinct, fresh (previously free, in-range) block indices, all marked
`TAKEN` afterwards; everything else — the other slots, all other inode
fields, every other table and all previously taken blocks — is untouched,
and the free count drops by exactly `k`. -/
theorem allocDirectLoop_spec (cfg : Config) (inum : ℕ) :
    ∀ (k i : ℕ) (s : FSState), k ≤ freeBlockCount cfg s →
    ∃ s', allocDirectLoop cfg inum i k s = (s', true) ∧
      (∀ j, i ≤ j → j < i + k →
        0 ≤ (s'.inode_table inum).i_data_blocks j ∧
        (s'.inode_table inum).i_data_blocks j < (cfg.dataBlocks : ℤ) ∧
        s'.free_blocks ((s'.inode_table inum).i_data_blocks j).toNat
          = AllocState.TAKEN ∧
        s.free_blocks ((s'.inode_table inum).i_data_blocks j).toNat
          = AllocState.FREE) ∧
      (∀ j1 j2, i ≤ j1 → j1 < j2 → j2 < i + k →
        (s'.inode_table inum).i_data_blocks j1
          ≠ (s'.inode_table inum).i_data_blocks j2) ∧
      (∀ j, ¬(i ≤ j ∧ j < i + k) →
        (s'.inode_table inum).i_data_blocks j
          = (s.inode_table inum).i_data_blocks j) ∧
      (s'.inode_table inum).i_node_type = (s.inode_table inum).i_node_type ∧
      (s'.inode_table inum).i_size = (s.inode_table inum).i_size ∧
      (s'.inode_table inum).i_curr_block = (s.inode_table inum).i_curr_block ∧
      (s'.inode_table inum).i_indir_block = (s.inode_table inum).i_indir_block ∧
      (s'.inode_table inum).i_curr_indir = (s.inode_table inum).i_curr_indir ∧
      (∀ m, m ≠ inum → s'.inode_table m = s.inode_table m) ∧
      s'.freeinode_ts = s.freeinode_ts ∧
      s'.fs_data = s.fs_data ∧
      s'.free_open_file_entries = s.free_open_file_entries ∧
      s'.open_file_table = s.open_file_table ∧
      (∀ b, s.free_blocks b = AllocState.TAKEN →
        s'.free_blocks b = AllocState.TAKEN) ∧
      freeBlockCount cfg s' + k = freeBlockCount cfg s := by
  intro k
  induction k with
  | zero =>
      intro i s _
      refine ⟨s, rfl, ?_, ?_, ?_, rfl, rfl, rfl, rfl, rfl, ?_, rfl, rfl, rfl, rfl,
        ?_, rfl⟩
      · intro j h1 h2; omega
      · intro j1 j2 h1 h2 h3; omega
      · intro j _; rfl
      · intro m _; rfl
      · intro b hb; exact hb
  | succ k ih =>
      intro i s hcount
      obtain ⟨a, halloc, haK, haF, hacount⟩ :=
        data_block_alloc_spec cfg s (by omega)
      set sa : FSState :=
        { s with free_blocks := Function.update s.free_blocks a AllocState.TAKEN }
        with hsa
      set s1 : FSState := updInode sa inum fun ino =>
        { ino with i_data_blocks := Function.update ino.i_data_blocks i (a : ℤ) }
        with hs1
      have hrun : allocDirectLoop cfg inum i (k + 1) s
          = allocDirectLoop cfg inum (i + 1) k s1 := by
        show (let p := data_block_alloc cfg s;
              let s1' := updInode p.1 inum fun ino =>
                { ino with i_data_blocks := Function.update ino.i_data_blocks i p.2 }
              if p.2 = -1 then (s1', false)
              else allocDirectLoop cfg inum (i + 1) k s1') = _
        rw [halloc]
        simp only []
        rw [if_neg (by omega)]
      obtain ⟨s', hrun2, hnew, hdist, hold, hty, hsz, hcb, hib, hci, hoth, hfi,
        hfd, hfo, hof, hmono, hcnt⟩ := ih (i + 1) s1 (by
          have : freeBlockCount cfg s1 = freeBlockCount cfg sa := rfl
          omega)
      have hslot_i : (s'.inode_table inum).i_data_blocks i = (a : ℤ) := by
        rw [hold i (by omega)]
        rw [hs1, updInode_inode_table_same]
        exact Function.update_same _ _ _
      have hs1_free : ∀ b, s1.free_blocks b
          = Function.update s.free_blocks a AllocState.TAKEN b := fun _ => rfl
      refine ⟨s', by rw [hrun, hrun2], ?_, ?_, ?_, ?_, ?_, ?_, ?_, ?_, ?_,
        hfi.trans rfl, hfd.trans rfl, hfo.trans rfl, hof.trans rfl, ?_, ?_⟩
      · intro j h1 h2
        rcases Nat.eq_or_lt_of_le h1 with rfl | hlt
        · rw [hslot_i]
          refine ⟨by positivity, by exact_mod_cast haK, ?_, ?_⟩
          · rw [Int.toNat_natCast]
            apply hmono
            rw [hs1_free]
            exact Function.update_same _ _ _
          · rw [Int.toNat_natCast]; exact haF
        · obtain ⟨hp1, hp2, hp3, hp4⟩ := hnew j hlt (by omega)
          refine ⟨hp1, hp2, hp3, ?_⟩
          rw [hs1_free] at hp4
          by_cases hja : ((s'.inode_table inum).i_data_blocks j).toNat = a
          · rw [hja, Function.update_same] at hp4; cases hp4
          · rw [Function.update_noteq hja] at hp4; exact hp4
      · intro j1 j2 h1 h2 h3
        rcases Nat.eq_or_lt_of_le h1 with rfl | hlt
        · rw [hslot_i]
          obtain ⟨hp1, hp2, _, hp4⟩ := hnew j2 (by omega) (by omega)
          rw [hs1_free] at hp4
          intro hEq
          have : ((s'.inode_table inum).i_data_blocks j2).toNat = a := by
            rw [← hEq, Int.toNat_natCast]
          rw [this, Function.update_same] at hp4
          cases hp4
        · exact hdist j1 j2 hlt h2 (by omega)
      · intro j hj
        rw [hold j (by omega)]
        rw [hs1, updInode_inode_table_same]
        show Function.update (sa.inode_table inum).i_data_blocks i (a : ℤ) j = _
        rw [Function.update_noteq (by omega)]
      · rw [hty, hs1, updInode_inode_table_same]
      · rw [hsz, hs1, updInode_inode_table_same]
      · rw [hcb, hs1, updInode_inode_table_same]
      · rw [hib, hs1, updInode_inode_table_same]
      · rw [hci, hs1, updInode_inode_table_same]
      · intro m hm
        rw [hoth m hm, hs1, updInode_inode_table_noteq _ _ _ _ hm]
      · intro b hb
        apply hmono
        rw [hs1_free]
        by_cases hba : b = a
        · subst hba; exact Function.update_same _ _ _
        · rw [Function.update_noteq hba]; exact hb
      · have : freeBlockCount cfg s1 = freeBlockCount cfg sa := rfl
        omega

/-! ### Access lemmas for block contents -/

@[simp] theorem byteVal_bytes (f : ℕ → ℕ) (j : ℕ) :
    byteVal (BlockContent.bytes f) j = f j := rfl

@[simp] theorem isBytesView_bytes (f : ℕ → ℕ) :
    isBytesView (BlockContent.bytes f) = true := rfl

@[simp] theorem intVal_ints (f : ℕ → ℤ) (j : ℕ) :
    intVal (BlockContent.ints f) j = f j := rfl

@[simp] theorem isIntsView_ints (f : ℕ → ℤ) :
    isIntsView (BlockContent.ints f) = true := rfl

theorem storeBytes_below (f : ℕ → ℕ) (off : ℕ) (data : List ℕ) (j : ℕ)
    (h : j < off) : storeBytes f off data j = f j := by
  unfold storeBytes
  rw [if_neg (by omega)]

theorem storeBytes_above (f : ℕ → ℕ) (off : ℕ) (data : List ℕ) (j : ℕ)
    (h : off + data.length ≤ j) : storeBytes f off data j = f j := by
  unfold storeBytes
  rw [if_neg (by omega)]

theorem storeBytes_in (f : ℕ → ℕ) (off : ℕ) (data : List ℕ) (j : ℕ)
    (h1 : off ≤ j) (h2 : j < off + data.length) :
    storeBytes f off data j = data.getD (j - off) 0 := by
  unfold storeBytes
  rw [if_pos ⟨h1, h2⟩]

theorem blockWriteBytes_eq (cfg : Config) (s : FSState) (b off : ℕ)
    (data : List ℕ) (h : off + data.length ≤ cfg.blockSize) :
    blockWriteBytes cfg s b off data =
      some (setBlockContent s b
        (BlockContent.bytes (storeBytes (bytesBase (s.fs_data b)) off data))) := by
  unfold blockWriteBytes
  rw [if_pos h]

theorem data_block_get_eq (cfg : Config) (b : ℕ) (h : b < cfg.dataBlocks) :
    data_block_get cfg (b : ℤ) = some b := by
  unfold data_block_get
  rw [if_pos ⟨Int.ofNat_nonneg b, by exact_mod_cast h⟩, Int.toNat_natCast]

theorem blockGetInt_eq (cfg : Config) (s : FSState) (b : ℕ) (j : ℕ)
    (f : ℕ → ℤ) (hj : j < cfg.indirBlockSize)
    (hview : s.fs_data b = BlockContent.ints f) :
    blockGetInt cfg s b (j : ℤ) = some (f j) := by
  unfold blockGetInt
  rw [if_pos ⟨Int.ofNat_nonneg j, by exact_mod_cast hj⟩, hview, Int.toNat_natCast]

theorem blockSetInt_eq (cfg : Config) (s : FSState) (b : ℕ) (j : ℕ) (v : ℤ)
    (hj : j < cfg.indirBlockSize) :
    blockSetInt cfg s b (j : ℤ) v =
      some (setBlockContent s b
        (BlockContent.ints (Function.update (intsBase (s.fs_data b)) j v))) := by
  unfold blockSetInt
  rw [if_pos ⟨Int.ofNat_nonneg j, by exact_mod_cast hj⟩, Int.toNat_natCast]

/-! ### The phases of one `tfs_write` step -/

theorem writeAllocPhase_skip (cfg : Config) (s : FSState) (inum : ℕ)
    (h : (s.inode_table inum).i_size ≠ 0) :
    writeAllocPhase cfg s inum = Sum.inr s := by
  unfold writeAllocPhase
  rw [if_neg h]

/-- The empty-file branch of `tfs_write` (operations.c:240-255): with
enough free blocks, every direct slot receives a fresh distinct block and
the direct cursor is reset to 0; nothing else changes and the free count
drops by `MAX_FILE_BLOCKS`. -/
theorem writeAllocPhase_zero (cfg : Config) (s : FSState) (inum : ℕ)
    (h : (s.inode_table inum).i_size = 0)
    (hfree : cfg.maxFileBlocks ≤ freeBlockCount cfg s) :
    ∃ s', writeAllocPhase cfg s inum = Sum.inr s' ∧
      (∀ j, j < cfg.maxFileBlocks →
        0 ≤ (s'.inode_table inum).i_data_blocks j ∧
        (s'.inode_table inum).i_data_blocks j < (cfg.dataBlocks : ℤ) ∧
        s'.free_blocks ((s'.inode_table inum).i_data_blocks j).toNat
          = AllocState.TAKEN ∧
        s.free_blocks ((s'.inode_table inum).i_data_blocks j).toNat
          = AllocState.FREE) ∧
      (∀ j1 j2, j1 < j2 → j2 < cfg.maxFileBlocks →
        (s'.inode_table inum).i_data_blocks j1
          ≠ (s'.inode_table inum).i_data_blocks j2) ∧
      (s'.inode_table inum).i_node_type = (s.inode_table inum).i_node_type ∧
      (s'.inode_table inum).i_size = (s.inode_table inum).i_size ∧
      (s'.inode_table inum).i_curr_block = 0 ∧
      (s'.inode_table inum).i_indir_block = (s.inode_table inum).i_indir_block ∧
      (s'.inode_table inum).i_curr_indir = (s.inode_table inum).i_curr_indir ∧
      (∀ m, m ≠ inum → s'.inode_table m = s.inode_table m) ∧
      s'.freeinode_ts = s.freeinode_ts ∧
      s'.fs_data = s.fs_data ∧
      s'.free_open_file_entries = s.free_open_file_entries ∧
      s'.open_file_table = s.open_file_table ∧
      (∀ b, s.free_blocks b = AllocState.TAKEN →
        s'.free_blocks b = AllocState.TAKEN) ∧
      freeBlockCount cfg s' + cfg.maxFileBlocks = freeBlockCount cfg s := by
  obtain ⟨sL, hrun, hnew, hdist, _, hty, hsz, _, hib, hci, hoth, hfi, hfd, hfo,
    hof, hmono, hcnt⟩ := allocDirectLoop_spec cfg inum cfg.maxFileBlocks 0 s hfree
  refine ⟨updInode sL inum fun ino => { ino with i_curr_block := 0 }, ?_,
    ?_, ?_, ?_, ?_, ?_, ?_, ?_, ?_, hfi, hfd, hfo, hof, hmono, hcnt⟩
  · unfold writeAllocPhase
    rw [if_pos h, hrun]
    simp only []
    rw [if_neg (by simp)]
  · intro j hj
    rw [updInode_inode_table_same]
    exact hnew j (Nat.zero_le j) (by omega)
  · intro j1 j2 h1 h2
    rw [updInode_inode_table_same]
    exact hdist j1 j2 (Nat.zero_le j1) h1 (by omega)
  · rw [updInode_inode_table_same]; exact hty
  · rw [updInode_inode_table_same]; exact hsz
  · rw [updInode_inode_table_same]
  · rw [updInode_inode_table_same]; exact hib
  · rw [updInode_inode_table_same]; exact hci
  · intro m hm
    rw [updInode_inode_table_noteq _ _ _ _ hm]
    exact hoth m hm

/-- The direct branch of the block-resolution phase (operations.c:318-327):
with the cursor on direct slot `c`, that slot's block receives the bytes
and the cursor advances exactly when the block fills up or bytes were
deferred. -/
theorem writeResolveBlock_direct (cfg : Config) (s : FSState) (inum : ℕ)
    (tw ro scraps : ℕ) (c : ℕ)
    (hcb : (s.inode_table inum).i_curr_block = (c : ℤ))
    (hc : c < cfg.maxFileBlocks) :
    writeResolveBlock cfg s inum tw ro scraps =
      some (Sum.inr
        ((if 0 < scraps ∨ tw + ro = cfg.blockSize then
            updInode s inum fun i => { i with i_curr_block := i.i_curr_block + 1 }
          else s),
         (s.inode_table inum).i_data_blocks c)) := by
  simp only [writeResolveBlock]
  rw [hcb]
  rw [if_neg (by omega : ¬ ((c : ℤ) = (cfg.maxFileBlocks : ℤ)))]
  rw [if_pos ⟨Int.ofNat_nonneg c, by exact_mod_cast hc⟩, Int.toNat_natCast]

/-- Characterisation of `indirInitPhase` when the indirect block already
exists. -/
theorem indirInitPhase_skip (cfg : Config) (s : FSState) (inum : ℕ)
    (h : (s.inode_table inum).i_indir_block ≠ -1) :
    indirInitPhase cfg s inum = some (Sum.inr s) := by
  unfold indirInitPhase
  rw [if_neg h]

/-- Characterisation of `indirInitPhase` on first use: a fresh block `a`
becomes the indirect block, fully initialised to empty slots, with the
indirect cursor reset to 0. -/
theorem indirInitPhase_alloc (cfg : Config) (s : FSState) (inum : ℕ)
    (h : (s.inode_table inum).i_indir_block = -1)
    (hfree : 0 < freeBlockCount cfg s) :
    ∃ (a : ℕ) (s3 : FSState), indirInitPhase cfg s inum = some (Sum.inr s3) ∧
      a < cfg.dataBlocks ∧ s.free_blocks a = AllocState.FREE ∧
      (s3.inode_table inum).i_indir_block = (a : ℤ) ∧
      (s3.inode_table inum).i_curr_indir = 0 ∧
      (s3.inode_table inum).i_curr_block = (s.inode_table inum).i_curr_block ∧
      (s3.inode_table inum).i_size = (s.inode_table inum).i_size ∧
      (s3.inode_table inum).i_node_type = (s.inode_table inum).i_node_type ∧
      (∀ j, (s3.inode_table inum).i_data_blocks j
        = (s.inode_table inum).i_data_blocks j) ∧
      (∀ m, m ≠ inum → s3.inode_table m = s.inode_table m) ∧
      s3.fs_data a = BlockContent.ints (fun _ => -1) ∧
      (∀ b, b ≠ a → s3.fs_data b = s.fs_data b) ∧
      (∀ b, b ≠ a → s3.free_blocks b = s.free_blocks b) ∧
      s3.free_blocks a = AllocState.TAKEN ∧
      s3.freeinode_ts = s.freeinode_ts ∧
      s3.free_open_file_entries = s.free_open_file_entries ∧
      s3.open_file_table = s.open_file_table ∧
      freeBlockCount cfg s3 + 1 = freeBlockCount cfg s := by
  obtain ⟨a, halloc, haK, haF, hacnt⟩ := data_block_alloc_spec cfg s hfree
  refine ⟨a,
    setBlockContent
      (updInode
        (updInode
          { s with free_blocks := Function.update s.free_blocks a AllocState.TAKEN }
          inum fun i => { i with i_indir_block := (a : ℤ) })
        inum fun i => { i with i_curr_indir := 0 })
      a (BlockContent.ints fun _ => -1),
    ?_, haK, haF, ?_, ?_, ?_, ?_, ?_, ?_, ?_, ?_, ?_, ?_, ?_,
    rfl, rfl, rfl, ?_⟩
  · unfold indirInitPhase
    rw [if_pos h, halloc]
    simp only []
    rw [if_neg (by omega : ¬ ((a : ℤ) = -1)), data_block_get_eq cfg a haK]
  · rw [setBlockContent_inode_table, updInode_inode_table_same,
      updInode_inode_table_same]
  · rw [setBlockContent_inode_table, updInode_inode_table_same]
  · rw [setBlockContent_inode_table, updInode_inode_table_same,
      updInode_inode_table_same]
  · rw [setBlockContent_inode_table, updInode_inode_table_same,
      updInode_inode_table_same]
  · rw [setBlockContent_inode_table, updInode_inode_table_same,
      updInode_inode_table_same]
  · intro j
    rw [setBlockContent_inode_table, updInode_inode_table_same,
      updInode_inode_table_same]
  · intro m hm
    rw [setBlockContent_inode_table, updInode_inode_table_noteq _ _ _ _ hm,
      updInode_inode_table_noteq _ _ _ _ hm]
  · exact setBlockContent_fs_data_same _ _ _
  · intro b hb
    rw [setBlockContent_fs_data_noteq _ _ _ _ hb]
    rfl
  · intro b hb
    show Function.update s.free_blocks a AllocState.TAKEN b = _
    rw [Function.update_noteq hb]
  · exact Function.update_same _ _ _
  · have : freeBlockCount cfg
        (setBlockContent
          (updInode
            (updInode
              { s with free_blocks := Function.update s.free_blocks a AllocState.TAKEN }
              inum fun i => { i with i_indir_block := (a : ℤ) })
            inum fun i => { i with i_curr_indir := 0 })
          a (BlockContent.ints fun _ => -1))
        = freeBlockCount cfg
          { s with free_blocks := Function.update s.free_blocks a AllocState.TAKEN } :=
      freeBlockCount_congr _ _ _ (fun b _ => rfl)
    omega

/-- Characterisation of `indirSlotPhase` when the current slot already
holds a block: no state change, the slot value is returned. -/
theorem indirSlotPhase_existing (cfg : Config) (s : FSState) (inum : ℕ)
    (ib ci : ℕ) (f : ℕ → ℤ)
    (hib : (s.inode_table inum).i_indir_block = (ib : ℤ))
    (hibK : ib < cfg.dataBlocks)
    (hci : (s.inode_table inum).i_curr_indir = (ci : ℤ))
    (hciM : ci < cfg.indirBlockSize)
    (hview : s.fs_data ib = BlockContent.ints f)
    (hslot : f ci ≠ -1) :
    indirSlotPhase cfg s inum = some (Sum.inr (s, f ci)) := by
  simp only [indirSlotPhase]
  rw [hib, data_block_get_eq cfg ib hibK]
  simp only []
  rw [hci, blockGetInt_eq cfg s ib ci f hciM hview]
  simp only []
  rw [if_neg hslot]

/-- Characterisation of `indirSlotPhase` when the current slot is still
empty: a fresh data block is allocated and stored into the slot. -/
theorem indirSlotPhase_alloc (cfg : Config) (s : FSState) (inum : ℕ)
    (ib ci : ℕ) (f : ℕ → ℤ)
    (hib : (s.inode_table inum).i_indir_block = (ib : ℤ))
    (hibK : ib < cfg.dataBlocks)
    (hci : (s.inode_table inum).i_curr_indir = (ci : ℤ))
    (hciM : ci < cfg.indirBlockSize)
    (hview : s.fs_data ib = BlockContent.ints f)
    (hslot : f ci = -1)
    (hfree : 0 < freeBlockCount cfg s) :
    ∃ b2 : ℕ, b2 < cfg.dataBlocks ∧ s.free_blocks b2 = AllocState.FREE ∧
      indirSlotPhase cfg s inum = some (Sum.inr
        (setBlockContent
          { s with free_blocks := Function.update s.free_blocks b2 AllocState.TAKEN }
          ib (BlockContent.ints (Function.update f ci (b2 : ℤ))),
         (b2 : ℤ))) := by
  obtain ⟨b2, halloc, hbK, hbF, hcnt⟩ := data_block_alloc_spec cfg s hfree
  refine ⟨b2, hbK, hbF, ?_⟩
  simp only [indirSlotPhase]
  rw [hib, data_block_get_eq cfg ib hibK]
  simp only []
  rw [hci, blockGetInt_eq cfg s ib ci f hciM hview]
  simp only []
  rw [if_pos hslot, halloc]
  simp only []
  rw [blockSetInt_eq _ _ _ _ _ hciM]
  have hview2 :
      ({ s with
          free_blocks := Function.update s.free_blocks b2 AllocState.TAKEN } :
        FSState).fs_data ib = BlockContent.ints f := hview
  rw [hview2]
  simp only [intsBase]
  rw [if_neg (by omega : ¬ ((b2 : ℤ) = -1))]

/-- The indirect branch when the current slot already holds a block
(operations.c:288-316 with `temp[i_curr_indir] != -1`). -/
theorem writeResolveBlock_indir_existing (cfg : Config) (s : FSState)
    (inum : ℕ) (tw ro scraps : ℕ) (ib ci : ℕ) (f : ℕ → ℤ)
    (hcb : (s.inode_table inum).i_curr_block = (cfg.maxFileBlocks : ℤ))
    (hib : (s.inode_table inum).i_indir_block = (ib : ℤ))
    (hibK : ib < cfg.dataBlocks)
    (hci : (s.inode_table inum).i_curr_indir = (ci : ℤ))
    (hciM : ci < cfg.indirBlockSize)
    (hview : s.fs_data ib = BlockContent.ints f)
    (hslot : f ci ≠ -1) :
    writeResolveBlock cfg s inum tw ro scraps =
      some (Sum.inr
        ((if 0 < scraps ∨ tw + ro = cfg.blockSize then
            updInode s inum fun i => { i with i_curr_indir := i.i_curr_indir + 1 }
          else s),
         f ci)) := by
  simp only [writeResolveBlock]
  rw [hcb, if_pos rfl,
    indirInitPhase_skip cfg s inum (by rw [hib]; omega)]
  simp only []
  rw [indirSlotPhase_existing cfg s inum ib ci f hib hibK hci hciM hview hslot]

/-- The indirect branch when the current slot is still empty
(operations.c:296-303): a fresh block is allocated, stored into the slot
and used. -/
theorem writeResolveBlock_indir_alloc (cfg : Config) (s : FSState)
    (inum : ℕ) (tw ro scraps : ℕ) (ib ci : ℕ) (f : ℕ → ℤ)
    (hcb : (s.inode_table inum).i_curr_block = (cfg.maxFileBlocks : ℤ))
    (hib : (s.inode_table inum).i_indir_block = (ib : ℤ))
    (hibK : ib < cfg.dataBlocks)
    (hci : (s.inode_table inum).i_curr_indir = (ci : ℤ))
    (hciM : ci < cfg.indirBlockSize)
    (hview : s.fs_data ib = BlockContent.ints f)
    (hslot : f ci = -1)
    (hfree : 0 < freeBlockCount cfg s) :
    ∃ b2 : ℕ, b2 < cfg.dataBlocks ∧ s.free_blocks b2 = AllocState.FREE ∧
      (freeBlockCount cfg
        { s with free_blocks := Function.update s.free_blocks b2 AllocState.TAKEN }
        + 1 = freeBlockCount cfg s) ∧
      writeResolveBlock cfg s inum tw ro scraps =
        some (Sum.inr
          ((if 0 < scraps ∨ tw + ro = cfg.blockSize then
              updInode
                (setBlockContent
                  { s with free_blocks :=
                      Function.update s.free_blocks b2 AllocState.TAKEN }
                  ib (BlockContent.ints (Function.update f ci (b2 : ℤ))))
                inum (fun i => { i with i_curr_indir := i.i_curr_indir + 1 })
            else
              setBlockContent
                { s with free_blocks :=
                    Function.update s.free_blocks b2 AllocState.TAKEN }
                ib (BlockContent.ints (Function.update f ci (b2 : ℤ)))),
           (b2 : ℤ))) := by
  obtain ⟨b2, hbK, hbF, heqp⟩ :=
    indirSlotPhase_alloc cfg s inum ib ci f hib hibK hci hciM hview hslot hfree
  refine ⟨b2, hbK, hbF, freeBlockCount_update_taken cfg s b2 hbK hbF, ?_⟩
  simp only [writeResolveBlock]
  rw [hcb, if_pos rfl,
    indirInitPhase_skip cfg s inum (by rw [hib]; omega)]
  simp only []
  rw [heqp]

/-- The indirect branch on first use (operations.c:263-286 continued into
296-303): the indirect block itself is lazily allocated and fully
initialised to empty slots, the indirect cursor reset to 0, and a first
data block allocated into slot 0. -/
theorem writeResolveBlock_indir_init (cfg : Config) (s : FSState)
    (inum : ℕ) (tw ro scraps : ℕ)
    (hcb : (s.inode_table inum).i_curr_block = (cfg.maxFileBlocks : ℤ))
    (hib : (s.inode_table inum).i_indir_block = -1)
    (hM : 0 < cfg.indirBlockSize)
    (hfree : 2 ≤ freeBlockCount cfg s) :
    ∃ (a b2 : ℕ) (s' : FSState),
      writeResolveBlock cfg s inum tw ro scraps = some (Sum.inr (s', (b2 : ℤ))) ∧
      a < cfg.dataBlocks ∧ b2 < cfg.dataBlocks ∧ a ≠ b2 ∧
      s.free_blocks a = AllocState.FREE ∧ s.free_blocks b2 = AllocState.FREE ∧
      (s'.inode_table inum).i_indir_block = (a : ℤ) ∧
      (s'.inode_table inum).i_curr_indir =
        (if 0 < scraps ∨ tw + ro = cfg.blockSize then 1 else 0) ∧
      (s'.inode_table inum).i_curr_block = (s.inode_table inum).i_curr_block ∧
      (s'.inode_table inum).i_size = (s.inode_table inum).i_size ∧
      (s'.inode_table inum).i_node_type = (s.inode_table inum).i_node_type ∧
      (∀ j, (s'.inode_table inum).i_data_blocks j
        = (s.inode_table inum).i_data_blocks j) ∧
      (∀ m, m ≠ inum → s'.inode_table m = s.inode_table m) ∧
      s'.fs_data a = BlockContent.ints
        (Function.update (fun _ => (-1 : ℤ)) 0 (b2 : ℤ)) ∧
      (∀ b, b ≠ a → s'.fs_data b = s.fs_data b) ∧
      (∀ b, b ≠ a → b ≠ b2 → s'.free_blocks b = s.free_blocks b) ∧
      s'.free_blocks a = AllocState.TAKEN ∧
      s'.free_blocks b2 = AllocState.TAKEN ∧
      s'.freeinode_ts = s.freeinode_ts ∧
      s'.free_open_file_entries = s.free_open_file_entries ∧
      s'.open_file_table = s.open_file_table ∧
      freeBlockCount cfg s' + 2 = freeBlockCount cfg s := by
  obtain ⟨a, s3, hinit, haK, haF, h3ib, h3ci, h3cb, h3sz, h3ty, h3slots, h3oth,
    h3view, h3fd, h3fb, h3fa, h3fi, h3fo, h3of, h3cnt⟩ :=
    indirInitPhase_alloc cfg s inum hib (by omega)
  have h3ci' : (s3.inode_table inum).i_curr_indir = ((0 : ℕ) : ℤ) := h3ci
  obtain ⟨b2, hbK, hbF3, hsloteq⟩ :=
    indirSlotPhase_alloc cfg s3 inum a 0 (fun _ => -1) h3ib haK h3ci' hM
      h3view rfl (by omega)
  have hab : a ≠ b2 := by
    intro hEq
    rw [← hEq, h3fa] at hbF3
    cases hbF3
  have hbF : s.free_blocks b2 = AllocState.FREE := by
    rw [← h3fb b2 (fun h => hab h.symm)]
    exact hbF3
  set s4 : FSState :=
    setBlockContent
      { s3 with free_blocks := Function.update s3.free_blocks b2 AllocState.TAKEN }
      a (BlockContent.ints
          (Function.update (fun _ => (-1 : ℤ)) 0 (b2 : ℤ)))
    with hs4
  have heq : writeResolveBlock cfg s inum tw ro scraps =
      some (Sum.inr
        ((if 0 < scraps ∨ tw + ro = cfg.blockSize then
            updInode s4 inum (fun i => { i with i_curr_indir := i.i_curr_indir + 1 })
          else s4),
         (b2 : ℤ))) := by
    simp only [writeResolveBlock]
    rw [hcb, if_pos rfl, hinit]
    simp only []
    rw [hsloteq]
  have hs4ino : s4.inode_table inum = s3.inode_table inum := rfl
  have hs4oth : ∀ m, s4.inode_table m = s3.inode_table m := fun _ => rfl
  have hs4free : ∀ b, s4.free_blocks b
      = Function.update s3.free_blocks b2 AllocState.TAKEN b := fun _ => rfl
  have hcase : ∀ (F : FSState → Prop),
      (F (updInode s4 inum (fun i => { i with i_curr_indir := i.i_curr_indir + 1 }))
        ∧ F s4) →
      F (if 0 < scraps ∨ tw + ro = cfg.blockSize then
          updInode s4 inum (fun i => { i with i_curr_indir := i.i_curr_indir + 1 })
        else s4) := by
    intro F hF
    by_cases hbump : 0 < scraps ∨ tw + ro = cfg.blockSize
    · rw [if_pos hbump]; exact hF.1
    · rw [if_neg hbump]; exact hF.2
  refine ⟨a, b2, _, heq, haK, hbK, hab, haF, hbF, ?_, ?_, ?_, ?_, ?_, ?_, ?_,
    ?_, ?_, ?_, ?_, ?_, ?_, ?_, ?_, ?_⟩
  · apply hcase fun t => (t.inode_table inum).i_indir_block = (a : ℤ)
    constructor
    · rw [updInode_inode_table_same]
      show (s4.inode_table inum).i_indir_block = _
      rw [hs4ino, h3ib]
    · rw [hs4ino, h3ib]
  · by_cases hbump : 0 < scraps ∨ tw + ro = cfg.blockSize
    · rw [if_pos hbump, if_pos hbump, updInode_inode_table_same]
      show (s4.inode_table inum).i_curr_indir + 1 = 1
      rw [hs4ino, h3ci]
      omega
    · rw [if_neg hbump, if_neg hbump, hs4ino, h3ci]
  · apply hcase fun t =>
      (t.inode_table inum).i_curr_block = (s.inode_table inum).i_curr_block
    constructor
    · rw [updInode_inode_table_same]
      show (s4.inode_table inum).i_curr_block = _
      rw [hs4ino, h3cb]
    · rw [hs4ino, h3cb]
  · apply hcase fun t =>
      (t.inode_table inum).i_size = (s.inode_table inum).i_size
    constructor
    · rw [updInode_inode_table_same]
      show (s4.inode_table inum).i_size = _
      rw [hs4ino, h3sz]
    · rw [hs4ino, h3sz]
  · apply hcase fun t =>
      (t.inode_table inum).i_node_type = (s.inode_table inum).i_node_type
    constructor
    · rw [updInode_inode_table_same]
      show (s4.inode_table inum).i_node_type = _
      rw [hs4ino, h3ty]
    · rw [hs4ino, h3ty]
  · apply hcase fun t => ∀ j,
      (t.inode_table inum).i_data_blocks j = (s.inode_table inum).i_data_blocks j
    constructor
    · intro j
      rw [updInode_inode_table_same]
      show (s4.inode_table inum).i_data_blocks j = _
      rw [hs4ino, h3slots j]
    · intro j
      rw [hs4ino, h3slots j]
  · apply hcase fun t => ∀ m, m ≠ inum → t.inode_table m = s.inode_table m
    constructor
    · intro m hm
      rw [updInode_inode_table_noteq _ _ _ _ hm, hs4oth m, h3oth m hm]
    · intro m hm
      rw [hs4oth m, h3oth m hm]
  · apply hcase fun t => t.fs_data a = BlockContent.ints
      (Function.update (fun _ => (-1 : ℤ)) 0 (b2 : ℤ))
    constructor
    · rw [updInode_fs_data, hs4, setBlockContent_fs_data_same]
    · rw [hs4, setBlockContent_fs_data_same]
  · apply hcase fun t => ∀ b, b ≠ a → t.fs_data b = s.fs_data b
    have hbase : ∀ b, b ≠ a → s4.fs_data b = s.fs_data b := by
      intro b hb
      rw [hs4, setBlockContent_fs_data_noteq _ _ _ _ hb]
      show s3.fs_data b = s.fs_data b
      exact h3fd b hb
    exact ⟨fun b hb => hbase b hb, hbase⟩
  · intro b hba hbb
    apply hcase fun t => t.free_blocks b = s.free_blocks b
    have hbase : s4.free_blocks b = s.free_blocks b := by
      rw [hs4free b, Function.update_noteq hbb]
      exact h3fb b hba
    exact ⟨hbase, hbase⟩
  · apply hcase fun t => t.free_blocks a = AllocState.TAKEN
    have hbase : s4.free_blocks a = AllocState.TAKEN := by
      rw [hs4free a, Function.update_noteq (fun h => hab h)]
      exact h3fa
    exact ⟨hbase, hbase⟩
  · apply hcase fun t => t.free_blocks b2 = AllocState.TAKEN
    have hbase : s4.free_blocks b2 = AllocState.TAKEN := by
      rw [hs4free b2]
      exact Function.update_same _ _ _
    exact ⟨hbase, hbase⟩
  · apply hcase fun t => t.freeinode_ts = s.freeinode_ts
    have hbase : s4.freeinode_ts = s.freeinode_ts := h3fi
    exact ⟨hbase, hbase⟩
  · apply hcase fun t => t.free_open_file_entries = s.free_open_file_entries
    have hbase : s4.free_open_file_entries = s.free_open_file_entries := h3fo
    exact ⟨hbase, hbase⟩
  · apply hcase fun t => t.open_file_table = s.open_file_table
    have hbase : s4.open_file_table = s.open_file_table := h3of
    exact ⟨hbase, hbase⟩
  · have h2 := freeBlockCount_update_taken cfg s3 b2 hbK hbF3
    have h3 : freeBlockCount cfg
        (if 0 < scraps ∨ tw + ro = cfg.blockSize then
          updInode s4 inum (fun i => { i with i_curr_indir := i.i_curr_indir + 1 })
        else s4)
        = freeBlockCount cfg
          { s3 with free_blocks := Function.update s3.free_blocks b2 AllocState.TAKEN } := by
      apply freeBlockCount_congr
      intro b _
      by_cases hbump : 0 < scraps ∨ tw + ro = cfg.blockSize
      · rw [if_pos hbump]
        rfl
      · rw [if_neg hbump]
        rfl
    omega

/-! ### Arithmetic facts about `numBlocks`, `liveLen` and the enumeration -/

theorem numBlocks_split (cfg : Config) (d x : ℕ) :
    numBlocks cfg (d * cfg.blockSize + x) = d + numBlocks cfg x := by
  unfold numBlocks
  have hBS := cfg.blockSize_pos
  have h1 : d * cfg.blockSize + x + cfg.blockSize - 1
      = cfg.blockSize * d + (x + cfg.blockSize - 1) := by
    rw [Nat.mul_comm]
    omega
  rw [h1, Nat.mul_add_div hBS]

theorem numBlocks_sub_split (cfg : Config) (x : ℕ)
    (h : cfg.maxFileBlocks * cfg.blockSize ≤ x) :
    numBlocks cfg x = cfg.maxFileBlocks
      + numBlocks cfg (x - cfg.maxFileBlocks * cfg.blockSize) := by
  have h1 := numBlocks_split cfg cfg.maxFileBlocks
    (x - cfg.maxFileBlocks * cfg.blockSize)
  rw [show cfg.maxFileBlocks * cfg.blockSize
      + (x - cfg.maxFileBlocks * cfg.blockSize) = x from by omega] at h1
  exact h1

theorem numBlocks_le (cfg : Config) (x m : ℕ) (h : x ≤ m * cfg.blockSize) :
    numBlocks cfg x ≤ m := by
  have hBS := cfg.blockSize_pos
  unfold numBlocks
  have h1 : x + cfg.blockSize - 1 ≤ m * cfg.blockSize + (cfg.blockSize - 1) := by
    omega
  have h2 : (m * cfg.blockSize + (cfg.blockSize - 1)) / cfg.blockSize = m := by
    rw [Nat.mul_comm, Nat.mul_add_div hBS, Nat.div_eq_of_lt (by omega)]
    omega
  calc (x + cfg.blockSize - 1) / cfg.blockSize
      ≤ (m * cfg.blockSize + (cfg.blockSize - 1)) / cfg.blockSize :=
        Nat.div_le_div_right h1
    _ = m := h2

theorem div_lt_numBlocks (cfg : Config) (L t : ℕ) (ht : 0 < t) :
    L / cfg.blockSize < numBlocks cfg (L + t) := by
  have hBS := cfg.blockSize_pos
  unfold numBlocks
  have h1 : (L + cfg.blockSize) / cfg.blockSize
      ≤ (L + t + cfg.blockSize - 1) / cfg.blockSize :=
    Nat.div_le_div_right (by omega)
  rw [Nat.add_div_right _ hBS] at h1
  omega

theorem div_le_numBlocks (cfg : Config) (L : ℕ) :
    L / cfg.blockSize ≤ numBlocks cfg L := by
  have hBS := cfg.blockSize_pos
  have h1 := numBlocks_eq cfg (L / cfg.blockSize) (L % cfg.blockSize)
    (Nat.mod_lt _ hBS)
  rw [Nat.div_add_mod] at h1
  split_ifs at h1 <;> omega

theorem numBlocks_le_div_succ (cfg : Config) (L : ℕ) :
    numBlocks cfg L ≤ L / cfg.blockSize + 1 := by
  have hBS := cfg.blockSize_pos
  have h1 := numBlocks_eq cfg (L / cfg.blockSize) (L % cfg.blockSize)
    (Nat.mod_lt _ hBS)
  rw [Nat.div_add_mod] at h1
  split_ifs at h1 <;> omega

theorem div_split (cfg : Config) (L : ℕ)
    (h : cfg.maxFileBlocks * cfg.blockSize ≤ L) :
    L / cfg.blockSize = cfg.maxFileBlocks
      + (L - cfg.maxFileBlocks * cfg.blockSize) / cfg.blockSize := by
  have h1 : L = cfg.blockSize * cfg.maxFileBlocks
      + (L - cfg.maxFileBlocks * cfg.blockSize) := by
    rw [Nat.mul_comm]
    omega
  conv_lhs => rw [h1]
  rw [Nat.mul_add_div cfg.blockSize_pos]

theorem mod_split (cfg : Config) (L : ℕ)
    (h : cfg.maxFileBlocks * cfg.blockSize ≤ L) :
    L % cfg.blockSize = (L - cfg.maxFileBlocks * cfg.blockSize) % cfg.blockSize := by
  have h1 : L = cfg.blockSize * cfg.maxFileBlocks
      + (L - cfg.maxFileBlocks * cfg.blockSize) := by
    rw [Nat.mul_comm]
    omega
  conv_lhs => rw [h1]
  rw [Nat.mul_add_mod]

/-- Position of logical block `b` in the live-block enumeration: the
indirect block itself sits at position `maxFileBlocks`, shifting all
indirect slots up by one. -/
def livePos (cfg : Config) (b : ℕ) : ℕ :=
  if b < cfg.maxFileBlocks then b else b + 1

theorem physBlock_eq_liveBlockIdx (cfg : Config) (s : FSState) (ino : Inode)
    (b : ℕ) : physBlock cfg s ino b = liveBlockIdx cfg s ino (livePos cfg b) := by
  unfold physBlock liveBlockIdx livePos
  by_cases h : b < cfg.maxFileBlocks
  · rw [if_pos h, if_pos h, if_pos h]
  · rw [if_neg h, if_neg h, if_neg (show ¬ b + 1 < cfg.maxFileBlocks by omega),
      if_neg (show ¬ b + 1 = cfg.maxFileBlocks by omega)]
    congr 1
    omega

theorem livePos_lt_liveLen (cfg : Config) (L b : ℕ)
    (h : b < numBlocks cfg L) : livePos cfg b < liveLen cfg L := by
  unfold livePos liveLen
  by_cases hb : b < cfg.maxFileBlocks
  · rw [if_pos hb]
    omega
  · rw [if_neg hb]
    have hgt : cfg.maxFileBlocks * cfg.blockSize < L := by
      by_contra hle
      push_neg at hle
      have := numBlocks_le cfg L cfg.maxFileBlocks hle
      omega
    have hsplit := numBlocks_sub_split cfg L (by omega)
    rw [if_pos hgt]
    omega

theorem maxFileBlocks_le_liveLen (cfg : Config) (L : ℕ) :
    cfg.maxFileBlocks ≤ liveLen cfg L := by
  unfold liveLen
  omega

theorem toNat_ne (x y : ℤ) (hx : 0 ≤ x) (hy : 0 ≤ y) (h : x ≠ y) :
    x.toNat ≠ y.toNat := by
  intro he
  apply h
  omega

theorem data_block_get_pos (cfg : Config) (x : ℤ) (h0 : 0 ≤ x)
    (hK : x < (cfg.dataBlocks : ℤ)) : data_block_get cfg x = some x.toNat := by
  unfold data_block_get
  rw [if_pos ⟨h0, hK⟩]

theorem bytesBase_eq_byteVal :
    ∀ (c : BlockContent), isBytesView c = true → ∀ j, bytesBase c j = byteVal c j
  | BlockContent.bytes _, _, _ => rfl

/-- One committed write step (`writeCommit`): once the resolve phase has
produced a target block `bid` and a state `s2` whose cursors and slot
tables already describe the grown file, the `memcpy` and the size and
write-offset updates re-establish the file invariant for
`content ++ data`. -/
theorem writeCommit_generic (cfg : Config) (s1 s2 : FSState) (bid : ℤ)
    (fh inum : ℕ) (content data : List ℕ) (scraps : ℕ)
    (hne : data ≠ [])
    (hfit : content.length % cfg.blockSize + data.length ≤ cfg.blockSize)
    (hcap : content.length + data.length
      ≤ (cfg.maxFileBlocks + cfg.indirBlockSize) * cfg.blockSize)
    (hres : writeResolveBlock cfg s1 inum data.length
        (content.length % cfg.blockSize) scraps = some (Sum.inr (s2, bid)))
    (hbid0 : 0 ≤ bid) (hbidK : bid < (cfg.dataBlocks : ℤ))
    (hinum : inum < cfg.inodeTableSize)
    (htaken : s2.freeinode_ts inum = AllocState.TAKEN)
    (hty : (s2.inode_table inum).i_node_type = InodeType.T_FILE)
    (hsize : (s2.inode_table inum).i_size = content.length)
    (hdirv : ∀ i, i < cfg.maxFileBlocks →
      0 ≤ (s2.inode_table inum).i_data_blocks i ∧
      (s2.inode_table inum).i_data_blocks i < (cfg.dataBlocks : ℤ) ∧
      s2.free_blocks ((s2.inode_table inum).i_data_blocks i).toNat
        = AllocState.TAKEN)
    (hcb : (s2.inode_table inum).i_curr_block =
      ((min ((content.length + data.length) / cfg.blockSize)
        cfg.maxFileBlocks : ℕ) : ℤ))
    (hnoind : content.length + data.length ≤ cfg.maxFileBlocks * cfg.blockSize →
      (s2.inode_table inum).i_indir_block = -1 ∧
      (s2.inode_table inum).i_curr_indir = -1)
    (hind : cfg.maxFileBlocks * cfg.blockSize < content.length + data.length →
      0 ≤ (s2.inode_table inum).i_indir_block ∧
      (s2.inode_table inum).i_indir_block < (cfg.dataBlocks : ℤ) ∧
      s2.free_blocks (s2.inode_table inum).i_indir_block.toNat
        = AllocState.TAKEN ∧
      isIntsView (s2.fs_data (s2.inode_table inum).i_indir_block.toNat) = true ∧
      (s2.inode_table inum).i_curr_indir =
        (((content.length + data.length - cfg.maxFileBlocks * cfg.blockSize)
          / cfg.blockSize : ℕ) : ℤ) ∧
      (∀ j, j < numBlocks cfg (content.length + data.length
            - cfg.maxFileBlocks * cfg.blockSize) →
        0 ≤ intVal (s2.fs_data (s2.inode_table inum).i_indir_block.toNat) j ∧
        intVal (s2.fs_data (s2.inode_table inum).i_indir_block.toNat) j
          < (cfg.dataBlocks : ℤ) ∧
        s2.free_blocks
          (intVal (s2.fs_data (s2.inode_table inum).i_indir_block.toNat) j).toNat
          = AllocState.TAKEN) ∧
      (∀ j, numBlocks cfg (content.length + data.length
            - cfg.maxFileBlocks * cfg.blockSize) ≤ j → j < cfg.indirBlockSize →
        intVal (s2.fs_data (s2.inode_table inum).i_indir_block.toNat) j = -1))
    (hnodup : ∀ i2, i2 < liveLen cfg (content.length + data.length) →
      ∀ i1, i1 < i2 →
        liveBlockIdx cfg s2 (s2.inode_table inum) i1
          ≠ liveBlockIdx cfg s2 (s2.inode_table inum) i2)
    (htarget : physBlock cfg s2 (s2.inode_table inum)
        (content.length / cfg.blockSize) = bid)
    (hold : ∀ b, b < numBlocks cfg content.length →
      isBytesView (s2.fs_data
        (physBlock cfg s2 (s2.inode_table inum) b).toNat) = true ∧
      ∀ off, off < min cfg.blockSize (content.length - b * cfg.blockSize) →
        byteVal (s2.fs_data (physBlock cfg s2 (s2.inode_table inum) b).toNat) off
          = content.getD (b * cfg.blockSize + off) 0)
    (hfh : fh < cfg.maxOpenFiles)
    (hofT : s2.free_open_file_entries fh = AllocState.TAKEN)
    (hofI : (s2.open_file_table fh).of_inumber = (inum : ℤ))
    (hofW : (s2.open_file_table fh).of_write_offset = content.length) :
    ∃ s', writeCommit cfg s1 fh inum data.length
        (content.length % cfg.blockSize) scraps data = some (Sum.inr s') ∧
      FileInv cfg s' inum (content ++ data) ∧
      WriteHandleInv cfg s' fh inum (content ++ data).length ∧
      (∀ g, g ≠ fh → s'.open_file_table g = s2.open_file_table g) ∧
      (s'.open_file_table fh).of_read_offset
        = (s2.open_file_table fh).of_read_offset ∧
      (∀ m, m ≠ inum → s'.inode_table m = s2.inode_table m) ∧
      (∀ b, s'.free_blocks b = s2.free_blocks b) ∧
      s'.freeinode_ts = s2.freeinode_ts ∧
      s'.free_open_file_entries = s2.free_open_file_entries ∧
      (∀ b, b ≠ bid.toNat → s'.fs_data b = s2.fs_data b) := by
  have hBS := cfg.blockSize_pos
  have htw : 0 < data.length := List.length_pos.mpr hne
  have hqr : cfg.blockSize * (content.length / cfg.blockSize)
      + content.length % cfg.blockSize = content.length := Nat.div_add_mod _ _
  have hqr2 : content.length / cfg.blockSize * cfg.blockSize
      + content.length % cfg.blockSize = content.length := by
    rw [Nat.mul_comm]
    exact hqr
  have hrlt : content.length % cfg.blockSize < cfg.blockSize := Nat.mod_lt _ hBS
  -- positions of the target in the live enumeration
  have hq_lt : content.length / cfg.blockSize
      < numBlocks cfg (content.length + data.length) :=
    div_lt_numBlocks cfg content.length data.length htw
  have htpos_lt : livePos cfg (content.length / cfg.blockSize)
      < liveLen cfg (content.length + data.length) :=
    livePos_lt_liveLen cfg _ _ hq_lt
  -- distinctness of every other live block from the target
  have hdistinct : ∀ b, b < numBlocks cfg (content.length + data.length) →
      b ≠ content.length / cfg.blockSize →
      physBlock cfg s2 (s2.inode_table inum) b ≠ bid := by
    intro b hb hbq
    rw [← htarget, physBlock_eq_liveBlockIdx, physBlock_eq_liveBlockIdx]
    have hbpos := livePos_lt_liveLen cfg _ b hb
    have hposne : livePos cfg b ≠ livePos cfg (content.length / cfg.blockSize) := by
      unfold livePos
      split_ifs <;> omega
    rcases Nat.lt_or_ge (livePos cfg b)
        (livePos cfg (content.length / cfg.blockSize)) with hlt | hge
    · exact hnodup _ htpos_lt _ hlt
    · have hlt2 : livePos cfg (content.length / cfg.blockSize) < livePos cfg b := by
        omega
      exact fun h => hnodup _ hbpos _ hlt2 h.symm
  -- every live block has a valid, taken physical index
  have hphysOK : ∀ b, b < numBlocks cfg (content.length + data.length) →
      0 ≤ physBlock cfg s2 (s2.inode_table inum) b ∧
      physBlock cfg s2 (s2.inode_table inum) b < (cfg.dataBlocks : ℤ) ∧
      s2.free_blocks (physBlock cfg s2 (s2.inode_table inum) b).toNat
        = AllocState.TAKEN := by
    intro b hb
    unfold physBlock
    by_cases hbD : b < cfg.maxFileBlocks
    · rw [if_pos hbD]
      exact hdirv b hbD
    · rw [if_neg hbD]
      have hgt : cfg.maxFileBlocks * cfg.blockSize
          < content.length + data.length := by
        by_contra hle
        push_neg at hle
        have := numBlocks_le cfg (content.length + data.length)
          cfg.maxFileBlocks hle
        omega
      obtain ⟨-, -, -, -, -, hslots, -⟩ := hind hgt
      have hsplit := numBlocks_sub_split cfg (content.length + data.length)
        (by omega)
      exact hslots (b - cfg.maxFileBlocks) (by omega)
  -- the indirect block is never the write target
  have hib_ne : cfg.maxFileBlocks * cfg.blockSize < content.length + data.length →
      (s2.inode_table inum).i_indir_block ≠ bid := by
    intro hgt
    rw [← htarget, physBlock_eq_liveBlockIdx]
    have hDpos : cfg.maxFileBlocks < liveLen cfg (content.length + data.length) := by
      unfold liveLen
      rw [if_pos hgt]
      omega
    have hibIdx : liveBlockIdx cfg s2 (s2.inode_table inum) cfg.maxFileBlocks
        = (s2.inode_table inum).i_indir_block := by
      unfold liveBlockIdx
      rw [if_neg (by omega), if_pos rfl]
    rw [← hibIdx]
    rcases Nat.lt_or_ge cfg.maxFileBlocks
        (livePos cfg (content.length / cfg.blockSize)) with hlt | hge
    · exact fun h => hnodup _ htpos_lt _ hlt h
    · have hne2 : livePos cfg (content.length / cfg.blockSize)
          ≠ cfg.maxFileBlocks := by
        unfold livePos
        split_ifs <;> omega
      have hlt2 : livePos cfg (content.length / cfg.blockSize)
          < cfg.maxFileBlocks := by omega
      exact fun h => hnodup _ hDpos _ hlt2 h.symm
  -- the final state
  set s' : FSState :=
    updOF (updInode (setBlockContent s2 bid.toNat
        (BlockContent.bytes (storeBytes (bytesBase (s2.fs_data bid.toNat))
          (content.length % cfg.blockSize) data)))
      inum fun i => { i with i_size := i.i_size + data.length })
      fh fun e => { e with of_write_offset := e.of_write_offset + data.length }
    with hs'
  -- pointwise structure of s'
  have hs'ino : s'.inode_table inum =
      { s2.inode_table inum with
        i_size := (s2.inode_table inum).i_size + data.length } := by
    rw [hs', updOF_inode_table, updInode_inode_table_same,
      setBlockContent_inode_table]
  have hsz' : (s'.inode_table inum).i_size = content.length + data.length := by
    rw [hs'ino]
    show (s2.inode_table inum).i_size + data.length = _
    rw [hsize]
  have hslots' : ∀ j, (s'.inode_table inum).i_data_blocks j
      = (s2.inode_table inum).i_data_blocks j := by
    intro j
    rw [hs'ino]
  have hcb' : (s'.inode_table inum).i_curr_block
      = (s2.inode_table inum).i_curr_block := by
    rw [hs'ino]
  have hib' : (s'.inode_table inum).i_indir_block
      = (s2.inode_table inum).i_indir_block := by
    rw [hs'ino]
  have hci' : (s'.inode_table inum).i_curr_indir
      = (s2.inode_table inum).i_curr_indir := by
    rw [hs'ino]
  have hty' : (s'.inode_table inum).i_node_type
      = (s2.inode_table inum).i_node_type := by
    rw [hs'ino]
  have hfd_bid : s'.fs_data bid.toNat
      = BlockContent.bytes (storeBytes (bytesBase (s2.fs_data bid.toNat))
          (content.length % cfg.blockSize) data) := by
    rw [hs', updOF_fs_data, updInode_fs_data, setBlockContent_fs_data_same]
  have hfd_ne : ∀ b, b ≠ bid.toNat → s'.fs_data b = s2.fs_data b := by
    intro b hb
    rw [hs', updOF_fs_data, updInode_fs_data,
      setBlockContent_fs_data_noteq _ _ _ _ hb]
  have hfree' : ∀ b, s'.free_blocks b = s2.free_blocks b := by
    intro b
    rw [hs', updOF_free_blocks, updInode_free_blocks, setBlockContent_free_blocks]
  have hfi' : s'.freeinode_ts = s2.freeinode_ts := by
    rw [hs', updOF_freeinode_ts, updInode_freeinode_ts,
      setBlockContent_freeinode_ts]
  have hfo' : s'.free_open_file_entries = s2.free_open_file_entries := by
    rw [hs', updOF_free_open_file_entries, updInode_free_open_file_entries,
      setBlockContent_free_open_file_entries]
  have hof_fh : s'.open_file_table fh =
      { s2.open_file_table fh with
        of_write_offset := (s2.open_file_table fh).of_write_offset
          + data.length } := by
    rw [hs', updOF_open_file_table_same, updInode_open_file_table,
      setBlockContent_open_file_table]
  have hof_ne : ∀ g, g ≠ fh → s'.open_file_table g = s2.open_file_table g := by
    intro g hg
    rw [hs', updOF_open_file_table_noteq _ _ _ _ hg, updInode_open_file_table,
      setBlockContent_open_file_table]
  have hino_ne : ∀ m, m ≠ inum → s'.inode_table m = s2.inode_table m := by
    intro m hm
    rw [hs', updOF_inode_table, updInode_inode_table_noteq _ _ _ _ hm,
      setBlockContent_inode_table]
  -- physical block indices are unchanged
  have hphys' : ∀ b, b < numBlocks cfg (content.length + data.length) →
      physBlock cfg s' (s'.inode_table inum) b
        = physBlock cfg s2 (s2.inode_table inum) b := by
    intro b hb
    unfold physBlock
    by_cases hbD : b < cfg.maxFileBlocks
    · rw [if_pos hbD, if_pos hbD, hslots' b]
    · rw [if_neg hbD, if_neg hbD, hib']
      have hgt : cfg.maxFileBlocks * cfg.blockSize
          < content.length + data.length := by
        by_contra hle
        push_neg at hle
        have := numBlocks_le cfg (content.length + data.length)
          cfg.maxFileBlocks hle
        omega
      have hne2 : (s2.inode_table inum).i_indir_block.toNat ≠ bid.toNat :=
        toNat_ne _ _ (hind hgt).1 hbid0 (hib_ne hgt)
      rw [hfd_ne _ hne2]
  -- the live enumeration is unchanged
  have hlbi' : ∀ i, i < liveLen cfg (content.length + data.length) →
      liveBlockIdx cfg s' (s'.inode_table inum) i
        = liveBlockIdx cfg s2 (s2.inode_table inum) i := by
    intro i hi
    unfold liveBlockIdx
    by_cases h1 : i < cfg.maxFileBlocks
    · rw [if_pos h1, if_pos h1, hslots' i]
    · by_cases h2 : i = cfg.maxFileBlocks
      · rw [if_neg h1, if_neg h1, if_pos h2, if_pos h2, hib']
      · rw [if_neg h1, if_neg h1, if_neg h2, if_neg h2, hib']
        have hgt : cfg.maxFileBlocks * cfg.blockSize
            < content.length + data.length := by
          by_contra hle
          push_neg at hle
          have hll : liveLen cfg (content.length + data.length)
              = cfg.maxFileBlocks := by
            unfold liveLen
            rw [if_neg (by omega)]
            omega
          omega
        have hne2 : (s2.inode_table inum).i_indir_block.toNat ≠ bid.toNat :=
          toNat_ne _ _ (hind hgt).1 hbid0 (hib_ne hgt)
        rw [hfd_ne _ hne2]
  -- the commit equation
  have hcommit : writeCommit cfg s1 fh inum data.length
      (content.length % cfg.blockSize) scraps data = some (Sum.inr s') := by
    unfold writeCommit
    rw [hres]
    simp only []
    rw [data_block_get_pos cfg bid hbid0 hbidK]
    simp only []
    rw [blockWriteBytes_eq cfg s2 bid.toNat _ data (by omega)]
  refine ⟨s', hcommit, ?_, ?_, hof_ne, ?_, hino_ne, hfree', hfi', hfo', hfd_ne⟩
  · -- the file invariant for the grown content
    refine ⟨hinum, ?_, ?_, ?_, ?_, ?_, ?_, ?_, ?_, ?_, ?_, ?_⟩
    · rw [hfi']
      exact htaken
    · rw [hty']
      exact hty
    · rw [List.length_append]
      exact hsz'
    · rw [List.length_append]
      exact hcap
    · intro h
      rw [List.length_append] at h
      exact absurd h (by omega)
    · intro _ i hiD
      obtain ⟨hv1, hv2, hv3⟩ := hdirv i hiD
      refine ⟨?_, ?_, ?_⟩
      · rw [hslots' i]
        exact hv1
      · rw [hslots' i]
        exact hv2
      · rw [hslots' i, hfree']
        exact hv3
    · intro _
      rw [hcb', hcb, List.length_append]
    · intro _ hle
      rw [List.length_append] at hle
      obtain ⟨h1, h2⟩ := hnoind hle
      rw [hib', hci']
      exact ⟨h1, h2⟩
    · intro hgt
      rw [List.length_append] at hgt
      obtain ⟨a1, a2, a3, a4, a5, a6, a7⟩ := hind hgt
      have hne2 : (s2.inode_table inum).i_indir_block.toNat ≠ bid.toNat :=
        toNat_ne _ _ a1 hbid0 (hib_ne hgt)
      rw [List.length_append, hib', hci', hfd_ne _ hne2]
      refine ⟨a1, a2, ?_, a4, a5, ?_, a7⟩
      · rw [hfree']
        exact a3
      · intro j hj
        obtain ⟨b1, b2, b3⟩ := a6 j hj
        refine ⟨b1, b2, ?_⟩
        rw [hfree']
        exact b3
    · intro _ i2 h2 i1 h1
      rw [List.length_append] at h2
      rw [hlbi' _ h2, hlbi' _ (Nat.lt_trans h1 h2)]
      exact hnodup i2 h2 i1 h1
    · -- content of every block of the grown file
      intro b hb
      rw [List.length_append] at hb
      rw [hphys' b hb]
      by_cases hbq : b = content.length / cfg.blockSize
      · subst hbq
        rw [htarget, hfd_bid]
        refine ⟨rfl, ?_⟩
        intro off hoff
        rw [List.length_append] at hoff
        have hoff' : off < content.length % cfg.blockSize + data.length := by
          omega
        show storeBytes (bytesBase (s2.fs_data bid.toNat))
            (content.length % cfg.blockSize) data off = _
        by_cases hofflt : off < content.length % cfg.blockSize
        · rw [storeBytes_below _ _ _ _ hofflt]
          have hqlt : content.length / cfg.blockSize
              < numBlocks cfg content.length := by
            have hnb := numBlocks_eq cfg (content.length / cfg.blockSize)
              (content.length % cfg.blockSize) hrlt
            rw [hqr] at hnb
            rw [hnb, if_neg (by omega)]
            omega
          obtain ⟨hview, hbytes⟩ := hold _ hqlt
          rw [htarget] at hview hbytes
          rw [bytesBase_eq_byteVal _ hview off, hbytes off (by omega),
            List.getD_append _ _ _ _ (by omega)]
        · push_neg at hofflt
          rw [storeBytes_in _ _ _ _ hofflt (by omega),
            List.getD_append_right _ _ _ _ (by omega)]
          congr 1
          omega
      · -- an already-written block: its bytes are untouched
        have hqsucc : numBlocks cfg (content.length + data.length)
            ≤ content.length / cfg.blockSize + 1 := by
          have h2 : content.length + data.length
              = cfg.blockSize * (content.length / cfg.blockSize)
                + (content.length % cfg.blockSize + data.length) := by
            omega
          rw [h2]
          by_cases h3 : content.length % cfg.blockSize + data.length
              = cfg.blockSize
          · rw [h3, show cfg.blockSize * (content.length / cfg.blockSize)
                + cfg.blockSize
                = cfg.blockSize * (content.length / cfg.blockSize + 1) + 0
              from by ring, numBlocks_eq cfg _ 0 hBS, if_pos rfl]
          · rw [numBlocks_eq cfg _ _ (by omega)]
            split_ifs <;> omega
        have hblt : b < content.length / cfg.blockSize := by omega
        have hbL : b < numBlocks cfg content.length := by
          have := div_le_numBlocks cfg content.length
          omega
        obtain ⟨hview, hbytes⟩ := hold b hbL
        have hne2 : (physBlock cfg s2 (s2.inode_table inum) b).toNat
            ≠ bid.toNat :=
          toNat_ne _ _ (hphysOK b hb).1 hbid0 (hdistinct b hb hbq)
        rw [hfd_ne _ hne2]
        refine ⟨hview, ?_⟩
        intro off hoff
        rw [List.length_append] at hoff
        have hfull : b * cfg.blockSize + cfg.blockSize ≤ content.length := by
          have h5 := Nat.mul_le_mul_right cfg.blockSize
            (show b + 1 ≤ content.length / cfg.blockSize by omega)
          rw [Nat.add_mul, Nat.one_mul] at h5
          omega
        rw [hbytes off (by omega), List.getD_append _ _ _ _ (by omega)]
  · -- the write-handle invariant
    refine ⟨hfh, ?_, ?_, ?_⟩
    · rw [hfo']
      exact hofT
    · rw [hof_fh]
      show (s2.open_file_table fh).of_inumber = _
      exact hofI
    · rw [hof_fh, List.length_append]
      show (s2.open_file_table fh).of_write_offset + data.length = _
      rw [hofW]
  · rw [hof_fh]

/-- One full `writeCore` step on a sequentially appended file: with the
split already performed (`data` fits the current block, and it fills the
block exactly whenever bytes were deferred), the step succeeds and grows
the file by exactly `data`. -/
theorem writeCore_step (cfg : Config) (s : FSState) (fh inum : ℕ)
    (content data : List ℕ) (scraps : ℕ)
    (hD : 1 ≤ cfg.maxFileBlocks) (hM : 2 ≤ cfg.indirBlockSize)
    (hInv : FileInv cfg s inum content)
    (hWH : WriteHandleInv cfg s fh inum content.length)
    (hne : data ≠ [])
    (hfit : content.length % cfg.blockSize + data.length ≤ cfg.blockSize)
    (hscr : 0 < scraps →
      content.length % cfg.blockSize + data.length = cfg.blockSize)
    (hcap : content.length + data.length
      ≤ (cfg.maxFileBlocks + cfg.indirBlockSize) * cfg.blockSize)
    (hacc : cfg.maxFileBlocks + cfg.indirBlockSize + 1
      ≤ freeBlockCount cfg s + allocatedFor cfg content.length) :
    ∃ s', writeCore cfg s fh inum data.length (content.length % cfg.blockSize)
        scraps data = some (Sum.inr s') ∧
      FileInv cfg s' inum (content ++ data) ∧
      WriteHandleInv cfg s' fh inum (content ++ data).length ∧
      (∀ g, g ≠ fh → s'.open_file_table g = s.open_file_table g) ∧
      (s'.open_file_table fh).of_read_offset
        = (s.open_file_table fh).of_read_offset ∧
      (∀ m, m ≠ inum → s'.inode_table m = s.inode_table m) ∧
      s'.freeinode_ts = s.freeinode_ts ∧
      s'.free_open_file_entries = s.free_open_file_entries ∧
      freeBlockCount cfg s' + allocatedFor cfg (content ++ data).length
        = freeBlockCount cfg s + allocatedFor cfg content.length := by
  have hBS := cfg.blockSize_pos
  have htw : 0 < data.length := List.length_pos.mpr hne
  have hqr2 : content.length / cfg.blockSize * cfg.blockSize
      + content.length % cfg.blockSize = content.length := by
    rw [Nat.mul_comm]
    exact Nat.div_add_mod _ _
  have hrlt : content.length % cfg.blockSize < cfg.blockSize := Nat.mod_lt _ hBS
  have hbump_iff : (0 < scraps ∨ data.length + content.length % cfg.blockSize
      = cfg.blockSize) ↔
      content.length % cfg.blockSize + data.length = cfg.blockSize := by
    constructor
    · rintro (h | h)
      · exact hscr h
      · omega
    · intro h
      right
      omega
  rcases Nat.eq_zero_or_pos content.length with hL0 | hLpos
  · -- first write to an empty file: the allocation phase fills every slot
    have hr0 : content.length % cfg.blockSize = 0 := by
      rw [hL0]
      exact Nat.zero_mod _
    have hq0 : content.length / cfg.blockSize = 0 := by
      rw [hL0]
      exact Nat.zero_div _
    have hall0 : allocatedFor cfg content.length = 0 := by
      unfold allocatedFor
      rw [if_pos hL0]
    have hfreeD : cfg.maxFileBlocks ≤ freeBlockCount cfg s := by omega
    obtain ⟨s1, hphase, hnew, hdist, hty1, hsz1, hcb1, hib1, hci1, hoth1, hfi1,
      hfd1, hfo1, hof1, hmono1, hcnt1⟩ :=
      writeAllocPhase_zero cfg s inum (by rw [hInv.size_eq]; exact hL0) hfreeD
    have hfresh := hInv.fresh hL0
    have hib1' : (s1.inode_table inum).i_indir_block = -1 := by
      rw [hib1]
      exact hfresh.2.1
    have hci1' : (s1.inode_table inum).i_curr_indir = -1 := by
      rw [hci1]
      exact hfresh.2.2.1
    have hL'le : content.length + data.length
        ≤ cfg.maxFileBlocks * cfg.blockSize := by
      have hBle : cfg.blockSize ≤ cfg.maxFileBlocks * cfg.blockSize :=
        Nat.le_mul_of_pos_left _ (by omega)
      omega
    have hres := writeResolveBlock_direct cfg s1 inum data.length
      (content.length % cfg.blockSize) scraps 0 (by exact hcb1) (by omega)
    obtain ⟨s2, hs2⟩ : ∃ t,
        (if 0 < scraps ∨ data.length + content.length % cfg.blockSize
            = cfg.blockSize then
          updInode s1 inum fun i => { i with i_curr_block := i.i_curr_block + 1 }
        else s1) = t := ⟨_, rfl⟩
    rw [hs2] at hres
    have hpick : ∀ (F : FSState → Prop),
        F (updInode s1 inum fun i =>
          { i with i_curr_block := i.i_curr_block + 1 }) → F s1 → F s2 := by
      intro F h1 h2
      rw [← hs2]
      split_ifs
      exacts [h1, h2]
    have h2slots : ∀ j, (s2.inode_table inum).i_data_blocks j
        = (s1.inode_table inum).i_data_blocks j :=
      hpick (fun t => ∀ j, (t.inode_table inum).i_data_blocks j
          = (s1.inode_table inum).i_data_blocks j)
        (fun j => by rw [updInode_inode_table_same]) (fun j => rfl)
    have h2size : (s2.inode_table inum).i_size = content.length :=
      hpick (fun t => (t.inode_table inum).i_size = content.length)
        (by beta_reduce; rw [updInode_inode_table_same]
            show (s1.inode_table inum).i_size = _
            rw [hsz1]
            exact hInv.size_eq)
        (by beta_reduce; rw [hsz1]; exact hInv.size_eq)
    have h2ty : (s2.inode_table inum).i_node_type = InodeType.T_FILE :=
      hpick (fun t => (t.inode_table inum).i_node_type = InodeType.T_FILE)
        (by beta_reduce; rw [updInode_inode_table_same]
            show (s1.inode_table inum).i_node_type = _
            rw [hty1]
            exact hInv.isFile)
        (by beta_reduce; rw [hty1]; exact hInv.isFile)
    have h2ib : (s2.inode_table inum).i_indir_block = -1 :=
      hpick (fun t => (t.inode_table inum).i_indir_block = -1)
        (by beta_reduce; rw [updInode_inode_table_same]
            show (s1.inode_table inum).i_indir_block = -1
            exact hib1')
        hib1'
    have h2ci : (s2.inode_table inum).i_curr_indir = -1 :=
      hpick (fun t => (t.inode_table inum).i_curr_indir = -1)
        (by beta_reduce; rw [updInode_inode_table_same]
            show (s1.inode_table inum).i_curr_indir = -1
            exact hci1')
        hci1'
    have h2fb : ∀ b, s2.free_blocks b = s1.free_blocks b :=
      hpick (fun t => ∀ b, t.free_blocks b = s1.free_blocks b)
        (fun b => rfl) (fun b => rfl)
    have h2fd : ∀ b, s2.fs_data b = s1.fs_data b :=
      hpick (fun t => ∀ b, t.fs_data b = s1.fs_data b)
        (fun b => rfl) (fun b => rfl)
    have h2fi : s2.freeinode_ts = s.freeinode_ts :=
      hpick (fun t => t.freeinode_ts = s.freeinode_ts)
        (by beta_reduce; rw [updInode_freeinode_ts]; exact hfi1) hfi1
    have h2fo : s2.free_open_file_entries = s.free_open_file_entries :=
      hpick (fun t => t.free_open_file_entries = s.free_open_file_entries)
        (by beta_reduce; rw [updInode_free_open_file_entries]; exact hfo1) hfo1
    have h2of : s2.open_file_table = s.open_file_table :=
      hpick (fun t => t.open_file_table = s.open_file_table)
        (by beta_reduce; rw [updInode_open_file_table]; exact hof1) hof1
    have h2ino : ∀ m, m ≠ inum → s2.inode_table m = s.inode_table m :=
      fun m hm =>
        hpick (fun t => t.inode_table m = s.inode_table m)
          (by beta_reduce; rw [updInode_inode_table_noteq _ _ _ _ hm]; exact hoth1 m hm)
          (hoth1 m hm)
    have hdirv2 : ∀ i, i < cfg.maxFileBlocks →
        0 ≤ (s2.inode_table inum).i_data_blocks i ∧
        (s2.inode_table inum).i_data_blocks i < (cfg.dataBlocks : ℤ) ∧
        s2.free_blocks ((s2.inode_table inum).i_data_blocks i).toNat
          = AllocState.TAKEN := by
      intro i hi
      obtain ⟨v1, v2, v3, -⟩ := hnew i hi
      exact ⟨by rw [h2slots i]; exact v1, by rw [h2slots i]; exact v2,
        by rw [h2slots i, h2fb]; exact v3⟩
    have hcb2 : (s2.inode_table inum).i_curr_block =
        ((min ((content.length + data.length) / cfg.blockSize)
          cfg.maxFileBlocks : ℕ) : ℤ) := by
      by_cases h3 : content.length % cfg.blockSize + data.length = cfg.blockSize
      · have hb := hbump_iff.mpr h3
        have he : s2 = updInode s1 inum fun i =>
            { i with i_curr_block := i.i_curr_block + 1 } := by
          rw [← hs2, if_pos hb]
        have hdv : (content.length + data.length) / cfg.blockSize = 1 := by
          rw [hL0, Nat.zero_add, show data.length = cfg.blockSize by omega]
          exact Nat.div_self hBS
        rw [he, updInode_inode_table_same]
        show (s1.inode_table inum).i_curr_block + 1 = _
        rw [hcb1, hdv, Nat.min_eq_left hD]
        omega
      · have hb : ¬ (0 < scraps ∨ data.length + content.length % cfg.blockSize
            = cfg.blockSize) := fun hh => h3 (hbump_iff.mp hh)
        have he : s2 = s1 := by rw [← hs2, if_neg hb]
        have hdv : (content.length + data.length) / cfg.blockSize = 0 := by
          rw [hL0, Nat.zero_add]
          exact Nat.div_eq_of_lt (by omega)
        rw [he, hcb1, hdv, Nat.zero_min]
        omega
    have hll2 : liveLen cfg (content.length + data.length)
        = cfg.maxFileBlocks := by
      unfold liveLen
      rw [if_neg (by omega)]
      omega
    have hnodup2 : ∀ i2, i2 < liveLen cfg (content.length + data.length) →
        ∀ i1, i1 < i2 →
          liveBlockIdx cfg s2 (s2.inode_table inum) i1
            ≠ liveBlockIdx cfg s2 (s2.inode_table inum) i2 := by
      intro i2 h2 i1 h1
      rw [hll2] at h2
      have hlb : ∀ i, i < cfg.maxFileBlocks →
          liveBlockIdx cfg s2 (s2.inode_table inum) i
            = (s1.inode_table inum).i_data_blocks i := by
        intro i hi
        unfold liveBlockIdx
        rw [if_pos hi, h2slots i]
      rw [hlb i1 (by omega), hlb i2 h2]
      exact hdist i1 i2 h1 h2
    have htarget2 : physBlock cfg s2 (s2.inode_table inum)
        (content.length / cfg.blockSize)
        = (s1.inode_table inum).i_data_blocks 0 := by
      unfold physBlock
      rw [hq0, if_pos (by omega), h2slots 0]
    obtain ⟨hb0, hbK, -, -⟩ := hnew 0 (by omega)
    obtain ⟨s', hc, hFI, hWH', hofne, hofr, hinone, hfb', hfi', hfo', hfdne⟩ :=
      writeCommit_generic cfg s1 s2 ((s1.inode_table inum).i_data_blocks 0)
        fh inum content data scraps hne hfit hcap hres hb0 hbK hInv.inum_lt
        (by rw [h2fi]; exact hInv.taken) h2ty h2size hdirv2 hcb2
        (fun _ => ⟨h2ib, h2ci⟩) (fun hgt => absurd hgt (by omega)) hnodup2
        htarget2
        (fun b hb => absurd hb (by rw [hL0, numBlocks_zero]; omega))
        hWH.fh_lt (by rw [h2fo]; exact hWH.taken)
        (by rw [h2of]; exact hWH.inum_eq) (by rw [h2of]; exact hWH.woff_eq)
    refine ⟨s', ?_, hFI, hWH', ?_, ?_, ?_, ?_, ?_, ?_⟩
    · unfold writeCore
      rw [hphase]
      exact hc
    · intro g hg
      rw [hofne g hg, h2of]
    · rw [hofr, h2of]
    · intro m hm
      rw [hinone m hm, h2ino m hm]
    · rw [hfi', h2fi]
    · rw [hfo', h2fo]
    · have hc1 : freeBlockCount cfg s' = freeBlockCount cfg s2 :=
        freeBlockCount_congr cfg s2 s' (fun b _ => hfb' b)
      have hc2 : freeBlockCount cfg s2 = freeBlockCount cfg s1 :=
        freeBlockCount_congr cfg s1 s2 (fun b _ => h2fb b)
      have ha1 : allocatedFor cfg (content ++ data).length
          = cfg.maxFileBlocks := by
        rw [List.length_append]
        unfold allocatedFor
        rw [if_neg (by omega), if_pos hL'le]
        omega
      rw [hc1, hc2, ha1, hall0]
      omega
  · -- the inode already has content: the allocation phase is skipped
    have hphase := writeAllocPhase_skip cfg s inum
      (by rw [hInv.size_eq]; omega)
    rcases Nat.lt_or_ge (content.length / cfg.blockSize) cfg.maxFileBlocks
      with hqD | hqD
    · -- a direct block receives the bytes
      have hL'le : content.length + data.length
          ≤ cfg.maxFileBlocks * cfg.blockSize := by
        have h5 := Nat.mul_le_mul_right cfg.blockSize
          (show content.length / cfg.blockSize + 1 ≤ cfg.maxFileBlocks by omega)
        rw [Nat.add_mul, Nat.one_mul] at h5
        omega
      have hcbq : (s.inode_table inum).i_curr_block
          = ((content.length / cfg.blockSize : ℕ) : ℤ) := by
        rw [hInv.curr_block_eq hLpos, Nat.min_eq_left (Nat.le_of_lt hqD)]
      have hres := writeResolveBlock_direct cfg s inum data.length
        (content.length % cfg.blockSize) scraps
        (content.length / cfg.blockSize) hcbq hqD
      obtain ⟨s2, hs2⟩ : ∃ t,
          (if 0 < scraps ∨ data.length + content.length % cfg.blockSize
              = cfg.blockSize then
            updInode s inum fun i => { i with i_curr_block := i.i_curr_block + 1 }
          else s) = t := ⟨_, rfl⟩
      rw [hs2] at hres
      have hpick : ∀ (F : FSState → Prop),
          F (updInode s inum fun i =>
            { i with i_curr_block := i.i_curr_block + 1 }) → F s → F s2 := by
        intro F h1 h2
        rw [← hs2]
        split_ifs
        exacts [h1, h2]
      have h2slots : ∀ j, (s2.inode_table inum).i_data_blocks j
          = (s.inode_table inum).i_data_blocks j :=
        hpick (fun t => ∀ j, (t.inode_table inum).i_data_blocks j
            = (s.inode_table inum).i_data_blocks j)
          (fun j => by rw [updInode_inode_table_same]) (fun j => rfl)
      have h2size : (s2.inode_table inum).i_size = content.length :=
        hpick (fun t => (t.inode_table inum).i_size = content.length)
          (by beta_reduce; rw [updInode_inode_table_same]
              show (s.inode_table inum).i_size = _
              exact hInv.size_eq)
          hInv.size_eq
      have h2ty : (s2.inode_table inum).i_node_type = InodeType.T_FILE :=
        hpick (fun t => (t.inode_table inum).i_node_type = InodeType.T_FILE)
          (by beta_reduce; rw [updInode_inode_table_same]
              show (s.inode_table inum).i_node_type = _
              exact hInv.isFile)
          hInv.isFile
      have hno := hInv.no_indir hLpos (by omega)
      have h2ib : (s2.inode_table inum).i_indir_block = -1 :=
        hpick (fun t => (t.inode_table inum).i_indir_block = -1)
          (by beta_reduce; rw [updInode_inode_table_same]
              show (s.inode_table inum).i_indir_block = -1
              exact hno.1)
          hno.1
      have h2ci : (s2.inode_table inum).i_curr_indir = -1 :=
        hpick (fun t => (t.inode_table inum).i_curr_indir = -1)
          (by beta_reduce; rw [updInode_inode_table_same]
              show (s.inode_table inum).i_curr_indir = -1
              exact hno.2)
          hno.2
      have h2fb : ∀ b, s2.free_blocks b = s.free_blocks b :=
        hpick (fun t => ∀ b, t.free_blocks b = s.free_blocks b)
          (fun b => rfl) (fun b => rfl)
      have h2fd : ∀ b, s2.fs_data b = s.fs_data b :=
        hpick (fun t => ∀ b, t.fs_data b = s.fs_data b)
          (fun b => rfl) (fun b => rfl)
      have h2fi : s2.freeinode_ts = s.freeinode_ts :=
        hpick (fun t => t.freeinode_ts = s.freeinode_ts) rfl rfl
      have h2fo : s2.free_open_file_entries = s.free_open_file_entries :=
        hpick (fun t => t.free_open_file_entries = s.free_open_file_entries)
          rfl rfl
      have h2of : s2.open_file_table = s.open_file_table :=
        hpick (fun t => t.open_file_table = s.open_file_table) rfl rfl
      have h2ino : ∀ m, m ≠ inum → s2.inode_table m = s.inode_table m :=
        fun m hm =>
          hpick (fun t => t.inode_table m = s.inode_table m)
            (by beta_reduce; rw [updInode_inode_table_noteq _ _ _ _ hm]) rfl
      have hdirv2 : ∀ i, i < cfg.maxFileBlocks →
          0 ≤ (s2.inode_table inum).i_data_blocks i ∧
          (s2.inode_table inum).i_data_blocks i < (cfg.dataBlocks : ℤ) ∧
          s2.free_blocks ((s2.inode_table inum).i_data_blocks i).toNat
            = AllocState.TAKEN := by
        intro i hi
        obtain ⟨v1, v2, v3⟩ := hInv.direct_valid hLpos i hi
        exact ⟨by rw [h2slots i]; exact v1, by rw [h2slots i]; exact v2,
          by rw [h2slots i, h2fb]; exact v3⟩
      have hdiv' : (content.length + data.length) / cfg.blockSize
          = content.length / cfg.blockSize
            + (if content.length % cfg.blockSize + data.length = cfg.blockSize
              then 1 else 0) := by
        have h2 : content.length + data.length
            = cfg.blockSize * (content.length / cfg.blockSize)
              + (content.length % cfg.blockSize + data.length) := by
          rw [Nat.mul_comm]
          omega
        rw [h2]
        by_cases h3 : content.length % cfg.blockSize + data.length
            = cfg.blockSize
        · rw [if_pos h3, h3, show cfg.blockSize * (content.length / cfg.blockSize)
              + cfg.blockSize
              = cfg.blockSize * (content.length / cfg.blockSize + 1) + 0
            from by ring, (div_mul_add cfg _ 0 hBS).1]
        · rw [if_neg h3, (div_mul_add cfg _ _ (by omega)).1]
          omega
      have hcb2 : (s2.inode_table inum).i_curr_block =
          ((min ((content.length + data.length) / cfg.blockSize)
            cfg.maxFileBlocks : ℕ) : ℤ) := by
        rw [hdiv']
        by_cases h3 : content.length % cfg.blockSize + data.length
            = cfg.blockSize
        · have hb := hbump_iff.mpr h3
          have he : s2 = updInode s inum fun i =>
              { i with i_curr_block := i.i_curr_block + 1 } := by
            rw [← hs2, if_pos hb]
          rw [he, updInode_inode_table_same]
          show (s.inode_table inum).i_curr_block + 1 = _
          rw [hcbq, if_pos h3, Nat.min_eq_left (by omega)]
          omega
        · have hb : ¬ (0 < scraps ∨ data.length + content.length % cfg.blockSize
              = cfg.blockSize) := fun hh => h3 (hbump_iff.mp hh)
          have he : s2 = s := by rw [← hs2, if_neg hb]
          rw [he, hcbq, if_neg h3, Nat.min_eq_left (by omega)]
          omega
      have hll2 : liveLen cfg (content.length + data.length)
          = cfg.maxFileBlocks := by
        unfold liveLen
        rw [if_neg (by omega)]
        omega
      have hnodup2 : ∀ i2, i2 < liveLen cfg (content.length + data.length) →
          ∀ i1, i1 < i2 →
            liveBlockIdx cfg s2 (s2.inode_table inum) i1
              ≠ liveBlockIdx cfg s2 (s2.inode_table inum) i2 := by
        intro i2 h2 i1 h1
        rw [hll2] at h2
        have hlb : ∀ i, i < cfg.maxFileBlocks →
            liveBlockIdx cfg s2 (s2.inode_table inum) i
              = liveBlockIdx cfg s (s.inode_table inum) i := by
          intro i hi
          unfold liveBlockIdx
          rw [if_pos hi, if_pos hi, h2slots i]
        have hllD := maxFileBlocks_le_liveLen cfg content.length
        rw [hlb i1 (by omega), hlb i2 h2]
        exact hInv.nodup hLpos i2 (by omega) i1 h1
      have htarget2 : physBlock cfg s2 (s2.inode_table inum)
          (content.length / cfg.blockSize)
          = (s.inode_table inum).i_data_blocks
              (content.length / cfg.blockSize) := by
        unfold physBlock
        rw [if_pos hqD, h2slots]
      have hold2 : ∀ b, b < numBlocks cfg content.length →
          isBytesView (s2.fs_data
            (physBlock cfg s2 (s2.inode_table inum) b).toNat) = true ∧
          ∀ off, off < min cfg.blockSize (content.length - b * cfg.blockSize) →
            byteVal (s2.fs_data
              (physBlock cfg s2 (s2.inode_table inum) b).toNat) off
              = content.getD (b * cfg.blockSize + off) 0 := by
        intro b hb
        have hbD : b < cfg.maxFileBlocks := by
          have := numBlocks_le_div_succ cfg content.length
          omega
        have hphys_eq : physBlock cfg s2 (s2.inode_table inum) b
            = physBlock cfg s (s.inode_table inum) b := by
          unfold physBlock
          rw [if_pos hbD, if_pos hbD, h2slots]
        obtain ⟨w1, w2⟩ := hInv.content_ok b hb
        rw [hphys_eq, h2fd]
        exact ⟨w1, w2⟩
      obtain ⟨hb0, hbK, -⟩ := hInv.direct_valid hLpos
        (content.length / cfg.blockSize) hqD
      obtain ⟨s', hc, hFI, hWH', hofne, hofr, hinone, hfb', hfi', hfo', hfdne⟩ :=
        writeCommit_generic cfg s s2
          ((s.inode_table inum).i_data_blocks (content.length / cfg.blockSize))
          fh inum content data scraps hne hfit hcap hres hb0 hbK hInv.inum_lt
          (by rw [h2fi]; exact hInv.taken) h2ty h2size hdirv2 hcb2
          (fun _ => ⟨h2ib, h2ci⟩) (fun hgt => absurd hgt (by omega)) hnodup2
          htarget2 hold2
          hWH.fh_lt (by rw [h2fo]; exact hWH.taken)
          (by rw [h2of]; exact hWH.inum_eq) (by rw [h2of]; exact hWH.woff_eq)
      refine ⟨s', ?_, hFI, hWH', ?_, ?_, ?_, ?_, ?_, ?_⟩
      · unfold writeCore
        rw [hphase]
        exact hc
      · intro g hg
        rw [hofne g hg, h2of]
      · rw [hofr, h2of]
      · intro m hm
        rw [hinone m hm, h2ino m hm]
      · rw [hfi', h2fi]
      · rw [hfo', h2fo]
      · have hc1 : freeBlockCount cfg s' = freeBlockCount cfg s2 :=
          freeBlockCount_congr cfg s2 s' (fun b _ => hfb' b)
        have hc2 : freeBlockCount cfg s2 = freeBlockCount cfg s :=
          freeBlockCount_congr cfg s s2 (fun b _ => h2fb b)
        have ha1 : allocatedFor cfg (content ++ data).length
            = cfg.maxFileBlocks := by
          rw [List.length_append]
          unfold allocatedFor
          rw [if_neg (by omega), if_pos hL'le]
          omega
        have ha2 : allocatedFor cfg content.length = cfg.maxFileBlocks := by
          unfold allocatedFor
          rw [if_neg (by omega), if_pos (by omega)]
          omega
        rw [hc1, hc2, ha1, ha2]
    · -- the direct capacity is exhausted: the indirect block receives the bytes
      have hcbD : (s.inode_table inum).i_curr_block
          = (cfg.maxFileBlocks : ℤ) := by
        rw [hInv.curr_block_eq hLpos, Nat.min_eq_right hqD]
      have hDBS_le : cfg.maxFileBlocks * cfg.blockSize ≤ content.length := by
        have h5 := Nat.mul_le_mul_right cfg.blockSize hqD
        omega
      rcases Nat.lt_or_ge (cfg.maxFileBlocks * cfg.blockSize) content.length
        with hgtL | hgeL
      · -- the indirect block already exists
        obtain ⟨hv0, hvK, hvT, hview, hciL, hslotv, hslote⟩ :=
          hInv.indir_valid hgtL
        obtain ⟨ibn, hibn⟩ : ∃ ibn : ℕ,
            (s.inode_table inum).i_indir_block = (ibn : ℤ) :=
          ⟨(s.inode_table inum).i_indir_block.toNat,
            (Int.toNat_of_nonneg hv0).symm⟩
        have hibnK : ibn < cfg.dataBlocks := by
          rw [hibn] at hvK
          exact_mod_cast hvK
        rw [hibn, Int.toNat_natCast] at hvT hview hslotv hslote
        obtain ⟨f, hf⟩ : ∃ f, s.fs_data ibn = BlockContent.ints f := by
          cases hv : s.fs_data ibn with
          | ints g => exact ⟨g, rfl⟩
          | raw => rw [hv] at hview; exact Bool.noConfusion hview
          | bytes g => rw [hv] at hview; exact Bool.noConfusion hview
          | dirents g => rw [hv] at hview; exact Bool.noConfusion hview
        rw [hf] at hslotv hslote
        simp only [intVal] at hslotv hslote
        have hkM : (content.length - cfg.maxFileBlocks * cfg.blockSize)
            / cfg.blockSize < cfg.indirBlockSize := by
          have h7 : (cfg.maxFileBlocks + cfg.indirBlockSize) * cfg.blockSize
              = cfg.maxFileBlocks * cfg.blockSize
                + cfg.indirBlockSize * cfg.blockSize := by
            ring
          exact (Nat.div_lt_iff_lt_mul hBS).mpr (by omega)
        have hrr : (content.length - cfg.maxFileBlocks * cfg.blockSize)
            % cfg.blockSize = content.length % cfg.blockSize :=
          (mod_split cfg _ (by omega)).symm
        have hkdef : content.length / cfg.blockSize = cfg.maxFileBlocks
            + (content.length - cfg.maxFileBlocks * cfg.blockSize)
              / cfg.blockSize :=
          div_split cfg _ (by omega)
        have h9 := Nat.div_add_mod
          (content.length - cfg.maxFileBlocks * cfg.blockSize) cfg.blockSize
        have hrr2 : content.length + data.length
            - cfg.maxFileBlocks * cfg.blockSize
            = cfg.blockSize * ((content.length
                - cfg.maxFileBlocks * cfg.blockSize) / cfg.blockSize)
              + (content.length % cfg.blockSize + data.length) := by
          omega
        have hnb' : numBlocks cfg (content.length + data.length
            - cfg.maxFileBlocks * cfg.blockSize)
            = (content.length - cfg.maxFileBlocks * cfg.blockSize)
              / cfg.blockSize + 1 := by
          rw [hrr2]
          by_cases h3 : content.length % cfg.blockSize + data.length
              = cfg.blockSize
          · rw [h3, show cfg.blockSize * ((content.length
                - cfg.maxFileBlocks * cfg.blockSize) / cfg.blockSize)
                + cfg.blockSize
                = cfg.blockSize * ((content.length
                  - cfg.maxFileBlocks * cfg.blockSize) / cfg.blockSize + 1) + 0
              from by ring, numBlocks_eq cfg _ 0 hBS, if_pos rfl]
          · rw [numBlocks_eq cfg _ _ (by omega), if_neg (by omega)]
        have hdq' : (content.length + data.length
            - cfg.maxFileBlocks * cfg.blockSize) / cfg.blockSize
            = (content.length - cfg.maxFileBlocks * cfg.blockSize)
              / cfg.blockSize
              + (if content.length % cfg.blockSize + data.length
                = cfg.blockSize then 1 else 0) := by
          rw [hrr2]
          by_cases h3 : content.length % cfg.blockSize + data.length
              = cfg.blockSize
          · rw [if_pos h3, h3, show cfg.blockSize * ((content.length
                - cfg.maxFileBlocks * cfg.blockSize) / cfg.blockSize)
                + cfg.blockSize
                = cfg.blockSize * ((content.length
                  - cfg.maxFileBlocks * cfg.blockSize) / cfg.blockSize + 1) + 0
              from by ring, (div_mul_add cfg _ 0 hBS).1]
          · rw [if_neg h3, (div_mul_add cfg _ _ (by omega)).1]
            omega
        have hdge : cfg.maxFileBlocks
            ≤ (content.length + data.length) / cfg.blockSize := by
          rw [div_split cfg _ (by omega)]
          exact Nat.le_add_right _ _
        have hciLk : (s.inode_table inum).i_curr_indir =
            (((content.length - cfg.maxFileBlocks * cfg.blockSize)
              / cfg.blockSize : ℕ) : ℤ) := hciL
        have hllL : liveLen cfg content.length = cfg.maxFileBlocks + 1
            + numBlocks cfg (content.length
              - cfg.maxFileBlocks * cfg.blockSize) := by
          unfold liveLen
          rw [if_pos hgtL]
          omega
        have hllL' : liveLen cfg (content.length + data.length)
            = cfg.maxFileBlocks + 1
              + numBlocks cfg (content.length + data.length
                - cfg.maxFileBlocks * cfg.blockSize) := by
          unfold liveLen
          rw [if_pos (by omega)]
          omega
        have hnbLsum : numBlocks cfg content.length = cfg.maxFileBlocks
            + numBlocks cfg (content.length
              - cfg.maxFileBlocks * cfg.blockSize) :=
          numBlocks_sub_split cfg _ (by omega)
        by_cases hr0' : content.length % cfg.blockSize = 0
        · -- the current slot is full: a fresh block goes into the next slot
          have hnbk0 : numBlocks cfg (content.length
              - cfg.maxFileBlocks * cfg.blockSize)
              = (content.length - cfg.maxFileBlocks * cfg.blockSize)
                / cfg.blockSize := by
            have h8 := numBlocks_eq cfg ((content.length
                - cfg.maxFileBlocks * cfg.blockSize) / cfg.blockSize)
              ((content.length - cfg.maxFileBlocks * cfg.blockSize)
                % cfg.blockSize) (Nat.mod_lt _ hBS)
            rw [Nat.div_add_mod] at h8
            rw [h8, if_pos (by omega)]
            omega
          have hslotk : f ((content.length
              - cfg.maxFileBlocks * cfg.blockSize) / cfg.blockSize) = -1 :=
            hslote _ (by omega) hkM
          have ha2 : allocatedFor cfg content.length
              = cfg.maxFileBlocks + (1 + ((content.length
                - cfg.maxFileBlocks * cfg.blockSize) / cfg.blockSize)) := by
            unfold allocatedFor
            rw [if_neg (by omega), if_neg (by omega), hnbk0]
          have hfree1 : 0 < freeBlockCount cfg s := by
            have hacc' := hacc
            rw [ha2] at hacc'
            omega
          obtain ⟨b2, hb2K, hb2F, hcnt2, heq⟩ :=
            writeResolveBlock_indir_alloc cfg s inum data.length
              (content.length % cfg.blockSize) scraps ibn
              ((content.length - cfg.maxFileBlocks * cfg.blockSize)
                / cfg.blockSize) f hcbD hibn hibnK hciLk hkM hf hslotk hfree1
          have hib_ne_b2 : ibn ≠ b2 := by
            intro hEq
            rw [hEq, hb2F] at hvT
            cases hvT
          obtain ⟨s2, hs2⟩ : ∃ t,
              (if 0 < scraps ∨ data.length + content.length % cfg.blockSize
                  = cfg.blockSize then
                updInode
                  (setBlockContent
                    { s with free_blocks :=
                        Function.update s.free_blocks b2 AllocState.TAKEN }
                    ibn (BlockContent.ints (Function.update f
                      ((content.length - cfg.maxFileBlocks * cfg.blockSize)
                        / cfg.blockSize) (b2 : ℤ))))
                  inum (fun i => { i with i_curr_indir := i.i_curr_indir + 1 })
              else
                setBlockContent
                  { s with free_blocks :=
                      Function.update s.free_blocks b2 AllocState.TAKEN }
                  ibn (BlockContent.ints (Function.update f
                    ((content.length - cfg.maxFileBlocks * cfg.blockSize)
                      / cfg.blockSize) (b2 : ℤ)))) = t := ⟨_, rfl⟩
          rw [hs2] at heq
          have hpick : ∀ (F : FSState → Prop),
              F (updInode
                  (setBlockContent
                    { s with free_blocks :=
                        Function.update s.free_blocks b2 AllocState.TAKEN }
                    ibn (BlockContent.ints (Function.update f
                      ((content.length - cfg.maxFileBlocks * cfg.blockSize)
                        / cfg.blockSize) (b2 : ℤ))))
                  inum (fun i => { i with i_curr_indir := i.i_curr_indir + 1 })) →
              F (setBlockContent
                  { s with free_blocks :=
                      Function.update s.free_blocks b2 AllocState.TAKEN }
                  ibn (BlockContent.ints (Function.update f
                    ((content.length - cfg.maxFileBlocks * cfg.blockSize)
                      / cfg.blockSize) (b2 : ℤ)))) → F s2 := by
            intro F h1 h2
            rw [← hs2]
            split_ifs
            exacts [h1, h2]
          have h2slots : ∀ j, (s2.inode_table inum).i_data_blocks j
              = (s.inode_table inum).i_data_blocks j :=
            hpick (fun t => ∀ j, (t.inode_table inum).i_data_blocks j
                = (s.inode_table inum).i_data_blocks j)
              (fun j => by rw [updInode_inode_table_same]; rfl) (fun j => rfl)
          have h2size : (s2.inode_table inum).i_size = content.length :=
            hpick (fun t => (t.inode_table inum).i_size = content.length)
              (by beta_reduce
                  rw [updInode_inode_table_same]
                  exact hInv.size_eq)
              hInv.size_eq
          have h2ty : (s2.inode_table inum).i_node_type = InodeType.T_FILE :=
            hpick (fun t => (t.inode_table inum).i_node_type = InodeType.T_FILE)
              (by beta_reduce
                  rw [updInode_inode_table_same]
                  exact hInv.isFile)
              hInv.isFile
          have h2cb : (s2.inode_table inum).i_curr_block
              = (s.inode_table inum).i_curr_block :=
            hpick (fun t => (t.inode_table inum).i_curr_block
                = (s.inode_table inum).i_curr_block)
              (by beta_reduce; rw [updInode_inode_table_same]; rfl) rfl
          have h2ib' : (s2.inode_table inum).i_indir_block
              = (s.inode_table inum).i_indir_block :=
            hpick (fun t => (t.inode_table inum).i_indir_block
                = (s.inode_table inum).i_indir_block)
              (by beta_reduce; rw [updInode_inode_table_same]; rfl) rfl
          have h2fb : ∀ x, s2.free_blocks x
              = Function.update s.free_blocks b2 AllocState.TAKEN x :=
            hpick (fun t => ∀ x, t.free_blocks x
                = Function.update s.free_blocks b2 AllocState.TAKEN x)
              (fun x => rfl) (fun x => rfl)
          have h2fd_ib : s2.fs_data ibn
              = BlockContent.ints (Function.update f
                  ((content.length - cfg.maxFileBlocks * cfg.blockSize)
                    / cfg.blockSize) (b2 : ℤ)) :=
            hpick (fun t => t.fs_data ibn
                = BlockContent.ints (Function.update f
                    ((content.length - cfg.maxFileBlocks * cfg.blockSize)
                      / cfg.blockSize) (b2 : ℤ)))
              (by beta_reduce
                  rw [updInode_fs_data, setBlockContent_fs_data_same])
              (by beta_reduce
                  rw [setBlockContent_fs_data_same])
          have h2fd_ne : ∀ x, x ≠ ibn → s2.fs_data x = s.fs_data x :=
            fun x hx =>
              hpick (fun t => t.fs_data x = s.fs_data x)
                (by beta_reduce
                    rw [updInode_fs_data,
                      setBlockContent_fs_data_noteq _ _ _ _ hx])
                (by beta_reduce
                    rw [setBlockContent_fs_data_noteq _ _ _ _ hx])
          have h2fi : s2.freeinode_ts = s.freeinode_ts :=
            hpick (fun t => t.freeinode_ts = s.freeinode_ts) rfl rfl
          have h2fo : s2.free_open_file_entries = s.free_open_file_entries :=
            hpick (fun t => t.free_open_file_entries
              = s.free_open_file_entries) rfl rfl
          have h2of : s2.open_file_table = s.open_file_table :=
            hpick (fun t => t.open_file_table = s.open_file_table) rfl rfl
          have h2ino : ∀ m, m ≠ inum → s2.inode_table m = s.inode_table m :=
            fun m hm =>
              hpick (fun t => t.inode_table m = s.inode_table m)
                (by beta_reduce; rw [updInode_inode_table_noteq _ _ _ _ hm]; rfl) rfl
          have hTak : ∀ x, s.free_blocks x = AllocState.TAKEN →
              s2.free_blocks x = AllocState.TAKEN := by
            intro x hx
            rw [h2fb]
            by_cases hxb : x = b2
            · rw [hxb, Function.update_same]
            · rw [Function.update_noteq hxb]
              exact hx
          have hdirv2 : ∀ i, i < cfg.maxFileBlocks →
              0 ≤ (s2.inode_table inum).i_data_blocks i ∧
              (s2.inode_table inum).i_data_blocks i < (cfg.dataBlocks : ℤ) ∧
              s2.free_blocks ((s2.inode_table inum).i_data_blocks i).toNat
                = AllocState.TAKEN := by
            intro i hi
            obtain ⟨v1, v2, v3⟩ := hInv.direct_valid hLpos i hi
            exact ⟨by rw [h2slots i]; exact v1, by rw [h2slots i]; exact v2,
              by rw [h2slots i]; exact hTak _ v3⟩
          have hcb2 : (s2.inode_table inum).i_curr_block =
              ((min ((content.length + data.length) / cfg.blockSize)
                cfg.maxFileBlocks : ℕ) : ℤ) := by
            rw [h2cb, hcbD, Nat.min_eq_right hdge]
          have hind2 : 0 ≤ (s2.inode_table inum).i_indir_block ∧
              (s2.inode_table inum).i_indir_block < (cfg.dataBlocks : ℤ) ∧
              s2.free_blocks (s2.inode_table inum).i_indir_block.toNat
                = AllocState.TAKEN ∧
              isIntsView (s2.fs_data
                (s2.inode_table inum).i_indir_block.toNat) = true ∧
              (s2.inode_table inum).i_curr_indir =
                (((content.length + data.length
                  - cfg.maxFileBlocks * cfg.blockSize) / cfg.blockSize : ℕ) : ℤ) ∧
              (∀ j, j < numBlocks cfg (content.length + data.length
                    - cfg.maxFileBlocks * cfg.blockSize) →
                0 ≤ intVal (s2.fs_data
                  (s2.inode_table inum).i_indir_block.toNat) j ∧
                intVal (s2.fs_data
                  (s2.inode_table inum).i_indir_block.toNat) j
                  < (cfg.dataBlocks : ℤ) ∧
                s2.free_blocks (intVal (s2.fs_data
                  (s2.inode_table inum).i_indir_block.toNat) j).toNat
                  = AllocState.TAKEN) ∧
              (∀ j, numBlocks cfg (content.length + data.length
                    - cfg.maxFileBlocks * cfg.blockSize) ≤ j →
                j < cfg.indirBlockSize →
                intVal (s2.fs_data
                  (s2.inode_table inum).i_indir_block.toNat) j = -1) := by
            refine ⟨by rw [h2ib', hibn]; exact Int.ofNat_nonneg ibn,
              by rw [h2ib', hibn]; exact_mod_cast hibnK, ?_, ?_, ?_, ?_, ?_⟩
            · rw [h2ib', hibn, Int.toNat_natCast]
              exact hTak _ hvT
            · rw [h2ib', hibn, Int.toNat_natCast, h2fd_ib]
              rfl
            · rw [hdq']
              by_cases h3 : content.length % cfg.blockSize + data.length
                  = cfg.blockSize
              · have he : (if 0 < scraps ∨ data.length
                      + content.length % cfg.blockSize = cfg.blockSize then
                    updInode
                      (setBlockContent
                        { s with free_blocks :=
                            Function.update s.free_blocks b2 AllocState.TAKEN }
                        ibn (BlockContent.ints (Function.update f
                          ((content.length - cfg.maxFileBlocks * cfg.blockSize)
                            / cfg.blockSize) (b2 : ℤ))))
                      inum (fun i =>
                        { i with i_curr_indir := i.i_curr_indir + 1 })
                  else
                    setBlockContent
                      { s with free_blocks :=
                          Function.update s.free_blocks b2 AllocState.TAKEN }
                      ibn (BlockContent.ints (Function.update f
                        ((content.length - cfg.maxFileBlocks * cfg.blockSize)
                          / cfg.blockSize) (b2 : ℤ))))
                    = updInode
                      (setBlockContent
                        { s with free_blocks :=
                            Function.update s.free_blocks b2 AllocState.TAKEN }
                        ibn (BlockContent.ints (Function.update f
                          ((content.length - cfg.maxFileBlocks * cfg.blockSize)
                            / cfg.blockSize) (b2 : ℤ))))
                      inum (fun i =>
                        { i with i_curr_indir := i.i_curr_indir + 1 }) := by
                  rw [if_pos (hbump_iff.mpr h3)]
                rw [← hs2, he, updInode_inode_table_same]
                show (s.inode_table inum).i_curr_indir + 1 = _
                rw [hciLk, if_pos h3]
                omega
              · have he : s2 = setBlockContent
                    { s with free_blocks :=
                        Function.update s.free_blocks b2 AllocState.TAKEN }
                    ibn (BlockContent.ints (Function.update f
                      ((content.length - cfg.maxFileBlocks * cfg.blockSize)
                        / cfg.blockSize) (b2 : ℤ))) := by
                  rw [← hs2, if_neg (fun hh => h3 (hbump_iff.mp hh))]
                rw [he]
                show (s.inode_table inum).i_curr_indir = _
                rw [hciLk, if_neg h3]
                omega
            · intro j hj
              rw [hnb'] at hj
              rw [h2ib', hibn, Int.toNat_natCast, h2fd_ib]
              simp only [intVal]
              by_cases hjk : j = (content.length
                  - cfg.maxFileBlocks * cfg.blockSize) / cfg.blockSize
              · rw [hjk, Function.update_same]
                refine ⟨Int.ofNat_nonneg b2, by exact_mod_cast hb2K, ?_⟩
                rw [Int.toNat_natCast, h2fb, Function.update_same]
              · rw [Function.update_noteq hjk]
                obtain ⟨w0, wK, wT⟩ := hslotv j (by omega)
                refine ⟨w0, wK, ?_⟩
                have hne3 : (f j).toNat ≠ b2 := by
                  intro hEq
                  rw [hEq, hb2F] at wT
                  cases wT
                rw [h2fb, Function.update_noteq hne3]
                exact wT
            · intro j hj1 hj2
              rw [hnb'] at hj1
              rw [h2ib', hibn, Int.toNat_natCast, h2fd_ib]
              simp only [intVal]
              rw [Function.update_noteq (by omega)]
              exact hslote j (by omega) hj2
          have hlbiS : ∀ i, i < liveLen cfg content.length →
              liveBlockIdx cfg s2 (s2.inode_table inum) i
                = liveBlockIdx cfg s (s.inode_table inum) i := by
            intro i hi
            rw [hllL, hnbk0] at hi
            unfold liveBlockIdx
            by_cases h1 : i < cfg.maxFileBlocks
            · rw [if_pos h1, if_pos h1, h2slots]
            · by_cases h2 : i = cfg.maxFileBlocks
              · rw [if_neg h1, if_neg h1, if_pos h2, if_pos h2, h2ib']
              · rw [if_neg h1, if_neg h1, if_neg h2, if_neg h2, h2ib', hibn,
                  Int.toNat_natCast, h2fd_ib, hf]
                simp only [intVal]
                rw [Function.update_noteq (by omega)]
          have hlbiNew : liveBlockIdx cfg s2 (s2.inode_table inum)
              (cfg.maxFileBlocks + 1 + (content.length
                - cfg.maxFileBlocks * cfg.blockSize) / cfg.blockSize)
              = (b2 : ℤ) := by
            unfold liveBlockIdx
            rw [if_neg (by omega), if_neg (by omega), h2ib', hibn,
              Int.toNat_natCast, h2fd_ib]
            simp only [intVal]
            rw [show cfg.maxFileBlocks + 1 + (content.length
                - cfg.maxFileBlocks * cfg.blockSize) / cfg.blockSize
                - cfg.maxFileBlocks - 1
                = (content.length - cfg.maxFileBlocks * cfg.blockSize)
                  / cfg.blockSize from by omega, Function.update_same]
          have hlive_taken : ∀ i, i < liveLen cfg content.length →
              0 ≤ liveBlockIdx cfg s (s.inode_table inum) i ∧
              s.free_blocks
                (liveBlockIdx cfg s (s.inode_table inum) i).toNat
                = AllocState.TAKEN := by
            intro i hi
            rw [hllL, hnbk0] at hi
            unfold liveBlockIdx
            by_cases h1 : i < cfg.maxFileBlocks
            · rw [if_pos h1]
              have h4 := hInv.direct_valid hLpos i h1
              exact ⟨h4.1, h4.2.2⟩
            · by_cases h2 : i = cfg.maxFileBlocks
              · rw [if_neg h1, if_pos h2, hibn, Int.toNat_natCast]
                exact ⟨Int.ofNat_nonneg ibn, hvT⟩
              · rw [if_neg h1, if_neg h2, hibn, Int.toNat_natCast, hf]
                simp only [intVal]
                obtain ⟨w0, wK, wT⟩ := hslotv (i - cfg.maxFileBlocks - 1)
                  (by omega)
                exact ⟨w0, wT⟩
          have hnodup2 : ∀ i2, i2 < liveLen cfg (content.length + data.length) →
              ∀ i1, i1 < i2 →
                liveBlockIdx cfg s2 (s2.inode_table inum) i1
                  ≠ liveBlockIdx cfg s2 (s2.inode_table inum) i2 := by
            intro i2 h2 i1 h1
            rw [hllL', hnb'] at h2
            by_cases hi2old : i2 < cfg.maxFileBlocks + 1 + (content.length
                - cfg.maxFileBlocks * cfg.blockSize) / cfg.blockSize
            · have ho1 : i1 < liveLen cfg content.length := by
                rw [hllL, hnbk0]
                omega
              have ho2 : i2 < liveLen cfg content.length := by
                rw [hllL, hnbk0]
                omega
              rw [hlbiS i1 ho1, hlbiS i2 ho2]
              exact hInv.nodup hLpos i2 ho2 i1 h1
            · have hi2new : i2 = cfg.maxFileBlocks + 1 + (content.length
                  - cfg.maxFileBlocks * cfg.blockSize) / cfg.blockSize := by
                omega
              rw [hi2new, hlbiNew]
              have ho1 : i1 < liveLen cfg content.length := by
                rw [hllL, hnbk0]
                omega
              rw [hlbiS i1 ho1]
              intro hEq
              obtain ⟨w0, wT⟩ := hlive_taken i1 ho1
              rw [hEq, Int.toNat_natCast, hb2F] at wT
              cases wT
          have htarget2 : physBlock cfg s2 (s2.inode_table inum)
              (content.length / cfg.blockSize) = ((b2 : ℕ) : ℤ) := by
            unfold physBlock
            rw [hkdef, if_neg (by omega), h2ib', hibn, Int.toNat_natCast,
              h2fd_ib]
            simp only [intVal]
            rw [show cfg.maxFileBlocks + (content.length
                - cfg.maxFileBlocks * cfg.blockSize) / cfg.blockSize
                - cfg.maxFileBlocks
                = (content.length - cfg.maxFileBlocks * cfg.blockSize)
                  / cfg.blockSize from by omega, Function.update_same]
          have hphys_pos_eq : ∀ b, b < numBlocks cfg content.length →
              physBlock cfg s2 (s2.inode_table inum) b
                = physBlock cfg s (s.inode_table inum) b := by
            intro b hb
            rw [hnbLsum, hnbk0] at hb
            unfold physBlock
            by_cases h1 : b < cfg.maxFileBlocks
            · rw [if_pos h1, if_pos h1, h2slots]
            · rw [if_neg h1, if_neg h1, h2ib', hibn, Int.toNat_natCast,
                h2fd_ib, hf]
              simp only [intVal]
              rw [Function.update_noteq (by omega)]
          have hphys_ne_ib : ∀ b, b < numBlocks cfg content.length →
              physBlock cfg s (s.inode_table inum) b
                ≠ (s.inode_table inum).i_indir_block := by
            intro b hb
            rw [physBlock_eq_liveBlockIdx]
            have hbpos := livePos_lt_liveLen cfg content.length b hb
            have hDlt : cfg.maxFileBlocks < liveLen cfg content.length := by
              rw [hllL]
              omega
            have hibIdx : liveBlockIdx cfg s (s.inode_table inum)
                cfg.maxFileBlocks = (s.inode_table inum).i_indir_block := by
              unfold liveBlockIdx
              rw [if_neg (by omega), if_pos rfl]
            rw [← hibIdx]
            have hposne : livePos cfg b ≠ cfg.maxFileBlocks := by
              unfold livePos
              split_ifs <;> omega
            rcases Nat.lt_or_ge (livePos cfg b) cfg.maxFileBlocks with hlt | hge
            · exact fun h => hInv.nodup hLpos _ hDlt _ hlt h
            · exact fun h => hInv.nodup hLpos _ hbpos _ (by omega) h.symm
          have hphys_nonneg : ∀ b, b < numBlocks cfg content.length →
              0 ≤ physBlock cfg s (s.inode_table inum) b := by
            intro b hb
            rw [hnbLsum, hnbk0] at hb
            unfold physBlock
            by_cases h1 : b < cfg.maxFileBlocks
            · rw [if_pos h1]
              exact (hInv.direct_valid hLpos b h1).1
            · rw [if_neg h1, hibn, Int.toNat_natCast, hf]
              simp only [intVal]
              exact (hslotv (b - cfg.maxFileBlocks) (by omega)).1
          have hold2 : ∀ b, b < numBlocks cfg content.length →
              isBytesView (s2.fs_data
                (physBlock cfg s2 (s2.inode_table inum) b).toNat) = true ∧
              ∀ off, off < min cfg.blockSize
                  (content.length - b * cfg.blockSize) →
                byteVal (s2.fs_data
                  (physBlock cfg s2 (s2.inode_table inum) b).toNat) off
                  = content.getD (b * cfg.blockSize + off) 0 := by
            intro b hb
            have hco := hInv.content_ok b hb
            have hxne : (physBlock cfg s (s.inode_table inum) b).toNat
                ≠ ibn := by
              have h4 := hphys_ne_ib b hb
              rw [hibn] at h4
              have h0 := hphys_nonneg b hb
              intro hEq
              apply h4
              omega
            rw [hphys_pos_eq b hb, h2fd_ne _ hxne]
            exact hco
          obtain ⟨s', hc, hFI, hWH', hofne, hofr, hinone, hfb', hfi', hfo',
            hfdne⟩ :=
            writeCommit_generic cfg s s2 ((b2 : ℕ) : ℤ)
              fh inum content data scraps hne hfit hcap heq
              (Int.ofNat_nonneg b2) (by exact_mod_cast hb2K) hInv.inum_lt
              (by rw [h2fi]; exact hInv.taken) h2ty h2size
              hdirv2 hcb2 (fun hle => absurd hle (by omega)) (fun _ => hind2)
              hnodup2 htarget2 hold2
              hWH.fh_lt (by rw [h2fo]; exact hWH.taken)
              (by rw [h2of]; exact hWH.inum_eq) (by rw [h2of]; exact hWH.woff_eq)
          refine ⟨s', ?_, hFI, hWH', ?_, ?_, ?_, ?_, ?_, ?_⟩
          · unfold writeCore
            rw [hphase]
            exact hc
          · intro g hg
            rw [hofne g hg, h2of]
          · rw [hofr, h2of]
          · intro m hm
            rw [hinone m hm, h2ino m hm]
          · rw [hfi', h2fi]
          · rw [hfo', h2fo]
          · have hc1 : freeBlockCount cfg s' = freeBlockCount cfg s2 :=
              freeBlockCount_congr cfg s2 s' (fun b _ => hfb' b)
            have hc2 : freeBlockCount cfg s2 = freeBlockCount cfg
                { s with free_blocks :=
                    Function.update s.free_blocks b2 AllocState.TAKEN } :=
              freeBlockCount_congr cfg _ s2 (fun b _ => h2fb b)
            have ha1 : allocatedFor cfg (content ++ data).length
                = cfg.maxFileBlocks + (1 + ((content.length
                  - cfg.maxFileBlocks * cfg.blockSize) / cfg.blockSize + 1)) := by
              rw [List.length_append]
              unfold allocatedFor
              rw [if_neg (by omega), if_neg (by omega), hnb']
            rw [hc1, hc2, ha1, ha2]
            omega
        · -- the current slot is partially filled: it receives the bytes
          have hnbk : numBlocks cfg (content.length
              - cfg.maxFileBlocks * cfg.blockSize)
              = (content.length - cfg.maxFileBlocks * cfg.blockSize)
                / cfg.blockSize + 1 := by
            have h8 := numBlocks_eq cfg ((content.length
                - cfg.maxFileBlocks * cfg.blockSize) / cfg.blockSize)
              ((content.length - cfg.maxFileBlocks * cfg.blockSize)
                % cfg.blockSize) (Nat.mod_lt _ hBS)
            rw [Nat.div_add_mod] at h8
            rw [h8, if_neg (by omega)]
          obtain ⟨w0k, wKk, wTk⟩ := hslotv ((content.length
            - cfg.maxFileBlocks * cfg.blockSize) / cfg.blockSize) (by omega)
          have hslotk_ne : f ((content.length
              - cfg.maxFileBlocks * cfg.blockSize) / cfg.blockSize) ≠ -1 := by
            omega
          have hres := writeResolveBlock_indir_existing cfg s inum data.length
            (content.length % cfg.blockSize) scraps ibn
            ((content.length - cfg.maxFileBlocks * cfg.blockSize)
              / cfg.blockSize) f hcbD hibn hibnK hciLk hkM hf hslotk_ne
          obtain ⟨s2, hs2⟩ : ∃ t,
              (if 0 < scraps ∨ data.length + content.length % cfg.blockSize
                  = cfg.blockSize then
                updInode s inum fun i =>
                  { i with i_curr_indir := i.i_curr_indir + 1 }
              else s) = t := ⟨_, rfl⟩
          rw [hs2] at hres
          have hpick : ∀ (F : FSState → Prop),
              F (updInode s inum fun i =>
                { i with i_curr_indir := i.i_curr_indir + 1 }) → F s → F s2 := by
            intro F h1 h2
            rw [← hs2]
            split_ifs
            exacts [h1, h2]
          have h2slots : ∀ j, (s2.inode_table inum).i_data_blocks j
              = (s.inode_table inum).i_data_blocks j :=
            hpick (fun t => ∀ j, (t.inode_table inum).i_data_blocks j
                = (s.inode_table inum).i_data_blocks j)
              (fun j => by rw [updInode_inode_table_same]) (fun j => rfl)
          have h2size : (s2.inode_table inum).i_size = content.length :=
            hpick (fun t => (t.inode_table inum).i_size = content.length)
              (by beta_reduce
                  rw [updInode_inode_table_same]
                  exact hInv.size_eq)
              hInv.size_eq
          have h2ty : (s2.inode_table inum).i_node_type = InodeType.T_FILE :=
            hpick (fun t => (t.inode_table inum).i_node_type = InodeType.T_FILE)
              (by beta_reduce
                  rw [updInode_inode_table_same]
                  exact hInv.isFile)
              hInv.isFile
          have h2cb : (s2.inode_table inum).i_curr_block
              = (s.inode_table inum).i_curr_block :=
            hpick (fun t => (t.inode_table inum).i_curr_block
                = (s.inode_table inum).i_curr_block)
              (by beta_reduce; rw [updInode_inode_table_same]) rfl
          have h2ib' : (s2.inode_table inum).i_indir_block
              = (s.inode_table inum).i_indir_block :=
            hpick (fun t => (t.inode_table inum).i_indir_block
                = (s.inode_table inum).i_indir_block)
              (by beta_reduce; rw [updInode_inode_table_same]) rfl
          have h2fb : ∀ b, s2.free_blocks b = s.free_blocks b :=
            hpick (fun t => ∀ b, t.free_blocks b = s.free_blocks b)
              (fun b => rfl) (fun b => rfl)
          have h2fd : ∀ b, s2.fs_data b = s.fs_data b :=
            hpick (fun t => ∀ b, t.fs_data b = s.fs_data b)
              (fun b => rfl) (fun b => rfl)
          have h2fi : s2.freeinode_ts = s.freeinode_ts :=
            hpick (fun t => t.freeinode_ts = s.freeinode_ts) rfl rfl
          have h2fo : s2.free_open_file_entries = s.free_open_file_entries :=
            hpick (fun t => t.free_open_file_entries
              = s.free_open_file_entries) rfl rfl
          have h2of : s2.open_file_table = s.open_file_table :=
            hpick (fun t => t.open_file_table = s.open_file_table) rfl rfl
          have h2ino : ∀ m, m ≠ inum → s2.inode_table m = s.inode_table m :=
            fun m hm =>
              hpick (fun t => t.inode_table m = s.inode_table m)
                (by beta_reduce; rw [updInode_inode_table_noteq _ _ _ _ hm]) rfl
          have hdirv2 : ∀ i, i < cfg.maxFileBlocks →
              0 ≤ (s2.inode_table inum).i_data_blocks i ∧
              (s2.inode_table inum).i_data_blocks i < (cfg.dataBlocks : ℤ) ∧
              s2.free_blocks ((s2.inode_table inum).i_data_blocks i).toNat
                = AllocState.TAKEN := by
            intro i hi
            obtain ⟨v1, v2, v3⟩ := hInv.direct_valid hLpos i hi
            exact ⟨by rw [h2slots i]; exact v1, by rw [h2slots i]; exact v2,
              by rw [h2slots i, h2fb]; exact v3⟩
          have hcb2 : (s2.inode_table inum).i_curr_block =
              ((min ((content.length + data.length) / cfg.blockSize)
                cfg.maxFileBlocks : ℕ) : ℤ) := by
            rw [h2cb, hcbD, Nat.min_eq_right hdge]
          have hind2 : 0 ≤ (s2.inode_table inum).i_indir_block ∧
              (s2.inode_table inum).i_indir_block < (cfg.dataBlocks : ℤ) ∧
              s2.free_blocks (s2.inode_table inum).i_indir_block.toNat
                = AllocState.TAKEN ∧
              isIntsView (s2.fs_data
                (s2.inode_table inum).i_indir_block.toNat) = true ∧
              (s2.inode_table inum).i_curr_indir =
                (((content.length + data.length
                  - cfg.maxFileBlocks * cfg.blockSize) / cfg.blockSize : ℕ) : ℤ) ∧
              (∀ j, j < numBlocks cfg (content.length + data.length
                    - cfg.maxFileBlocks * cfg.blockSize) →
                0 ≤ intVal (s2.fs_data
                  (s2.inode_table inum).i_indir_block.toNat) j ∧
                intVal (s2.fs_data
                  (s2.inode_table inum).i_indir_block.toNat) j
                  < (cfg.dataBlocks : ℤ) ∧
                s2.free_blocks (intVal (s2.fs_data
                  (s2.inode_table inum).i_indir_block.toNat) j).toNat
                  = AllocState.TAKEN) ∧
              (∀ j, numBlocks cfg (content.length + data.length
                    - cfg.maxFileBlocks * cfg.blockSize) ≤ j →
                j < cfg.indirBlockSize →
                intVal (s2.fs_data
                  (s2.inode_table inum).i_indir_block.toNat) j = -1) := by
            refine ⟨by rw [h2ib', hibn]; exact Int.ofNat_nonneg ibn,
              by rw [h2ib', hibn]; exact_mod_cast hibnK, ?_, ?_, ?_, ?_, ?_⟩
            · rw [h2ib', hibn, Int.toNat_natCast, h2fb]
              exact hvT
            · rw [h2ib', hibn, Int.toNat_natCast, h2fd, hf]
              rfl
            · rw [hdq']
              by_cases h3 : content.length % cfg.blockSize + data.length
                  = cfg.blockSize
              · have he : s2 = updInode s inum fun i =>
                    { i with i_curr_indir := i.i_curr_indir + 1 } := by
                  rw [← hs2, if_pos (hbump_iff.mpr h3)]
                rw [he, updInode_inode_table_same]
                show (s.inode_table inum).i_curr_indir + 1 = _
                rw [hciLk, if_pos h3]
                omega
              · have he : s2 = s := by
                  rw [← hs2, if_neg (fun hh => h3 (hbump_iff.mp hh))]
                rw [he, hciLk, if_neg h3]
                omega
            · intro j hj
              rw [hnb'] at hj
              rw [h2ib', hibn, Int.toNat_natCast, h2fd, hf]
              simp only [intVal]
              obtain ⟨w0, wK, wT⟩ := hslotv j (by omega)
              exact ⟨w0, wK, by rw [h2fb]; exact wT⟩
            · intro j hj1 hj2
              rw [hnb'] at hj1
              rw [h2ib', hibn, Int.toNat_natCast, h2fd, hf]
              simp only [intVal]
              exact hslote j (by omega) hj2
          have hlbiS : ∀ i, liveBlockIdx cfg s2 (s2.inode_table inum) i
              = liveBlockIdx cfg s (s.inode_table inum) i := by
            intro i
            unfold liveBlockIdx
            by_cases h1 : i < cfg.maxFileBlocks
            · rw [if_pos h1, if_pos h1, h2slots]
            · by_cases h2 : i = cfg.maxFileBlocks
              · rw [if_neg h1, if_neg h1, if_pos h2, if_pos h2, h2ib']
              · rw [if_neg h1, if_neg h1, if_neg h2, if_neg h2, h2ib', h2fd]
          have hnodup2 : ∀ i2, i2 < liveLen cfg (content.length + data.length) →
              ∀ i1, i1 < i2 →
                liveBlockIdx cfg s2 (s2.inode_table inum) i1
                  ≠ liveBlockIdx cfg s2 (s2.inode_table inum) i2 := by
            intro i2 h2 i1 h1
            have hllEq : liveLen cfg (content.length + data.length)
                = liveLen cfg content.length := by
              rw [hllL', hllL, hnb', hnbk]
            rw [hllEq] at h2
            rw [hlbiS, hlbiS]
            exact hInv.nodup hLpos i2 h2 i1 h1
          have htarget2 : physBlock cfg s2 (s2.inode_table inum)
              (content.length / cfg.blockSize)
              = f ((content.length - cfg.maxFileBlocks * cfg.blockSize)
                  / cfg.blockSize) := by
            unfold physBlock
            rw [hkdef, if_neg (by omega), h2ib', hibn, Int.toNat_natCast,
              h2fd, hf]
            show f (cfg.maxFileBlocks + (content.length
              - cfg.maxFileBlocks * cfg.blockSize) / cfg.blockSize
              - cfg.maxFileBlocks) = _
            congr 1
            omega
          have hphys_eq : ∀ b, physBlock cfg s2 (s2.inode_table inum) b
              = physBlock cfg s (s.inode_table inum) b := by
            intro b
            unfold physBlock
            by_cases h1 : b < cfg.maxFileBlocks
            · rw [if_pos h1, if_pos h1, h2slots]
            · rw [if_neg h1, if_neg h1, h2ib', h2fd]
          have hold2 : ∀ b, b < numBlocks cfg content.length →
              isBytesView (s2.fs_data
                (physBlock cfg s2 (s2.inode_table inum) b).toNat) = true ∧
              ∀ off, off < min cfg.blockSize
                  (content.length - b * cfg.blockSize) →
                byteVal (s2.fs_data
                  (physBlock cfg s2 (s2.inode_table inum) b).toNat) off
                  = content.getD (b * cfg.blockSize + off) 0 := by
            intro b hb
            rw [hphys_eq, h2fd]
            exact hInv.content_ok b hb
          obtain ⟨s', hc, hFI, hWH', hofne, hofr, hinone, hfb', hfi', hfo',
            hfdne⟩ :=
            writeCommit_generic cfg s s2
              (f ((content.length - cfg.maxFileBlocks * cfg.blockSize)
                / cfg.blockSize))
              fh inum content data scraps hne hfit hcap hres w0k wKk
              hInv.inum_lt (by rw [h2fi]; exact hInv.taken) h2ty h2size
              hdirv2 hcb2 (fun hle => absurd hle (by omega)) (fun _ => hind2)
              hnodup2 htarget2 hold2
              hWH.fh_lt (by rw [h2fo]; exact hWH.taken)
              (by rw [h2of]; exact hWH.inum_eq) (by rw [h2of]; exact hWH.woff_eq)
          refine ⟨s', ?_, hFI, hWH', ?_, ?_, ?_, ?_, ?_, ?_⟩
          · unfold writeCore
            rw [hphase]
            exact hc
          · intro g hg
            rw [hofne g hg, h2of]
          · rw [hofr, h2of]
          · intro m hm
            rw [hinone m hm, h2ino m hm]
          · rw [hfi', h2fi]
          · rw [hfo', h2fo]
          · have hc1 : freeBlockCount cfg s' = freeBlockCount cfg s2 :=
              freeBlockCount_congr cfg s2 s' (fun b _ => hfb' b)
            have hc2 : freeBlockCount cfg s2 = freeBlockCount cfg s :=
              freeBlockCount_congr cfg s s2 (fun b _ => h2fb b)
            have ha1 : allocatedFor cfg (content ++ data).length
                = cfg.maxFileBlocks + (1 + ((content.length
                  - cfg.maxFileBlocks * cfg.blockSize) / cfg.blockSize + 1)) := by
              rw [List.length_append]
              unfold allocatedFor
              rw [if_neg (by omega), if_neg (by omega), hnb']
            have ha2 : allocatedFor cfg content.length
                = cfg.maxFileBlocks + (1 + ((content.length
                  - cfg.maxFileBlocks * cfg.blockSize) / cfg.blockSize + 1)) := by
              unfold allocatedFor
              rw [if_neg (by omega), if_neg (by omega), hnbk]
            rw [hc1, hc2, ha1, ha2]
      · -- the file sits exactly at the direct capacity: lazy initialisation
        have hLeq : content.length = cfg.maxFileBlocks * cfg.blockSize := by
          omega
        have hno := hInv.no_indir hLpos hgeL
        have hr0 : content.length % cfg.blockSize = 0 := by
          rw [hLeq]
          exact Nat.mul_mod_left _ _
        have hallocL : allocatedFor cfg content.length = cfg.maxFileBlocks := by
          unfold allocatedFor
          rw [if_neg (by omega), if_pos hgeL]
          omega
        have hfree2 : 2 ≤ freeBlockCount cfg s := by omega
        obtain ⟨a, b2, s2, heq, haK, hbK, hab, haF, hbF, h2ib, h2ci, h2cb, h2sz,
          h2ty, h2slots, h2oth, h2fda, h2fdo, h2fbo, h2fba, h2fbb, h2fi, h2fo,
          h2of, h2cnt⟩ :=
          writeResolveBlock_indir_init cfg s inum data.length
            (content.length % cfg.blockSize) scraps hcbD hno.1 (by omega) hfree2
        have hTak : ∀ x, s.free_blocks x = AllocState.TAKEN →
            s2.free_blocks x = AllocState.TAKEN := by
          intro x hx
          by_cases hxa : x = a
          · rw [hxa]
            exact h2fba
          · by_cases hxb : x = b2
            · rw [hxb]
              exact h2fbb
            · rw [h2fbo x hxa hxb]
              exact hx
        have hsTAK : ∀ i, i < cfg.maxFileBlocks →
            s.free_blocks ((s.inode_table inum).i_data_blocks i).toNat
              = AllocState.TAKEN :=
          fun i hi => (hInv.direct_valid hLpos i hi).2.2
        have hslot_ne : ∀ i, i < cfg.maxFileBlocks → ∀ (x : ℕ),
            s.free_blocks x = AllocState.FREE →
            (s.inode_table inum).i_data_blocks i ≠ (x : ℤ) := by
          intro i hi x hx hEq
          have h3 := hsTAK i hi
          rw [hEq, Int.toNat_natCast, hx] at h3
          cases h3
        have hsub : content.length + data.length
            - cfg.maxFileBlocks * cfg.blockSize = data.length := by
          omega
        have hnb1 : numBlocks cfg (content.length + data.length
            - cfg.maxFileBlocks * cfg.blockSize) = 1 := by
          rw [hsub]
          by_cases h3 : data.length = cfg.blockSize
          · rw [h3, show cfg.blockSize = cfg.blockSize * 1 + 0 from by ring,
              numBlocks_eq cfg 1 0 hBS, if_pos rfl]
          · have h4 := numBlocks_eq cfg 0 data.length (by omega)
            rw [Nat.mul_zero, Nat.zero_add] at h4
            rw [h4, if_neg (by omega)]
        have hdge : cfg.maxFileBlocks
            ≤ (content.length + data.length) / cfg.blockSize := by
          rw [div_split cfg _ (by omega)]
          exact Nat.le_add_right _ _
        have hcb2 : (s2.inode_table inum).i_curr_block =
            ((min ((content.length + data.length) / cfg.blockSize)
              cfg.maxFileBlocks : ℕ) : ℤ) := by
          rw [h2cb, hcbD, Nat.min_eq_right hdge]
        have hdirv2 : ∀ i, i < cfg.maxFileBlocks →
            0 ≤ (s2.inode_table inum).i_data_blocks i ∧
            (s2.inode_table inum).i_data_blocks i < (cfg.dataBlocks : ℤ) ∧
            s2.free_blocks ((s2.inode_table inum).i_data_blocks i).toNat
              = AllocState.TAKEN := by
          intro i hi
          obtain ⟨v1, v2, v3⟩ := hInv.direct_valid hLpos i hi
          exact ⟨by rw [h2slots i]; exact v1, by rw [h2slots i]; exact v2,
            by rw [h2slots i]; exact hTak _ v3⟩
        have hind2 : 0 ≤ (s2.inode_table inum).i_indir_block ∧
            (s2.inode_table inum).i_indir_block < (cfg.dataBlocks : ℤ) ∧
            s2.free_blocks (s2.inode_table inum).i_indir_block.toNat
              = AllocState.TAKEN ∧
            isIntsView (s2.fs_data
              (s2.inode_table inum).i_indir_block.toNat) = true ∧
            (s2.inode_table inum).i_curr_indir =
              (((content.length + data.length
                - cfg.maxFileBlocks * cfg.blockSize) / cfg.blockSize : ℕ) : ℤ) ∧
            (∀ j, j < numBlocks cfg (content.length + data.length
                  - cfg.maxFileBlocks * cfg.blockSize) →
              0 ≤ intVal (s2.fs_data
                (s2.inode_table inum).i_indir_block.toNat) j ∧
              intVal (s2.fs_data
                (s2.inode_table inum).i_indir_block.toNat) j
                < (cfg.dataBlocks : ℤ) ∧
              s2.free_blocks (intVal (s2.fs_data
                (s2.inode_table inum).i_indir_block.toNat) j).toNat
                = AllocState.TAKEN) ∧
            (∀ j, numBlocks cfg (content.length + data.length
                  - cfg.maxFileBlocks * cfg.blockSize) ≤ j →
              j < cfg.indirBlockSize →
              intVal (s2.fs_data
                (s2.inode_table inum).i_indir_block.toNat) j = -1) := by
          have hdq : (content.length + data.length
              - cfg.maxFileBlocks * cfg.blockSize) / cfg.blockSize
              = if data.length = cfg.blockSize then 1 else 0 := by
            rw [hsub]
            by_cases h3 : data.length = cfg.blockSize
            · rw [if_pos h3, h3]
              exact Nat.div_self hBS
            · rw [if_neg h3]
              exact Nat.div_eq_of_lt (by omega)
          refine ⟨by rw [h2ib]; exact Int.ofNat_nonneg a,
            by rw [h2ib]; exact_mod_cast haK, ?_, ?_, ?_, ?_, ?_⟩
          · rw [h2ib, Int.toNat_natCast]
            exact h2fba
          · rw [h2ib, Int.toNat_natCast, h2fda]
            rfl
          · rw [h2ci, hdq]
            by_cases h3 : data.length = cfg.blockSize
            · rw [if_pos (hbump_iff.mpr (by omega)), if_pos h3]
              omega
            · rw [if_neg (fun hh => h3 (by have := hbump_iff.mp hh; omega)),
                if_neg h3]
              omega
          · intro j hj
            rw [hnb1] at hj
            have hj0 : j = 0 := by omega
            subst hj0
            rw [h2ib, Int.toNat_natCast, h2fda]
            refine ⟨?_, ?_, ?_⟩
            · show (0:ℤ) ≤ Function.update (fun _ => (-1:ℤ)) 0 (b2:ℤ) 0
              rw [Function.update_same]
              exact Int.ofNat_nonneg b2
            · show Function.update (fun _ => (-1:ℤ)) 0 (b2:ℤ) 0 < _
              rw [Function.update_same]
              exact_mod_cast hbK
            · show s2.free_blocks
                (Function.update (fun _ => (-1:ℤ)) 0 (b2:ℤ) 0).toNat = _
              rw [Function.update_same, Int.toNat_natCast]
              exact h2fbb
          · intro j hj1 hj2
            rw [hnb1] at hj1
            rw [h2ib, Int.toNat_natCast, h2fda]
            show Function.update (fun _ => (-1:ℤ)) 0 (b2:ℤ) j = -1
            rw [Function.update_noteq (by omega)]
        have hll2 : liveLen cfg (content.length + data.length)
            = cfg.maxFileBlocks + 2 := by
          unfold liveLen
          rw [if_pos (by omega), hnb1]
        have hllL : liveLen cfg content.length = cfg.maxFileBlocks := by
          unfold liveLen
          rw [if_neg (by omega)]
          omega
        have hlbi2 : ∀ i, i < cfg.maxFileBlocks →
            liveBlockIdx cfg s2 (s2.inode_table inum) i
              = (s.inode_table inum).i_data_blocks i := by
          intro i hi
          unfold liveBlockIdx
          rw [if_pos hi, h2slots i]
        have hlbiD : liveBlockIdx cfg s2 (s2.inode_table inum) cfg.maxFileBlocks
            = (a : ℤ) := by
          unfold liveBlockIdx
          rw [if_neg (by omega), if_pos rfl, h2ib]
        have hlbiD1 : liveBlockIdx cfg s2 (s2.inode_table inum)
            (cfg.maxFileBlocks + 1) = (b2 : ℤ) := by
          unfold liveBlockIdx
          rw [if_neg (by omega), if_neg (by omega), h2ib, Int.toNat_natCast,
            h2fda]
          show Function.update (fun _ => (-1:ℤ)) 0 (b2:ℤ)
            (cfg.maxFileBlocks + 1 - cfg.maxFileBlocks - 1) = _
          rw [show cfg.maxFileBlocks + 1 - cfg.maxFileBlocks - 1 = 0 from
            by omega, Function.update_same]
        have hnodup2 : ∀ i2, i2 < liveLen cfg (content.length + data.length) →
            ∀ i1, i1 < i2 →
              liveBlockIdx cfg s2 (s2.inode_table inum) i1
                ≠ liveBlockIdx cfg s2 (s2.inode_table inum) i2 := by
          intro i2 h2 i1 h1
          rw [hll2] at h2
          by_cases hi2D : i2 < cfg.maxFileBlocks
          · rw [hlbi2 i1 (by omega), hlbi2 i2 hi2D]
            have h3 := hInv.nodup hLpos i2 (by omega) i1 h1
            rw [show liveBlockIdx cfg s (s.inode_table inum) i1
                  = (s.inode_table inum).i_data_blocks i1 from
                by unfold liveBlockIdx; rw [if_pos (by omega)],
              show liveBlockIdx cfg s (s.inode_table inum) i2
                  = (s.inode_table inum).i_data_blocks i2 from
                by unfold liveBlockIdx; rw [if_pos hi2D]] at h3
            exact h3
          · by_cases hi2De : i2 = cfg.maxFileBlocks
            · rw [hi2De, hlbiD, hlbi2 i1 (by omega)]
              exact hslot_ne i1 (by omega) a haF
            · have hi2E : i2 = cfg.maxFileBlocks + 1 := by omega
              rw [hi2E, hlbiD1]
              by_cases hi1D : i1 < cfg.maxFileBlocks
              · rw [hlbi2 i1 hi1D]
                exact hslot_ne i1 hi1D b2 hbF
              · have hi1E : i1 = cfg.maxFileBlocks := by omega
                rw [hi1E, hlbiD]
                exact fun h => hab (by exact_mod_cast h)
        have hqeq : content.length / cfg.blockSize = cfg.maxFileBlocks := by
          rw [hLeq, Nat.mul_comm]
          have h7 := (div_mul_add cfg cfg.maxFileBlocks 0 hBS).1
          rw [Nat.add_zero] at h7
          exact h7
        have htarget2 : physBlock cfg s2 (s2.inode_table inum)
            (content.length / cfg.blockSize) = (b2 : ℤ) := by
          unfold physBlock
          rw [hqeq, if_neg (by omega), h2ib, Int.toNat_natCast, h2fda]
          show Function.update (fun _ => (-1:ℤ)) 0 (b2:ℤ)
            (cfg.maxFileBlocks - cfg.maxFileBlocks) = _
          rw [show cfg.maxFileBlocks - cfg.maxFileBlocks = 0 from by omega,
            Function.update_same]
        have hnbL : numBlocks cfg content.length = cfg.maxFileBlocks := by
          have h6 := numBlocks_split cfg cfg.maxFileBlocks 0
          rw [Nat.add_zero, numBlocks_zero] at h6
          rw [hLeq]
          omega
        have hold2 : ∀ b, b < numBlocks cfg content.length →
            isBytesView (s2.fs_data
              (physBlock cfg s2 (s2.inode_table inum) b).toNat) = true ∧
            ∀ off, off < min cfg.blockSize (content.length - b * cfg.blockSize) →
              byteVal (s2.fs_data
                (physBlock cfg s2 (s2.inode_table inum) b).toNat) off
                = content.getD (b * cfg.blockSize + off) 0 := by
          intro b hb
          have hbD : b < cfg.maxFileBlocks := by
            rw [hnbL] at hb
            exact hb
          have hphys_eq : physBlock cfg s2 (s2.inode_table inum) b
              = (s.inode_table inum).i_data_blocks b := by
            unfold physBlock
            rw [if_pos hbD, h2slots b]
          have hphys_s : physBlock cfg s (s.inode_table inum) b
              = (s.inode_table inum).i_data_blocks b := by
            unfold physBlock
            rw [if_pos hbD]
          have hxa : ((s.inode_table inum).i_data_blocks b).toNat ≠ a := by
            intro hEq
            have h3 := hsTAK b hbD
            rw [hEq, haF] at h3
            cases h3
          obtain ⟨w1, w2⟩ := hInv.content_ok b hb
          rw [hphys_s] at w1 w2
          rw [hphys_eq, h2fdo _ hxa]
          exact ⟨w1, w2⟩
        obtain ⟨s', hc, hFI, hWH', hofne, hofr, hinone, hfb', hfi', hfo',
          hfdne⟩ :=
          writeCommit_generic cfg s s2 ((b2 : ℕ) : ℤ)
            fh inum content data scraps hne hfit hcap heq
            (Int.ofNat_nonneg b2) (by exact_mod_cast hbK) hInv.inum_lt
            (by rw [h2fi]; exact hInv.taken)
            (by rw [h2ty]; exact hInv.isFile)
            (by rw [h2sz]; exact hInv.size_eq)
            hdirv2 hcb2 (fun hle => absurd hle (by omega)) (fun _ => hind2)
            hnodup2 htarget2 hold2
            hWH.fh_lt (by rw [h2fo]; exact hWH.taken)
            (by rw [h2of]; exact hWH.inum_eq) (by rw [h2of]; exact hWH.woff_eq)
        refine ⟨s', ?_, hFI, hWH', ?_, ?_, ?_, ?_, ?_, ?_⟩
        · unfold writeCore
          rw [hphase]
          exact hc
        · intro g hg
          rw [hofne g hg, h2of]
        · rw [hofr, h2of]
        · intro m hm
          rw [hinone m hm, h2oth m hm]
        · rw [hfi', h2fi]
        · rw [hfo', h2fo]
        · have hc1 : freeBlockCount cfg s' = freeBlockCount cfg s2 :=
            freeBlockCount_congr cfg s2 s' (fun b _ => hfb' b)
          have ha1 : allocatedFor cfg (content ++ data).length
              = cfg.maxFileBlocks + 2 := by
            rw [List.length_append]
            unfold allocatedFor
            rw [if_neg (by omega), if_neg (by omega), hnb1]
          rw [hc1, ha1, hallocL]
          omega

/-- The full `tfs_write` recursion (fuel-indexed): on a sequentially
appended file with enough capacity and enough free blocks, a write of
`buffer` returns `buffer.length` and appends exactly `buffer`. -/
theorem tfsWriteFuel_spec (cfg : Config) (fh inum : ℕ)
    (hD : 1 ≤ cfg.maxFileBlocks) (hM : 2 ≤ cfg.indirBlockSize) :
    ∀ (fuel : ℕ) (s : FSState) (content buffer : List ℕ),
    buffer.length < fuel →
    FileInv cfg s inum content →
    WriteHandleInv cfg s fh inum content.length →
    content.length + buffer.length
      ≤ (cfg.maxFileBlocks + cfg.indirBlockSize) * cfg.blockSize →
    cfg.maxFileBlocks + cfg.indirBlockSize + 1
      ≤ freeBlockCount cfg s + allocatedFor cfg content.length →
    ∃ s', tfsWriteFuel cfg fuel s (fh : ℤ) buffer
        = some (s', (buffer.length : ℤ)) ∧
      FileInv cfg s' inum (content ++ buffer) ∧
      WriteHandleInv cfg s' fh inum (content ++ buffer).length ∧
      (∀ g, g ≠ fh → s'.open_file_table g = s.open_file_table g) ∧
      (s'.open_file_table fh).of_read_offset
        = (s.open_file_table fh).of_read_offset ∧
      (∀ m, m ≠ inum → s'.inode_table m = s.inode_table m) ∧
      s'.freeinode_ts = s.freeinode_ts ∧
      s'.free_open_file_entries = s.free_open_file_entries ∧
      freeBlockCount cfg s' + allocatedFor cfg (content ++ buffer).length
        = freeBlockCount cfg s + allocatedFor cfg content.length := by
  intro fuel
  induction fuel with
  | zero =>
      intro s content buffer hfuel
      exact absurd hfuel (by omega)
  | succ fuel ih =>
      intro s content buffer hfuel hInv hWH hcap hacc
      have hBS := cfg.blockSize_pos
      have hrlt : content.length % cfg.blockSize < cfg.blockSize :=
        Nat.mod_lt _ hBS
      have hqr2 : content.length / cfg.blockSize * cfg.blockSize
          + content.length % cfg.blockSize = content.length := by
        rw [Nat.mul_comm]
        exact Nat.div_add_mod _ _
      have hvfh : valid_file_handle cfg (fh : ℤ) :=
        ⟨Int.ofNat_nonneg fh, by exact_mod_cast hWH.fh_lt⟩
      have hvin : valid_inumber cfg ((inum : ℕ) : ℤ) :=
        ⟨Int.ofNat_nonneg inum, by exact_mod_cast hInv.inum_lt⟩
      by_cases hbe : buffer = []
      · subst hbe
        refine ⟨s, ?_, by rw [List.append_nil]; exact hInv,
          by rw [List.append_nil]; exact hWH, fun g _ => rfl, rfl,
          fun m _ => rfl, rfl, rfl, by rw [List.append_nil]⟩
        rw [tfsWriteFuel, if_pos hvfh]
        simp only [Int.toNat_natCast]
        rw [hWH.inum_eq]
        rw [if_pos hvin]
        simp only [Int.toNat_natCast]
        rw [hWH.woff_eq]
        have hsp : writeSplit cfg ([] : List ℕ).length
            (content.length % cfg.blockSize)
            (s.inode_table inum).i_curr_indir = (0, 0) := by
          unfold writeSplit
          rw [if_neg (by simp only [List.length_nil]; omega)]
          rfl
        rw [hsp, if_pos (show ((0:ℕ), (0:ℕ)).1 = 0 from rfl)]
        rfl
      · have hbl : 0 < buffer.length := List.length_pos.mpr hbe
        by_cases hover : buffer.length + content.length % cfg.blockSize
            > cfg.blockSize
        · -- the request is split: a full-block step, then the remainder
          have hciM : (s.inode_table inum).i_curr_indir
              < (cfg.indirBlockSize : ℤ) - 1 := by
            rcases Nat.lt_or_ge (cfg.maxFileBlocks * cfg.blockSize)
              content.length with hgt | hge
            · obtain ⟨-, -, -, -, hci, -, -⟩ := hInv.indir_valid hgt
              rw [hci]
              have h9 := Nat.div_add_mod
                (content.length - cfg.maxFileBlocks * cfg.blockSize)
                cfg.blockSize
              have hrr : (content.length - cfg.maxFileBlocks * cfg.blockSize)
                  % cfg.blockSize = content.length % cfg.blockSize :=
                (mod_split cfg _ (by omega)).symm
              have hklt : (content.length - cfg.maxFileBlocks * cfg.blockSize)
                  / cfg.blockSize + 1 < cfg.indirBlockSize := by
                have h7 : (cfg.maxFileBlocks + cfg.indirBlockSize)
                    * cfg.blockSize
                    = cfg.maxFileBlocks * cfg.blockSize
                      + cfg.indirBlockSize * cfg.blockSize := by
                  ring
                have h8 : cfg.blockSize * ((content.length
                    - cfg.maxFileBlocks * cfg.blockSize) / cfg.blockSize)
                    + cfg.blockSize < cfg.indirBlockSize * cfg.blockSize := by
                  omega
                have h10 : cfg.blockSize * ((content.length
                    - cfg.maxFileBlocks * cfg.blockSize) / cfg.blockSize + 1)
                    < cfg.blockSize * cfg.indirBlockSize := by
                  rw [Nat.mul_add, Nat.mul_one, Nat.mul_comm cfg.blockSize
                    cfg.indirBlockSize]
                  omega
                have h11 := Nat.lt_of_mul_lt_mul_left h10
                omega
              omega
            · rcases Nat.eq_zero_or_pos content.length with hL0 | hLpos
              · have hfr := hInv.fresh hL0
                rw [hfr.2.2.1]
                omega
              · have hno := hInv.no_indir hLpos hge
                rw [hno.2]
                omega
          have hsp : writeSplit cfg buffer.length
              (content.length % cfg.blockSize)
              (s.inode_table inum).i_curr_indir
              = (cfg.blockSize - content.length % cfg.blockSize,
                 buffer.length
                   - (cfg.blockSize - content.length % cfg.blockSize)) := by
            unfold writeSplit
            rw [if_pos hover, if_pos hciM]
          have hlen : (buffer.take
              (cfg.blockSize - content.length % cfg.blockSize)).length
              = cfg.blockSize - content.length % cfg.blockSize := by
            rw [List.length_take]
            omega
          obtain ⟨s1, hcore, hInv1, hWH1, hof1, hor1, hino1, hfi1, hfo1,
            hcnt1⟩ :=
            writeCore_step cfg s fh inum content
              (buffer.take (cfg.blockSize - content.length % cfg.blockSize))
              (buffer.length
                - (cfg.blockSize - content.length % cfg.blockSize))
              hD hM hInv hWH
              (by intro h; rw [h] at hlen; simp at hlen; omega)
              (by rw [hlen]; omega)
              (fun _ => by rw [hlen]; omega)
              (by rw [hlen]; omega)
              hacc
          rw [hlen] at hcore
          have hlc1 : (content ++ buffer.take
              (cfg.blockSize - content.length % cfg.blockSize)).length
              = content.length
                + (cfg.blockSize - content.length % cfg.blockSize) := by
            rw [List.length_append, hlen]
          obtain ⟨s2, hrec, hInv2, hWH2, hof2, hor2, hino2, hfi2, hfo2,
            hcnt2⟩ :=
            ih s1
              (content ++ buffer.take
                (cfg.blockSize - content.length % cfg.blockSize))
              (buffer.drop (cfg.blockSize - content.length % cfg.blockSize))
              (by rw [List.length_drop]; omega)
              hInv1 hWH1
              (by rw [hlc1, List.length_drop]; omega)
              (by omega)
          have hsplit_buf : (content ++ buffer.take
              (cfg.blockSize - content.length % cfg.blockSize))
              ++ buffer.drop (cfg.blockSize - content.length % cfg.blockSize)
              = content ++ buffer := by
            rw [List.append_assoc, List.take_append_drop]
          rw [hsplit_buf] at hInv2 hWH2 hcnt2
          refine ⟨s2, ?_, hInv2, hWH2, ?_, ?_, ?_, ?_, ?_, ?_⟩
          · rw [tfsWriteFuel, if_pos hvfh]
            simp only [Int.toNat_natCast]
            rw [hWH.inum_eq]
            rw [if_pos hvin]
            simp only [Int.toNat_natCast]
            rw [hWH.woff_eq, hsp]
            simp only []
            rw [if_neg (by omega :
              ¬ (cfg.blockSize - content.length % cfg.blockSize = 0))]
            rw [hcore]
            simp only []
            rw [if_pos (by omega : buffer.length
              - (cfg.blockSize - content.length % cfg.blockSize) > 0)]
            rw [hrec]
            simp only []
            rw [show cfg.blockSize - content.length % cfg.blockSize
              + (buffer.length
                - (cfg.blockSize - content.length % cfg.blockSize))
              = buffer.length from by omega]
          · intro g hg
            rw [hof2 g hg, hof1 g hg]
          · rw [hor2, hor1]
          · intro m hm
            rw [hino2 m hm, hino1 m hm]
          · rw [hfi2, hfi1]
          · rw [hfo2, hfo1]
          · omega
        · -- the whole request fits into the current block
          have hsp : writeSplit cfg buffer.length
              (content.length % cfg.blockSize)
              (s.inode_table inum).i_curr_indir = (buffer.length, 0) := by
            unfold writeSplit
            rw [if_neg hover]
          obtain ⟨s1, hcore, hInv1, hWH1, hof1, hor1, hino1, hfi1, hfo1,
            hcnt1⟩ :=
            writeCore_step cfg s fh inum content buffer 0
              hD hM hInv hWH hbe (by omega) (fun h => absurd h (by omega))
              hcap hacc
          refine ⟨s1, ?_, hInv1, hWH1, hof1, hor1, hino1, hfi1, hfo1, hcnt1⟩
          rw [tfsWriteFuel, if_pos hvfh]
          simp only [Int.toNat_natCast]
          rw [hWH.inum_eq]
          rw [if_pos hvin]
          simp only [Int.toNat_natCast]
          rw [hWH.woff_eq, hsp]
          simp only []
          rw [if_neg (by omega : ¬ (buffer.length = 0)), List.take_length,
            hcore]
          simp only []
          rw [if_neg (by omega : ¬ ((0:ℕ) > 0)), Nat.add_zero]

/-- `tfs_write` on a sequentially appended file: the call returns the
full buffer length and appends exactly the buffer, leaving every other
inode, handle and table entry unchanged. -/
theorem tfs_write_spec (cfg : Config) (s : FSState) (fh inum : ℕ)
    (content buffer : List ℕ)
    (hD : 1 ≤ cfg.maxFileBlocks) (hM : 2 ≤ cfg.indirBlockSize)
    (hInv : FileInv cfg s inum content)
    (hWH : WriteHandleInv cfg s fh inum content.length)
    (hcap : content.length + buffer.length
      ≤ (cfg.maxFileBlocks + cfg.indirBlockSize) * cfg.blockSize)
    (hacc : cfg.maxFileBlocks + cfg.indirBlockSize + 1
      ≤ freeBlockCount cfg s + allocatedFor cfg content.length) :
    ∃ s', tfs_write cfg s (fh : ℤ) buffer = some (s', (buffer.length : ℤ)) ∧
      FileInv cfg s' inum (content ++ buffer) ∧
      WriteHandleInv cfg s' fh inum (content ++ buffer).length ∧
      (∀ g, g ≠ fh → s'.open_file_table g = s.open_file_table g) ∧
      (s'.open_file_table fh).of_read_offset
        = (s.open_file_table fh).of_read_offset ∧
      (∀ m, m ≠ inum → s'.inode_table m = s.inode_table m) ∧
      s'.freeinode_ts = s.freeinode_ts ∧
      s'.free_open_file_entries = s.free_open_file_entries ∧
      freeBlockCount cfg s' + allocatedFor cfg (content ++ buffer).length
        = freeBlockCount cfg s + allocatedFor cfg content.length :=
  tfsWriteFuel_spec cfg fh inum hD hM (buffer.length + 1) s content buffer
    (by omega) hInv hWH hcap hacc

/-! ### Reading back -/

theorem range_map_getD (content : List ℕ) (roff n : ℕ)
    (h : roff + n ≤ content.length) :
    ((List.range n).map fun j => content.getD (roff + j) 0)
      = (content.drop roff).take n := by
  apply List.ext_getElem
  · simp only [List.length_map, List.length_range, List.length_take,
      List.length_drop]
    omega
  · intro i h1 h2
    simp only [List.length_map, List.length_range] at h1
    rw [List.getElem_map, List.getElem_range, List.getElem_take,
      List.getElem_drop, List.getD_eq_getElem content 0 (by omega)]

/-- The single-block `memcpy` of `tfs_read`, on a block that holds bytes
`content.getD (q * BLOCK_SIZE + _) 0` of the file, returns exactly the
`n` bytes of `content` starting at `roff`. -/
theorem blockReadBytes_content (cfg : Config) (s : FSState) (b : ℕ)
    (content : List ℕ) (roff n : ℕ)
    (hview : isBytesView (s.fs_data b) = true)
    (hbytes : ∀ off, off < min cfg.blockSize
        (content.length - roff / cfg.blockSize * cfg.blockSize) →
      byteVal (s.fs_data b) off
        = content.getD (roff / cfg.blockSize * cfg.blockSize + off) 0)
    (hn : 0 < n) (hroffn : roff + n ≤ content.length)
    (hsingle : roff % cfg.blockSize + n ≤ cfg.blockSize) :
    blockReadBytes cfg s b (roff % cfg.blockSize) n
      = some ((content.drop roff).take n) := by
  have hqr : roff / cfg.blockSize * cfg.blockSize + roff % cfg.blockSize
      = roff := by
    rw [Nat.mul_comm]
    exact Nat.div_add_mod _ _
  obtain ⟨fb, hf⟩ : ∃ fb, s.fs_data b = BlockContent.bytes fb := by
    cases hv : s.fs_data b with
    | bytes g => exact ⟨g, rfl⟩
    | raw => rw [hv] at hview; exact Bool.noConfusion hview
    | ints g => rw [hv] at hview; exact Bool.noConfusion hview
    | dirents g => rw [hv] at hview; exact Bool.noConfusion hview
  unfold blockReadBytes
  rw [if_pos hsingle, hf]
  simp only []
  rw [show ((List.range n).map fun j => fb (roff % cfg.blockSize + j))
      = (List.range n).map fun j => content.getD (roff + j) 0 from ?_,
    range_map_getD content roff n hroffn]
  apply List.map_congr_left
  intro j hj
  rw [List.mem_range] at hj
  have h1 : byteVal (s.fs_data b) (roff % cfg.blockSize + j)
      = content.getD (roff / cfg.blockSize * cfg.blockSize
          + (roff % cfg.blockSize + j)) 0 :=
    hbytes (roff % cfg.blockSize + j) (by omega)
  rw [hf] at h1
  simp only [byteVal] at h1
  rw [h1]
  congr 1
  omega

/-- `tfs_read` on a sequentially appended file: the call copies out
exactly `min len (size - read_offset)` bytes of the content, advances the
read cursor by that amount and changes nothing else.  The hypothesis
`hsingle` is the spec's stated assumption that one read never has to
split across a block boundary. -/
theorem tfs_read_spec (cfg : Config) (s : FSState) (fh inum : ℕ)
    (content : List ℕ) (roff len : ℕ)
    (hInv : FileInv cfg s inum content)
    (hRH : ReadHandleInv cfg s fh inum roff)
    (hroff : roff ≤ content.length)
    (hsingle : roff % cfg.blockSize + min (content.length - roff) len
      ≤ cfg.blockSize) :
    ∃ s' out, tfs_read cfg s (fh : ℤ) len
        = some (s', out, ((min (content.length - roff) len : ℕ) : ℤ)) ∧
      out = (content.drop roff).take (min (content.length - roff) len) ∧
      ReadHandleInv cfg s' fh inum
        (roff + min (content.length - roff) len) ∧
      (∀ g, g ≠ fh → s'.open_file_table g = s.open_file_table g) ∧
      (s'.open_file_table fh).of_write_offset
        = (s.open_file_table fh).of_write_offset ∧
      (s'.open_file_table fh).of_inumber
        = (s.open_file_table fh).of_inumber ∧
      s'.inode_table = s.inode_table ∧
      s'.free_blocks = s.free_blocks ∧
      s'.fs_data = s.fs_data ∧
      s'.freeinode_ts = s.freeinode_ts ∧
      s'.free_open_file_entries = s.free_open_file_entries := by
  have hBS := cfg.blockSize_pos
  have hvfh : valid_file_handle cfg (fh : ℤ) :=
    ⟨Int.ofNat_nonneg fh, by exact_mod_cast hRH.fh_lt⟩
  have hvin : valid_inumber cfg ((inum : ℕ) : ℤ) :=
    ⟨Int.ofNat_nonneg inum, by exact_mod_cast hInv.inum_lt⟩
  have hsz : szSub (s.inode_table inum).i_size
      (s.open_file_table fh).of_read_offset = content.length - roff := by
    rw [hInv.size_eq, hRH.roff_eq]
    unfold szSub
    rw [if_pos hroff]
  have hqro : roff / cfg.blockSize * cfg.blockSize + roff % cfg.blockSize
      = roff := by
    rw [Nat.mul_comm]
    exact Nat.div_add_mod _ _
  unfold tfs_read
  rw [if_pos hvfh]
  simp only [Int.toNat_natCast]
  rw [hRH.inum_eq]
  rw [if_pos hvin]
  simp only [Int.toNat_natCast]
  rw [hsz, hRH.roff_eq]
  by_cases h0 : min (content.length - roff) len = 0
  · rw [if_pos h0]
    refine ⟨s, [], ?_, ?_, ?_, fun g _ => rfl, rfl, hRH.inum_eq, rfl, rfl,
      rfl, rfl, rfl⟩
    · rw [h0]
      rfl
    · rw [h0, List.take_zero]
    · rw [h0, Nat.add_zero]
      exact hRH
  · rw [if_neg h0]
    have hto : 0 < min (content.length - roff) len := by omega
    have hroffL : roff < content.length := by omega
    have hLpos : 0 < content.length := by omega
    have hq_lt : roff / cfg.blockSize < numBlocks cfg content.length := by
      have h1 := div_lt_numBlocks cfg roff (content.length - roff) (by omega)
      rw [show roff + (content.length - roff) = content.length from by omega]
        at h1
      exact h1
    have hroffn : roff + min (content.length - roff) len
        ≤ content.length := by
      omega
    obtain ⟨hview, hbytes⟩ := hInv.content_ok (roff / cfg.blockSize) hq_lt
    have hreadout := blockReadBytes_content cfg s
      (physBlock cfg s (s.inode_table inum) (roff / cfg.blockSize)).toNat
      content roff (min (content.length - roff) len) hview hbytes hto
      hroffn hsingle
    have hphysv : 0 ≤ physBlock cfg s (s.inode_table inum)
          (roff / cfg.blockSize) ∧
        physBlock cfg s (s.inode_table inum) (roff / cfg.blockSize)
          < (cfg.dataBlocks : ℤ) := by
      unfold physBlock
      by_cases h1 : roff / cfg.blockSize < cfg.maxFileBlocks
      · rw [if_pos h1]
        obtain ⟨v1, v2, -⟩ := hInv.direct_valid hLpos _ h1
        exact ⟨v1, v2⟩
      · rw [if_neg h1]
        have hgt : cfg.maxFileBlocks * cfg.blockSize < content.length := by
          have h5 := Nat.mul_le_mul_right cfg.blockSize
            (show cfg.maxFileBlocks ≤ roff / cfg.blockSize by omega)
          omega
        obtain ⟨-, -, -, -, -, hslots, -⟩ := hInv.indir_valid hgt
        have hsplit := numBlocks_sub_split cfg content.length (by omega)
        obtain ⟨w0, wK, -⟩ := hslots (roff / cfg.blockSize - cfg.maxFileBlocks)
          (by omega)
        exact ⟨w0, wK⟩
    by_cases hqD : roff / cfg.blockSize < cfg.maxFileBlocks
    · -- the read offset falls into a direct block
      rw [if_pos hqD]
      simp only []
      have hphys_eq : physBlock cfg s (s.inode_table inum)
          (roff / cfg.blockSize)
          = (s.inode_table inum).i_data_blocks (roff / cfg.blockSize) := by
        unfold physBlock
        rw [if_pos hqD]
      obtain ⟨v1, v2, -⟩ := hInv.direct_valid hLpos _ hqD
      rw [data_block_get_pos cfg _ v1 v2]
      simp only []
      rw [← hphys_eq, hreadout]
      have hRH2 : ReadHandleInv cfg (updOF s fh fun e =>
          { e with of_read_offset :=
              e.of_read_offset + min (content.length - roff) len }) fh inum
          (roff + min (content.length - roff) len) := by
        refine ⟨hRH.fh_lt, hRH.taken, ?_, ?_⟩
        · rw [updOF_open_file_table_same]
          show (s.open_file_table fh).of_inumber = _
          exact hRH.inum_eq
        · rw [updOF_open_file_table_same]
          show (s.open_file_table fh).of_read_offset
            + min (content.length - roff) len = _
          rw [hRH.roff_eq]
      refine ⟨_, _, rfl, rfl, hRH2,
        fun g hg => updOF_open_file_table_noteq _ _ _ _ hg,
        ?_, ?_, rfl, rfl, rfl, rfl, rfl⟩
      · rw [updOF_open_file_table_same]
      · rw [updOF_open_file_table_same]
        exact hRH.inum_eq
    · -- the read offset falls into an indirect slot
      rw [if_neg hqD]
      have hgt : cfg.maxFileBlocks * cfg.blockSize < content.length := by
        have h5 := Nat.mul_le_mul_right cfg.blockSize
          (show cfg.maxFileBlocks ≤ roff / cfg.blockSize by omega)
        omega
      obtain ⟨hv0, hvK, -, hview2, -, hslots, -⟩ := hInv.indir_valid hgt
      obtain ⟨ibn, hibn⟩ : ∃ ibn : ℕ,
          (s.inode_table inum).i_indir_block = (ibn : ℤ) :=
        ⟨(s.inode_table inum).i_indir_block.toNat,
          (Int.toNat_of_nonneg hv0).symm⟩
      have hibnK : ibn < cfg.dataBlocks := by
        rw [hibn] at hvK
        exact_mod_cast hvK
      rw [hibn, Int.toNat_natCast] at hview2 hslots
      obtain ⟨f, hf⟩ : ∃ f, s.fs_data ibn = BlockContent.ints f := by
        cases hv : s.fs_data ibn with
        | ints g => exact ⟨g, rfl⟩
        | raw => rw [hv] at hview2; exact Bool.noConfusion hview2
        | bytes g => rw [hv] at hview2; exact Bool.noConfusion hview2
        | dirents g => rw [hv] at hview2; exact Bool.noConfusion hview2
      have hsplit := numBlocks_sub_split cfg content.length (by omega)
      have hjM : roff / cfg.blockSize - cfg.maxFileBlocks
          < cfg.indirBlockSize := by
        have h6 := numBlocks_le cfg
          (content.length - cfg.maxFileBlocks * cfg.blockSize)
          cfg.indirBlockSize
          (by
            have h7 : (cfg.maxFileBlocks + cfg.indirBlockSize) * cfg.blockSize
                = cfg.maxFileBlocks * cfg.blockSize
                  + cfg.indirBlockSize * cfg.blockSize := by
              ring
            have h8 := hInv.cap
            omega)
        omega
      rw [hibn, data_block_get_pos cfg _ (Int.ofNat_nonneg ibn)
        (by exact_mod_cast hibnK), Int.toNat_natCast]
      simp only []
      rw [show ((roff / cfg.blockSize : ℕ) : ℤ) - (cfg.maxFileBlocks : ℤ)
          = ((roff / cfg.blockSize - cfg.maxFileBlocks : ℕ) : ℤ) from by omega]
      rw [blockGetInt_eq cfg s ibn _ f hjM hf]
      simp only []
      have hphys_eq : physBlock cfg s (s.inode_table inum)
          (roff / cfg.blockSize)
          = f (roff / cfg.blockSize - cfg.maxFileBlocks) := by
        unfold physBlock
        rw [if_neg hqD, hibn, Int.toNat_natCast, hf, intVal_ints]
      obtain ⟨w0, wK, -⟩ := hslots (roff / cfg.blockSize - cfg.maxFileBlocks)
        (by omega)
      rw [hf] at w0 wK
      simp only [intVal] at w0 wK
      rw [data_block_get_pos cfg _ w0 wK]
      simp only []
      rw [← hphys_eq, hreadout]
      have hRH2 : ReadHandleInv cfg (updOF s fh fun e =>
          { e with of_read_offset :=
              e.of_read_offset + min (content.length - roff) len }) fh inum
          (roff + min (content.length - roff) len) := by
        refine ⟨hRH.fh_lt, hRH.taken, ?_, ?_⟩
        · rw [updOF_open_file_table_same]
          show (s.open_file_table fh).of_inumber = _
          exact hRH.inum_eq
        · rw [updOF_open_file_table_same]
          show (s.open_file_table fh).of_read_offset
            + min (content.length - roff) len = _
          rw [hRH.roff_eq]
      refine ⟨_, _, rfl, rfl, hRH2,
        fun g hg => updOF_open_file_table_noteq _ _ _ _ hg,
        ?_, ?_, rfl, rfl, rfl, rfl, rfl⟩
      · rw [updOF_open_file_table_same]
      · rw [updOF_open_file_table_same]
        exact hRH.inum_eq

/-- C3: on the first `tfs_write` to a file whose size is 0 (the branch of
operations.c lines 240-255, embedded as `writeAllocPhase`), the call
allocates the file's entire direct capacity up front — all
`MAX_FILE_BLOCKS` slots receive distinct, previously free block indices in
one sweep, the free count drops by exactly `MAX_FILE_BLOCKS` — and the
direct-block cursor is set to 0. -/
theorem first_write_allocates_all_direct_blocks (cfg : Config) (s : FSState)
    (inum : ℕ)
    (h0 : (s.inode_table inum).i_size = 0)
    (hfree : cfg.maxFileBlocks ≤ freeBlockCount cfg s) :
    ∃ s', writeAllocPhase cfg s inum = Sum.inr s' ∧
      (∀ j, j < cfg.maxFileBlocks →
        0 ≤ (s'.inode_table inum).i_data_blocks j ∧
        (s'.inode_table inum).i_data_blocks j < (cfg.dataBlocks : ℤ) ∧
        s.free_blocks ((s'.inode_table inum).i_data_blocks j).toNat
          = AllocState.FREE ∧
        s'.free_blocks ((s'.inode_table inum).i_data_blocks j).toNat
          = AllocState.TAKEN) ∧
      (∀ j1 j2, j1 < j2 → j2 < cfg.maxFileBlocks →
        (s'.inode_table inum).i_data_blocks j1
          ≠ (s'.inode_table inum).i_data_blocks j2) ∧
      (s'.inode_table inum).i_curr_block = 0 ∧
      freeBlockCount cfg s' + cfg.maxFileBlocks = freeBlockCount cfg s := by
  obtain ⟨s', heq, hnew, hdist, -, -, hcb, -, -, -, -, -, -, -, -, hcnt⟩ :=
    writeAllocPhase_zero cfg s inum h0 hfree
  refine ⟨s', heq, ?_, hdist, hcb, hcnt⟩
  intro j hj
  obtain ⟨v1, v2, v3, v4⟩ := hnew j hj
  exact ⟨v1, v2, v4, v3⟩

/-- Witness for C3 at the small configuration: the freshly initialised
state with inode 0 of size 0. -/
theorem first_write_allocates_all_direct_blocks_witness :
    ((state_init wcfg).inode_table 0).i_size = 0 ∧
    wcfg.maxFileBlocks ≤ freeBlockCount wcfg (state_init wcfg) ∧
    (∃ s', writeAllocPhase wcfg (state_init wcfg) 0 = Sum.inr s' ∧
      (∀ j, j < wcfg.maxFileBlocks →
        0 ≤ (s'.inode_table 0).i_data_blocks j ∧
        (s'.inode_table 0).i_data_blocks j < (wcfg.dataBlocks : ℤ) ∧
        (state_init wcfg).free_blocks
          ((s'.inode_table 0).i_data_blocks j).toNat = AllocState.FREE ∧
        s'.free_blocks ((s'.inode_table 0).i_data_blocks j).toNat
          = AllocState.TAKEN) ∧
      (∀ j1 j2, j1 < j2 → j2 < wcfg.maxFileBlocks →
        (s'.inode_table 0).i_data_blocks j1
          ≠ (s'.inode_table 0).i_data_blocks j2) ∧
      (s'.inode_table 0).i_curr_block = 0 ∧
      freeBlockCount wcfg s' + wcfg.maxFileBlocks
        = freeBlockCount wcfg (state_init wcfg)) :=
  ⟨rfl, by decide,
    first_write_allocates_all_direct_blocks wcfg (state_init wcfg) 0 rfl
      (by decide)⟩

/-- C8: a `tfs_read` on a handle whose read offset is at most the file's
size returns exactly `min (size - read_offset) len` bytes, advances the
read cursor by exactly that amount and leaves the handle's inumber and
write offset, every other handle, and the open-file bitmap unchanged.
`hsingle` is the spec's §4.4 assumption that one call never has to split
its copy across a block boundary. -/
theorem tfs_read_count_and_cursor (cfg : Config) (s : FSState)
    (fh inum : ℕ) (content : List ℕ) (roff len : ℕ)
    (hInv : FileInv cfg s inum content)
    (hRH : ReadHandleInv cfg s fh inum roff)
    (hroff : roff ≤ content.length)
    (hsingle : roff % cfg.blockSize + min (content.length - roff) len
      ≤ cfg.blockSize) :
    ∃ s' out, tfs_read cfg s (fh : ℤ) len
        = some (s', out, ((min (content.length - roff) len : ℕ) : ℤ)) ∧
      out.length = min (content.length - roff) len ∧
      (s'.open_file_table fh).of_read_offset
        = roff + min (content.length - roff) len ∧
      (s'.open_file_table fh).of_write_offset
        = (s.open_file_table fh).of_write_offset ∧
      (s'.open_file_table fh).of_inumber
        = (s.open_file_table fh).of_inumber ∧
      (∀ g, g ≠ fh → s'.open_file_table g = s.open_file_table g) ∧
      s'.free_open_file_entries = s.free_open_file_entries := by
  obtain ⟨s', out, heq, hout, hRH', hofne, hw, hi, -, -, -, -, hfo⟩ :=
    tfs_read_spec cfg s fh inum content roff len hInv hRH hroff hsingle
  refine ⟨s', out, heq, ?_, hRH'.roff_eq, hw, hi, hofne, hfo⟩
  rw [hout, List.length_take, List.length_drop]
  omega

/-- The 14 bytes stored in `wSt14`. -/
def c14 : List ℕ := [1, 2, 3, 4, 5, 6, 7, 8, 9, 10, 11, 12, 13, 14]

/-- The file invariant holds for the concrete 14-byte state. -/
theorem wSt14_inv : FileInv wcfg wSt14 1 c14 :=
  ⟨by decide, by decide, by decide, by decide, by decide, by decide,
   by decide, by decide, by decide, by decide, by decide, by decide⟩

/-- Witness for C8: reading 3 bytes at offset 0 of the 14-byte file. -/
theorem tfs_read_count_and_cursor_witness :
    FileInv wcfg wSt14 1 c14 ∧
    ReadHandleInv wcfg wSt14 0 1 0 ∧
    0 ≤ c14.length ∧
    0 % wcfg.blockSize + min (c14.length - 0) 3 ≤ wcfg.blockSize ∧
    (∃ s' out, tfs_read wcfg wSt14 ((0 : ℕ) : ℤ) 3
        = some (s', out, ((min (c14.length - 0) 3 : ℕ) : ℤ)) ∧
      out.length = min (c14.length - 0) 3 ∧
      (s'.open_file_table 0).of_read_offset = 0 + min (c14.length - 0) 3 ∧
      (s'.open_file_table 0).of_write_offset
        = (wSt14.open_file_table 0).of_write_offset ∧
      (s'.open_file_table 0).of_inumber
        = (wSt14.open_file_table 0).of_inumber ∧
      (∀ g, g ≠ 0 → s'.open_file_table g = wSt14.open_file_table g) ∧
      s'.free_open_file_entries = wSt14.free_open_file_entries) :=
  ⟨wSt14_inv, ⟨by decide, by decide, by decide, by decide⟩, by decide,
    by decide,
    tfs_read_count_and_cursor wcfg wSt14 0 1 c14 0 3 wSt14_inv
      ⟨by decide, by decide, by decide, by decide⟩ (by decide) (by decide)⟩

/-! ### Sequences of writes followed by sequences of reads (C1) -/

/-- A sequence of `tfs_write` calls on one handle, as in the claim's
"sequence of tfs_write calls": stops on error, keeps the final state. -/
def writeAll (cfg : Config) : List (List ℕ) → FSState → ℤ → Option FSState
  | [], s, _ => some s
  | b :: bs, s, fh =>
      match tfs_write cfg s fh b with
      | none => none
      | some (s', _) => writeAll cfg bs s' fh

/-- `n` successive `tfs_read` calls of one block each on a handle,
concatenating the returned bytes, as in the claim's "sequence of tfs_read
calls ... read it back fully". -/
def readAllN (cfg : Config) : ℕ → FSState → ℤ → Option (FSState × List ℕ)
  | 0, s, _ => some (s, [])
  | n + 1, s, fh =>
      match tfs_read cfg s fh cfg.blockSize with
      | none => none
      | some (s', out, _) =>
          match readAllN cfg n s' fh with
          | none => none
          | some (s'', rest) => some (s'', out ++ rest)

/-- The file invariant only reads the inode, block, bitmap and data
tables. -/
theorem FileInv_congr (cfg : Config) (s s' : FSState) (inum : ℕ)
    (content : List ℕ)
    (h1 : s'.freeinode_ts = s.freeinode_ts)
    (h2 : s'.inode_table = s.inode_table)
    (h3 : s'.free_blocks = s.free_blocks)
    (h4 : s'.fs_data = s.fs_data)
    (hInv : FileInv cfg s inum content) : FileInv cfg s' inum content := by
  have hlbi : ∀ ino i, liveBlockIdx cfg s' ino i = liveBlockIdx cfg s ino i := by
    intro ino i
    unfold liveBlockIdx
    rw [h4]
  have hphys : ∀ ino b, physBlock cfg s' ino b = physBlock cfg s ino b := by
    intro ino b
    unfold physBlock
    rw [h4]
  refine ⟨hInv.inum_lt, ?_, ?_, ?_, hInv.cap, ?_, ?_, ?_, ?_, ?_, ?_, ?_⟩
  · rw [h1]
    exact hInv.taken
  · rw [h2]
    exact hInv.isFile
  · rw [h2]
    exact hInv.size_eq
  · rw [h2]
    exact hInv.fresh
  · rw [h2, h3]
    exact hInv.direct_valid
  · rw [h2]
    exact hInv.curr_block_eq
  · rw [h2]
    exact hInv.no_indir
  · rw [h2, h3, h4]
    exact hInv.indir_valid
  · intro hp i2 hi2 i1 hi1
    rw [h2, hlbi, hlbi]
    exact hInv.nodup hp i2 hi2 i1 hi1
  · intro b hb
    rw [h2, hphys, h4]
    exact hInv.content_ok b hb

/-- Peeling one block off `numBlocks`. -/
theorem numBlocks_sub_block (cfg : Config) (x : ℕ) (h : cfg.blockSize ≤ x) :
    numBlocks cfg x = 1 + numBlocks cfg (x - cfg.blockSize) := by
  have h1 := numBlocks_split cfg 1 (x - cfg.blockSize)
  rw [Nat.one_mul, show cfg.blockSize + (x - cfg.blockSize) = x from
    by omega] at h1
  exact h1

/-- `numBlocks` is positive on positive lengths. -/
theorem numBlocks_pos (cfg : Config) (x : ℕ) (h : 0 < x) :
    0 < numBlocks cfg x := by
  have hBS := cfg.blockSize_pos
  unfold numBlocks
  exact Nat.div_pos (by omega) hBS

/-- A sequence of `tfs_write` calls appends the concatenation of the
buffers and leaves the read cursor alone. -/
theorem writeAll_spec (cfg : Config) (fh inum : ℕ)
    (hD : 1 ≤ cfg.maxFileBlocks) (hM : 2 ≤ cfg.indirBlockSize) :
    ∀ (bufs : List (List ℕ)) (s : FSState) (content : List ℕ),
    FileInv cfg s inum content →
    WriteHandleInv cfg s fh inum content.length →
    ReadHandleInv cfg s fh inum 0 →
    content.length + bufs.flatten.length
      ≤ (cfg.maxFileBlocks + cfg.indirBlockSize) * cfg.blockSize →
    cfg.maxFileBlocks + cfg.indirBlockSize + 1
      ≤ freeBlockCount cfg s + allocatedFor cfg content.length →
    ∃ s', writeAll cfg bufs s (fh : ℤ) = some s' ∧
      FileInv cfg s' inum (content ++ bufs.flatten) ∧
      ReadHandleInv cfg s' fh inum 0 := by
  intro bufs
  induction bufs with
  | nil =>
      intro s content hInv hWH hRH hcap hacc
      exact ⟨s, rfl, by rw [List.flatten_nil, List.append_nil]; exact hInv,
        hRH⟩
  | cons b bs ih =>
      intro s content hInv hWH hRH hcap hacc
      rw [List.flatten_cons, List.length_append] at hcap
      obtain ⟨s1, heq, hInv1, hWH1, hofne1, hor1, hino1, hfi1, hfo1, hcnt1⟩ :=
        tfs_write_spec cfg s fh inum content b hD hM hInv hWH
          (by omega) hacc
      have hRH1 : ReadHandleInv cfg s1 fh inum 0 :=
        ⟨hRH.fh_lt, by rw [hfo1]; exact hRH.taken, hWH1.inum_eq,
          by rw [hor1]; exact hRH.roff_eq⟩
      obtain ⟨s', heq2, hInv2, hRH2⟩ := ih s1 (content ++ b) hInv1 hWH1 hRH1
        (by rw [List.length_append]; omega)
        (by omega)
      refine ⟨s', ?_, ?_, hRH2⟩
      · rw [writeAll, heq]
        exact heq2
      · rw [List.flatten_cons, ← List.append_assoc]
        exact hInv2

/-- Reading block-sized chunks from an aligned offset until the file is
exhausted returns exactly the remaining content. -/
theorem readAllN_spec (cfg : Config) (fh inum : ℕ) :
    ∀ (n : ℕ) (s : FSState) (content : List ℕ) (roff : ℕ),
    FileInv cfg s inum content →
    ReadHandleInv cfg s fh inum roff →
    roff ≤ content.length →
    (roff % cfg.blockSize = 0 ∨ roff = content.length) →
    numBlocks cfg (content.length - roff) ≤ n →
    ∃ s', readAllN cfg n s (fh : ℤ) = some (s', content.drop roff) := by
  intro n
  induction n with
  | zero =>
      intro s content roff hInv hRH hroff hal hn
      have h0 : content.length - roff = 0 := by
        by_contra hne
        have := numBlocks_pos cfg (content.length - roff) (by omega)
        omega
      refine ⟨s, ?_⟩
      rw [List.drop_eq_nil_of_le (by omega)]
      rfl
  | succ n ih =>
      intro s content roff hInv hRH hroff hal hn
      have hBS := cfg.blockSize_pos
      have hral : roff % cfg.blockSize = 0 ∨ roff = content.length := hal
      by_cases hend : content.length = roff
      · -- nothing left: the read returns 0 bytes and changes nothing
        have hsingle : roff % cfg.blockSize
            + min (content.length - roff) cfg.blockSize ≤ cfg.blockSize := by
          have := Nat.mod_lt roff hBS
          omega
        obtain ⟨s', out, heq, hout, hRH', -, -, -, hino, hfb, hfd, hfi, -⟩ :=
          tfs_read_spec cfg s fh inum content roff cfg.blockSize hInv hRH
            hroff hsingle
        have hm0 : min (content.length - roff) cfg.blockSize = 0 := by omega
        have hInv' : FileInv cfg s' inum content :=
          FileInv_congr cfg s s' inum content hfi hino hfb hfd hInv
        have hRH'' : ReadHandleInv cfg s' fh inum roff := by
          rw [hm0, Nat.add_zero] at hRH'
          exact hRH'
        obtain ⟨s'', hrec⟩ := ih s' content roff hInv' hRH'' hroff hal
          (by rw [show content.length - roff = 0 from by omega,
            numBlocks_zero]; exact Nat.zero_le _)
        refine ⟨s'', ?_⟩
        rw [readAllN, heq]
        simp only []
        rw [hrec]
        simp only []
        rw [hout, hm0, List.take_zero, List.nil_append]
      · -- a positive, block-aligned read
        have hroffL : roff < content.length := by omega
        have hal' : roff % cfg.blockSize = 0 := by
          rcases hral with h | h
          · exact h
          · omega
        have hsingle : roff % cfg.blockSize
            + min (content.length - roff) cfg.blockSize ≤ cfg.blockSize := by
          rw [hal']
          omega
        obtain ⟨s', out, heq, hout, hRH', -, -, -, hino, hfb, hfd, hfi, -⟩ :=
          tfs_read_spec cfg s fh inum content roff cfg.blockSize hInv hRH
            (by omega) hsingle
        have hInv' : FileInv cfg s' inum content :=
          FileInv_congr cfg s s' inum content hfi hino hfb hfd hInv
        have hmpos : 0 < min (content.length - roff) cfg.blockSize := by
          omega
        have hal2 : (roff + min (content.length - roff) cfg.blockSize)
            % cfg.blockSize = 0
            ∨ roff + min (content.length - roff) cfg.blockSize
              = content.length := by
          rcases Nat.lt_or_ge (content.length - roff) cfg.blockSize
            with hlt | hge
          · right
            omega
          · left
            rw [Nat.min_eq_right hge, Nat.add_mod, hal', Nat.mod_self,
              Nat.add_zero, Nat.zero_mod]
        have hnb : numBlocks cfg (content.length
            - (roff + min (content.length - roff) cfg.blockSize)) ≤ n := by
          rcases Nat.lt_or_ge (content.length - roff) cfg.blockSize
            with hlt | hge
          · rw [show content.length
                - (roff + min (content.length - roff) cfg.blockSize) = 0 from
              by omega, numBlocks_zero]
            omega
          · rw [Nat.min_eq_right hge]
            have h1 := numBlocks_sub_block cfg (content.length - roff) hge
            rw [show content.length - (roff + cfg.blockSize)
              = content.length - roff - cfg.blockSize from by omega]
            omega
        obtain ⟨s'', hrec⟩ := ih s' content
          (roff + min (content.length - roff) cfg.blockSize) hInv' hRH'
          (by omega) hal2 hnb
        refine ⟨s'', ?_⟩
        rw [readAllN, heq]
        simp only []
        rw [hrec]
        simp only []
        rw [hout, show content.drop
            (roff + min (content.length - roff) cfg.blockSize)
            = (content.drop roff).drop
                (min (content.length - roff) cfg.blockSize) from ?_,
          List.take_append_drop]
        rw [List.drop_drop, Nat.add_comm]

/-- C1: for every sequence of `tfs_write` calls on a handle of an empty
file followed by block-sized `tfs_read` calls on the same handle (whose
read offset is untouched by the writes), the bytes read back are exactly
the concatenation of all written buffers, in order — including when the
content spans several blocks and the indirect region. -/
theorem write_read_roundtrip (cfg : Config) (s : FSState) (fh inum : ℕ)
    (bufs : List (List ℕ))
    (hD : 1 ≤ cfg.maxFileBlocks) (hM : 2 ≤ cfg.indirBlockSize)
    (hInv : FileInv cfg s inum [])
    (hWH : WriteHandleInv cfg s fh inum 0)
    (hRH : ReadHandleInv cfg s fh inum 0)
    (hcap : bufs.flatten.length
      ≤ (cfg.maxFileBlocks + cfg.indirBlockSize) * cfg.blockSize)
    (hfree : cfg.maxFileBlocks + cfg.indirBlockSize + 1
      ≤ freeBlockCount cfg s) :
    ∃ s1 s2, writeAll cfg bufs s (fh : ℤ) = some s1 ∧
      readAllN cfg (numBlocks cfg bufs.flatten.length) s1 (fh : ℤ)
        = some (s2, bufs.flatten) := by
  have hall0 : allocatedFor cfg ([] : List ℕ).length = 0 := rfl
  obtain ⟨s1, hw, hInv1, hRH1⟩ := writeAll_spec cfg fh inum hD hM bufs s []
    hInv hWH hRH (by simpa using hcap) (by rw [hall0]; omega)
  rw [List.nil_append] at hInv1
  obtain ⟨s2, hr⟩ := readAllN_spec cfg fh inum
    (numBlocks cfg bufs.flatten.length) s1 bufs.flatten 0 hInv1 hRH1
    (Nat.zero_le _) (Or.inl (Nat.zero_mod _)) (by rw [Nat.sub_zero])
  rw [List.drop_zero] at hr
  exact ⟨s1, s2, hw, hr⟩

/-- The concrete empty-file state: root directory at inode 0 (block 0),
the empty file "f" at inode 1, one open handle 0 on it with both offsets
0. -/
def wEmpty : FSState where
  freeinode_ts := fun i => if i < 2 then AllocState.TAKEN else AllocState.FREE
  inode_table := fun i =>
    if i = 0 then rootInode
    else if i = 1 then freshFileInode
    else zeroInode
  free_blocks := fun b => if b = 0 then AllocState.TAKEN else AllocState.FREE
  fs_data := fun b =>
    if b = 0 then BlockContent.dirents rootDirents else BlockContent.raw
  free_open_file_entries := fun h =>
    if h = 0 then AllocState.TAKEN else AllocState.FREE
  open_file_table := fun h => if h = 0 then ⟨1, 0, 0⟩ else zeroOF

/-- The file invariant of the empty file. -/
theorem wEmpty_inv : FileInv wcfg wEmpty 1 [] :=
  ⟨by decide, by decide, by decide, by decide, by decide, by decide,
   by decide, by decide, by decide, by decide, by decide, by decide⟩

/-- Witness for C1: writing `[7, 8, 9, 10, 11]` then `[12]` (6 bytes,
crossing a block boundary on the 4-byte-block configuration) and reading
everything back yields `[7, 8, 9, 10, 11, 12]`. -/
theorem write_read_roundtrip_witness :
    FileInv wcfg wEmpty 1 [] ∧
    WriteHandleInv wcfg wEmpty 0 1 0 ∧
    ReadHandleInv wcfg wEmpty 0 1 0 ∧
    ([[7, 8, 9, 10, 11], [12]] : List (List ℕ)).flatten.length
      ≤ (wcfg.maxFileBlocks + wcfg.indirBlockSize) * wcfg.blockSize ∧
    wcfg.maxFileBlocks + wcfg.indirBlockSize + 1
      ≤ freeBlockCount wcfg wEmpty ∧
    (∃ s1 s2, writeAll wcfg [[7, 8, 9, 10, 11], [12]] wEmpty ((0 : ℕ) : ℤ)
        = some s1 ∧
      readAllN wcfg
        (numBlocks wcfg ([[7, 8, 9, 10, 11], [12]] : List (List ℕ)).flatten.length)
        s1 ((0 : ℕ) : ℤ)
        = some (s2, ([[7, 8, 9, 10, 11], [12]] : List (List ℕ)).flatten)) :=
  ⟨wEmpty_inv, ⟨by decide, by decide, by decide, by decide⟩,
    ⟨by decide, by decide, by decide, by decide⟩, by decide, by decide,
    write_read_roundtrip wcfg wEmpty 0 1 [[7, 8, 9, 10, 11], [12]]
      (by decide) (by decide) wEmpty_inv
      ⟨by decide, by decide, by decide, by decide⟩
      ⟨by decide, by decide, by decide, by decide⟩ (by decide) (by decide)⟩

/-! ### Truncation on open (C5) -/

/-- Setting a bitmap slot to `FREE` keeps every already-`FREE` slot
`FREE`. -/
theorem update_free_mono (g : ℕ → AllocState) (x y : ℕ)
    (h : g y = AllocState.FREE) :
    Function.update g x AllocState.FREE y = AllocState.FREE := by
  by_cases hxy : y = x
  · rw [hxy, Function.update_same]
  · rw [Function.update_noteq hxy]
    exact h

/-- The direct-block loop of `free_inode_blocks` on valid slots: it frees
exactly the scanned slots and touches nothing else. -/
theorem freeDirectLoop_spec (cfg : Config) (blocks : ℕ → ℤ) :
    ∀ (k i : ℕ) (s : FSState),
    (∀ t, i ≤ t → t < i + k →
      0 ≤ blocks t ∧ blocks t < (cfg.dataBlocks : ℤ)) →
    ∃ s', freeDirectLoop cfg blocks i k s = (s', true) ∧
      (∀ t, i ≤ t → t < i + k →
        s'.free_blocks (blocks t).toNat = AllocState.FREE) ∧
      (∀ b, (∀ t, i ≤ t → t < i + k → (blocks t).toNat ≠ b) →
        s'.free_blocks b = s.free_blocks b) ∧
      (∀ b, s.free_blocks b = AllocState.FREE →
        s'.free_blocks b = AllocState.FREE) ∧
      s'.freeinode_ts = s.freeinode_ts ∧
      s'.inode_table = s.inode_table ∧
      s'.fs_data = s.fs_data ∧
      s'.free_open_file_entries = s.free_open_file_entries ∧
      s'.open_file_table = s.open_file_table := by
  intro k
  induction k with
  | zero =>
      intro i s hv
      exact ⟨s, rfl, fun t ht1 ht2 => absurd ht2 (by omega),
        fun b _ => rfl, fun b hb => hb, rfl, rfl, rfl, rfl, rfl⟩
  | succ k ih =>
      intro i s hv
      have hvi := hv i (le_refl i) (by omega)
      have hdbf : data_block_free cfg s (blocks i)
          = ({ s with
                free_blocks :=
                  Function.update s.free_blocks (blocks i).toNat
                    AllocState.FREE }, 0) := by
        unfold data_block_free
        rw [if_pos ⟨hvi.1, hvi.2⟩]
      obtain ⟨s', heq, hfreed, hframe, hmono, h1, h2, h3, h4, h5⟩ :=
        ih (i + 1)
          { s with
              free_blocks :=
                Function.update s.free_blocks (blocks i).toNat
                  AllocState.FREE }
          (fun t ht1 ht2 => hv t (by omega) (by omega))
      refine ⟨s', ?_, ?_, ?_, ?_, h1, h2, h3, h4, h5⟩
      · rw [freeDirectLoop, hdbf]
        simp only []
        rw [if_neg (by decide : ¬ ((0 : ℤ) = -1))]
        exact heq
      · intro t ht1 ht2
        rcases Nat.eq_or_lt_of_le ht1 with rfl | hlt
        · apply hmono
          show Function.update s.free_blocks (blocks i).toNat AllocState.FREE
              (blocks i).toNat = AllocState.FREE
          rw [Function.update_same]
        · exact hfreed t hlt (by omega)
      · intro b hb
        rw [hframe b (fun t ht1 ht2 => hb t (by omega) (by omega))]
        exact Function.update_noteq (Ne.symm (hb i (le_refl i) (by omega))) _ _
      · intro b hb
        apply hmono
        show Function.update s.free_blocks (blocks i).toNat AllocState.FREE b
            = AllocState.FREE
        exact update_free_mono s.free_blocks (blocks i).toNat b hb

/-- The indirect-slot loop of `free_inode_blocks` on valid slots whose
values are read through the `int` view of block `b`: it frees exactly the
scanned slots and touches nothing else. -/
theorem freeIndirLoop_spec (cfg : Config) (b : ℕ) (f : ℕ → ℤ) :
    ∀ (k j : ℕ) (s : FSState),
    s.fs_data b = BlockContent.ints f →
    j + k ≤ cfg.indirBlockSize →
    (∀ t, j ≤ t → t < j + k → 0 ≤ f t ∧ f t < (cfg.dataBlocks : ℤ)) →
    ∃ s', freeIndirLoop cfg b j k s = some (s', true) ∧
      (∀ t, j ≤ t → t < j + k →
        s'.free_blocks (f t).toNat = AllocState.FREE) ∧
      (∀ x, (∀ t, j ≤ t → t < j + k → (f t).toNat ≠ x) →
        s'.free_blocks x = s.free_blocks x) ∧
      (∀ x, s.free_blocks x = AllocState.FREE →
        s'.free_blocks x = AllocState.FREE) ∧
      s'.freeinode_ts = s.freeinode_ts ∧
      s'.inode_table = s.inode_table ∧
      s'.fs_data = s.fs_data ∧
      s'.free_open_file_entries = s.free_open_file_entries ∧
      s'.open_file_table = s.open_file_table := by
  intro k
  induction k with
  | zero =>
      intro j s hdata hjk hv
      exact ⟨s, rfl, fun t ht1 ht2 => absurd ht2 (by omega),
        fun x _ => rfl, fun x hx => hx, rfl, rfl, rfl, rfl, rfl⟩
  | succ k ih =>
      intro j s hdata hjk hv
      have hvj := hv j (le_refl j) (by omega)
      have hget : blockGetInt cfg s b ((j : ℕ) : ℤ) = some (f j) := by
        unfold blockGetInt
        rw [if_pos (⟨by omega, by omega⟩ : 0 ≤ ((j : ℕ) : ℤ) ∧
          ((j : ℕ) : ℤ) < (cfg.indirBlockSize : ℤ)), hdata]
        simp only []
        rw [Int.toNat_natCast]
      have hdbf : data_block_free cfg s (f j)
          = ({ s with
                free_blocks :=
                  Function.update s.free_blocks (f j).toNat
                    AllocState.FREE }, 0) := by
        unfold data_block_free
        rw [if_pos ⟨hvj.1, hvj.2⟩]
      obtain ⟨s', heq, hfreed, hframe, hmono, h1, h2, h3, h4, h5⟩ :=
        ih (j + 1)
          { s with
              free_blocks :=
                Function.update s.free_blocks (f j).toNat
                  AllocState.FREE }
          hdata (by omega) (fun t ht1 ht2 => hv t (by omega) (by omega))
      refine ⟨s', ?_, ?_, ?_, ?_, h1, h2, h3, h4, h5⟩
      · rw [freeIndirLoop, hget]
        simp only []
        rw [hdbf]
        simp only []
        rw [if_neg (by decide : ¬ ((0 : ℤ) = -1))]
        exact heq
      · intro t ht1 ht2
        rcases Nat.eq_or_lt_of_le ht1 with rfl | hlt
        · apply hmono
          show Function.update s.free_blocks (f j).toNat AllocState.FREE
              (f j).toNat = AllocState.FREE
          rw [Function.update_same]
        · exact hfreed t hlt (by omega)
      · intro x hx
        rw [hframe x (fun t ht1 ht2 => hx t (by omega) (by omega))]
        exact Function.update_noteq (Ne.symm (hx j (le_refl j) (by omega))) _ _
      · intro x hx
        apply hmono
        show Function.update s.free_blocks (f j).toNat AllocState.FREE x
            = AllocState.FREE
        exact update_free_mono s.free_blocks (f j).toNat x hx

/-- A first-fit scan over a range holding a satisfying index succeeds. -/
theorem firstIdx_isSome_of_exists (p : ℕ → Bool) :
    ∀ (k i : ℕ), (∃ m, i ≤ m ∧ m < i + k ∧ p m = true) →
      ∃ j, firstIdx p i k = some j ∧ j < i + k ∧ p j = true := by
  intro k
  induction k with
  | zero =>
      intro i hm
      obtain ⟨m, h1, h2, _⟩ := hm
      exact absurd h2 (by omega)
  | succ k ih =>
      intro i hm
      by_cases hp : p i
      · exact ⟨i, by rw [firstIdx, if_pos hp], by omega, hp⟩
      · obtain ⟨m, h1, h2, h3⟩ := hm
        have hmi : i + 1 ≤ m := by
          rcases Nat.eq_or_lt_of_le h1 with rfl | h
          · exact absurd h3 hp
          · omega
        obtain ⟨j, hj1, hj2, hj3⟩ := ih (i + 1) ⟨m, hmi, by omega, h3⟩
        exact ⟨j, by rw [firstIdx, if_neg hp]; exact hj1, by omega, hj3⟩

/-- C5 — corrected.  `tfs_open` with `TFS_O_TRUNC` on an existing file of
positive size succeeds, resets the size to 0 with both offsets of the new
handle at 0, and releases the direct blocks, every fully written indirect
slot below the indirect cursor and the indirect block itself — but when the
tail of the file past the direct region does not end on a block boundary,
the block held by the partially filled current indirect slot is NOT
released: it stays `TAKEN` in the bitmap while no longer reachable, a
block leak, contradicting the claim that every owned block is released. -/
theorem tfs_open_trunc_releases_blocks (cfg : Config) (s : FSState)
    (inum : ℕ) (name : String) (content : List ℕ)
    (hInv : FileInv cfg s inum content)
    (hpos : 0 < content.length)
    (hpath : valid_pathname name)
    (hlook : tfs_lookup cfg s name = some ((inum : ℕ) : ℤ))
    (hslot : ∃ g, g < cfg.maxOpenFiles ∧
      s.free_open_file_entries g = AllocState.FREE) :
    ∃ s' h, tfs_open cfg s name TFS_O_TRUNC = some (s', ((h : ℕ) : ℤ)) ∧
      h < cfg.maxOpenFiles ∧
      s'.open_file_table h = ⟨((inum : ℕ) : ℤ), 0, 0⟩ ∧
      (s'.inode_table inum).i_size = 0 ∧
      (∀ i, i < cfg.maxFileBlocks →
        s'.free_blocks ((s.inode_table inum).i_data_blocks i).toNat
          = AllocState.FREE) ∧
      (cfg.maxFileBlocks * cfg.blockSize < content.length →
        s'.free_blocks (s.inode_table inum).i_indir_block.toNat
          = AllocState.FREE ∧
        (∀ j, j < (content.length - cfg.maxFileBlocks * cfg.blockSize)
            / cfg.blockSize →
          s'.free_blocks (intVal
            (s.fs_data (s.inode_table inum).i_indir_block.toNat) j).toNat
            = AllocState.FREE) ∧
        ((content.length - cfg.maxFileBlocks * cfg.blockSize)
            % cfg.blockSize ≠ 0 →
          s'.free_blocks (intVal
            (s.fs_data (s.inode_table inum).i_indir_block.toNat)
            ((content.length - cfg.maxFileBlocks * cfg.blockSize)
              / cfg.blockSize)).toNat = AllocState.TAKEN)) := by
  have hBS := cfg.blockSize_pos
  have hvin : valid_inumber cfg ((inum : ℕ) : ℤ) :=
    ⟨by omega, by exact_mod_cast hInv.inum_lt⟩
  have hdv := hInv.direct_valid hpos
  obtain ⟨sA, heqA, hfreedA, hframeA, hmonoA, hA1, hA2, hA3, hA4, hA5⟩ :=
    freeDirectLoop_spec cfg (s.inode_table inum).i_data_blocks
      cfg.maxFileBlocks 0 s
      (fun t _ ht2 => ⟨(hdv t (by omega)).1, (hdv t (by omega)).2.1⟩)
  have hmain : ∃ sC, free_inode_blocks cfg s ((inum : ℕ) : ℤ)
      = some (sC, 0) ∧
      (∀ i, i < cfg.maxFileBlocks →
        sC.free_blocks ((s.inode_table inum).i_data_blocks i).toNat
          = AllocState.FREE) ∧
      (cfg.maxFileBlocks * cfg.blockSize < content.length →
        sC.free_blocks (s.inode_table inum).i_indir_block.toNat
          = AllocState.FREE ∧
        (∀ j, j < (content.length - cfg.maxFileBlocks * cfg.blockSize)
            / cfg.blockSize →
          sC.free_blocks (intVal
            (s.fs_data (s.inode_table inum).i_indir_block.toNat) j).toNat
            = AllocState.FREE) ∧
        ((content.length - cfg.maxFileBlocks * cfg.blockSize)
            % cfg.blockSize ≠ 0 →
          sC.free_blocks (intVal
            (s.fs_data (s.inode_table inum).i_indir_block.toNat)
            ((content.length - cfg.maxFileBlocks * cfg.blockSize)
              / cfg.blockSize)).toNat = AllocState.TAKEN)) ∧
      sC.inode_table = s.inode_table ∧
      sC.free_open_file_entries = s.free_open_file_entries ∧
      sC.open_file_table = s.open_file_table := by
    by_cases hgt : cfg.maxFileBlocks * cfg.blockSize < content.length
    · obtain ⟨hib0, hibK, hibT, hibV, hci, hslots, hdead⟩ :=
        hInv.indir_valid hgt
      obtain ⟨f, hf⟩ : ∃ f, s.fs_data
          (s.inode_table inum).i_indir_block.toNat
          = BlockContent.ints f := by
        cases hfd : s.fs_data (s.inode_table inum).i_indir_block.toNat with
        | raw => rw [hfd] at hibV; exact Bool.noConfusion hibV
        | bytes g => rw [hfd] at hibV; exact Bool.noConfusion hibV
        | ints g => exact ⟨g, rfl⟩
        | dirents g => rw [hfd] at hibV; exact Bool.noConfusion hibV
      set q := (content.length - cfg.maxFileBlocks * cfg.blockSize)
        / cfg.blockSize with hqdef
      clear_value q
      have hqM : q ≤ cfg.indirBlockSize := by
        have h1 : content.length - cfg.maxFileBlocks * cfg.blockSize
            ≤ cfg.indirBlockSize * cfg.blockSize := by
          have h2 := hInv.cap
          rw [Nat.add_mul] at h2
          omega
        have h2 := div_le_numBlocks cfg
          (content.length - cfg.maxFileBlocks * cfg.blockSize)
        have h3 := numBlocks_le cfg
          (content.length - cfg.maxFileBlocks * cfg.blockSize)
          cfg.indirBlockSize h1
        omega
      have hslotsf : ∀ t, t < numBlocks cfg
          (content.length - cfg.maxFileBlocks * cfg.blockSize) →
          0 ≤ f t ∧ f t < (cfg.dataBlocks : ℤ) ∧
          s.free_blocks (f t).toNat = AllocState.TAKEN := by
        intro t ht
        have h1 := hslots t ht
        rw [hf, intVal_ints] at h1
        exact h1
      have hqnb : q ≤ numBlocks cfg
          (content.length - cfg.maxFileBlocks * cfg.blockSize) := by
        have h1 := div_le_numBlocks cfg
          (content.length - cfg.maxFileBlocks * cfg.blockSize)
        omega
      obtain ⟨sB, heqB, hfreedB, hframeB, hmonoB, hB1, hB2, hB3, hB4, hB5⟩ :=
        freeIndirLoop_spec cfg (s.inode_table inum).i_indir_block.toNat f
          q 0 sA (by rw [hA3]; exact hf) (by omega)
          (fun t _ ht2 =>
            ⟨(hslotsf t (by omega)).1, (hslotsf t (by omega)).2.1⟩)
      have hdbg : data_block_get cfg (s.inode_table inum).i_indir_block
          = some (s.inode_table inum).i_indir_block.toNat :=
        data_block_get_pos cfg (s.inode_table inum).i_indir_block hib0 hibK
      have hdbf2 : data_block_free cfg sB
          (s.inode_table inum).i_indir_block
          = ({ sB with
                free_blocks :=
                  Function.update sB.free_blocks
                    (s.inode_table inum).i_indir_block.toNat
                    AllocState.FREE }, 0) := by
        unfold data_block_free
        rw [if_pos ⟨hib0, hibK⟩]
      have hfib : free_inode_blocks cfg s ((inum : ℕ) : ℤ)
          = some ({ sB with
                free_blocks :=
                  Function.update sB.free_blocks
                    (s.inode_table inum).i_indir_block.toNat
                    AllocState.FREE }, 0) := by
        unfold free_inode_blocks
        rw [if_pos hvin]
        simp only []
        rw [Int.toNat_natCast, heqA]
        simp only []
        rw [if_neg (by decide : ¬ (true = false))]
        rw [hA2]
        rw [if_neg (show ¬ ((s.inode_table inum).i_indir_block = -1)
          from by omega)]
        rw [hdbg]
        simp only []
        rw [hci, Int.toNat_natCast, heqB]
        simp only []
        rw [if_neg (by decide : ¬ (true = false))]
        rw [hdbf2]
        simp only []
        rw [if_neg (by decide : ¬ ((0 : ℤ) = -1))]
      refine ⟨{ sB with
            free_blocks :=
              Function.update sB.free_blocks
                (s.inode_table inum).i_indir_block.toNat
                AllocState.FREE },
        hfib, ?_, ?_, hB2.trans hA2, hB4.trans hA4, hB5.trans hA5⟩
      · intro i hi
        show Function.update sB.free_blocks
            (s.inode_table inum).i_indir_block.toNat AllocState.FREE
            ((s.inode_table inum).i_data_blocks i).toNat = AllocState.FREE
        exact update_free_mono _ _ _
          (hmonoB _ (hfreedA i (Nat.zero_le i) (by omega)))
      · intro _
        have hqlt_of_rem : (content.length
              - cfg.maxFileBlocks * cfg.blockSize) % cfg.blockSize ≠ 0 →
            q < numBlocks cfg
              (content.length - cfg.maxFileBlocks * cfg.blockSize) := by
          intro hrem
          have h1 := numBlocks_eq cfg
            ((content.length - cfg.maxFileBlocks * cfg.blockSize)
              / cfg.blockSize)
            ((content.length - cfg.maxFileBlocks * cfg.blockSize)
              % cfg.blockSize) (Nat.mod_lt _ hBS)
          rw [Nat.div_add_mod] at h1
          rw [if_neg hrem] at h1
          omega
        refine ⟨?_, ?_, ?_⟩
        · show Function.update sB.free_blocks
              (s.inode_table inum).i_indir_block.toNat AllocState.FREE
              (s.inode_table inum).i_indir_block.toNat = AllocState.FREE
          rw [Function.update_same]
        · intro j hj
          rw [hf, intVal_ints]
          show Function.update sB.free_blocks
              (s.inode_table inum).i_indir_block.toNat AllocState.FREE
              (f j).toNat = AllocState.FREE
          exact update_free_mono _ _ _
            (hfreedB j (Nat.zero_le j) (by omega))
        · intro hrem
          have hqlt := hqlt_of_rem hrem
          have hv0 := hInv.nodup hpos
          have hliveLen : liveLen cfg content.length
              = cfg.maxFileBlocks + 1 + numBlocks cfg
                (content.length - cfg.maxFileBlocks * cfg.blockSize) := by
            unfold liveLen
            rw [if_pos hgt]
            omega
          have hlbi_direct : ∀ t, t < cfg.maxFileBlocks →
              liveBlockIdx cfg s (s.inode_table inum) t
                = (s.inode_table inum).i_data_blocks t := by
            intro t ht
            unfold liveBlockIdx
            rw [if_pos ht]
          have hlbi_ib : liveBlockIdx cfg s (s.inode_table inum)
              cfg.maxFileBlocks = (s.inode_table inum).i_indir_block := by
            unfold liveBlockIdx
            rw [if_neg (by omega), if_pos rfl]
          have hlbi_slot : ∀ t,
              liveBlockIdx cfg s (s.inode_table inum)
                (cfg.maxFileBlocks + 1 + t) = f t := by
            intro t
            unfold liveBlockIdx
            rw [if_neg (by omega), if_neg (by omega),
              show cfg.maxFileBlocks + 1 + t - cfg.maxFileBlocks - 1 = t
                from by omega, hf, intVal_ints]
          have hne_ib : f q ≠ (s.inode_table inum).i_indir_block := by
            have h1 := hv0 (cfg.maxFileBlocks + 1 + q)
              (by rw [hliveLen]; omega) cfg.maxFileBlocks (by omega)
            rw [hlbi_ib, hlbi_slot] at h1
            exact Ne.symm h1
          have hne_slot : ∀ t, t < q → f t ≠ f q := by
            intro t ht
            have h1 := hv0 (cfg.maxFileBlocks + 1 + q)
              (by rw [hliveLen]; omega) (cfg.maxFileBlocks + 1 + t)
              (by omega)
            rw [hlbi_slot, hlbi_slot] at h1
            exact h1
          have hne_direct : ∀ t, t < cfg.maxFileBlocks →
              (s.inode_table inum).i_data_blocks t ≠ f q := by
            intro t ht
            have h1 := hv0 (cfg.maxFileBlocks + 1 + q)
              (by rw [hliveLen]; omega) t (by omega)
            rw [hlbi_direct t ht, hlbi_slot] at h1
            exact h1
          rw [hf, intVal_ints]
          show Function.update sB.free_blocks
              (s.inode_table inum).i_indir_block.toNat AllocState.FREE
              (f q).toNat = AllocState.TAKEN
          rw [Function.update_noteq
            (toNat_ne _ _ (hslotsf q hqlt).1 hib0 hne_ib)]
          rw [hframeB _ (fun t _ ht2 => toNat_ne _ _
            (hslotsf t (by omega)).1 (hslotsf q hqlt).1
            (hne_slot t (by omega)))]
          rw [hframeA _ (fun t _ ht2 => toNat_ne _ _ (hdv t (by omega)).1
            (hslotsf q hqlt).1 (hne_direct t (by omega)))]
          exact (hslotsf q hqlt).2.2
    · obtain ⟨hib, hcie⟩ := hInv.no_indir hpos (by omega)
      have hfib : free_inode_blocks cfg s ((inum : ℕ) : ℤ)
          = some (sA, 0) := by
        unfold free_inode_blocks
        rw [if_pos hvin]
        simp only []
        rw [Int.toNat_natCast, heqA]
        simp only []
        rw [if_neg (by decide : ¬ (true = false))]
        rw [hA2, if_pos hib]
      exact ⟨sA, hfib, (fun i hi => hfreedA i (Nat.zero_le i) (by omega)),
        (fun hgt' => absurd hgt' hgt), hA2, hA4, hA5⟩
  obtain ⟨sC, hfib, hdirC, hindC, hCino, hCfoe, hCoft⟩ := hmain
  obtain ⟨g, hg, hgfree⟩ := hslot
  have hfoe2 : (updInode sC inum fun ino =>
      { ino with i_size := 0 }).free_open_file_entries
      = s.free_open_file_entries := hCfoe
  obtain ⟨hdl, hfirst, hlt, hp⟩ := firstIdx_isSome_of_exists
    (fun i => decide ((updInode sC inum fun ino =>
      { ino with i_size := 0 }).free_open_file_entries i
      = AllocState.FREE))
    cfg.maxOpenFiles 0
    ⟨g, Nat.zero_le g, by omega,
      decide_eq_true (by rw [hfoe2]; exact hgfree)⟩
  have hopen : tfs_open cfg s name TFS_O_TRUNC
      = some ({ (updInode sC inum fun ino => { ino with i_size := 0 }) with
          free_open_file_entries := Function.update
            (updInode sC inum fun ino =>
              { ino with i_size := 0 }).free_open_file_entries hdl
            AllocState.TAKEN,
          open_file_table := Function.update
            (updInode sC inum fun ino =>
              { ino with i_size := 0 }).open_file_table hdl
            ⟨((inum : ℕ) : ℤ), 0, 0⟩ }, ((hdl : ℕ) : ℤ)) := by
    unfold tfs_open
    rw [if_pos hpath, hlook]
    simp only []
    rw [if_pos (show (0 : ℤ) ≤ ((inum : ℕ) : ℤ) from by omega)]
    rw [if_pos hvin]
    rw [if_pos (show TFS_O_TRUNC &&& TFS_O_TRUNC ≠ 0 from by decide)]
    rw [Int.toNat_natCast]
    rw [if_pos (show (s.inode_table inum).i_size > 0 from by
      rw [hInv.size_eq]; exact hpos)]
    rw [hfib]
    simp only []
    rw [if_neg (by decide : ¬ ((0 : ℤ) = -1))]
    simp only []
    rw [if_neg (show ¬ (TFS_O_TRUNC &&& TFS_O_APPEND ≠ 0) from by decide)]
    unfold add_to_open_file_table
    rw [hfirst]
  refine ⟨_, hdl, hopen, by omega, ?_, ?_, ?_, ?_⟩
  · exact Function.update_same _ _ _
  · show (Function.update sC.inode_table inum
      { sC.inode_table inum with i_size := 0 } inum).i_size = 0
    rw [Function.update_same]
  · exact hdirC
  · exact hindC

/-- The concrete leak of C5: truncating the 14-byte file of `wSt14`
(blocks 1 and 2 direct, indirect block 3 with slot 0 = block 4 full and
slot 1 = block 5 holding 2 of 4 bytes) frees blocks 1, 2, 4 and 3 but
leaves block 5 `TAKEN` even though no inode references it any more. -/
theorem tfs_open_trunc_leaks_partial_slot :
    ∃ s', tfs_open wcfg wSt14 "/f" TFS_O_TRUNC = some (s', 1) ∧
      intVal (wSt14.fs_data 3) 1 = 5 ∧
      wSt14.free_blocks 5 = AllocState.TAKEN ∧
      (s'.inode_table 1).i_size = 0 ∧
      s'.free_blocks 1 = AllocState.FREE ∧
      s'.free_blocks 2 = AllocState.FREE ∧
      s'.free_blocks 3 = AllocState.FREE ∧
      s'.free_blocks 4 = AllocState.FREE ∧
      s'.free_blocks 5 = AllocState.TAKEN :=
  ⟨_, rfl, by decide, by decide, by decide, by decide, by decide, by decide,
    by decide, by decide⟩

/-- Witness for C5 on `wcfg`/`wSt14`: the file "/f" holds 14 bytes, its
tail past the direct region is 6 bytes (one full indirect slot and 2 bytes
in slot 1), so the leak hypothesis is met. -/
theorem tfs_open_trunc_releases_blocks_witness :
    FileInv wcfg wSt14 1 c14 ∧ 0 < c14.length ∧ valid_pathname "/f" ∧
    tfs_lookup wcfg wSt14 "/f" = some ((1 : ℕ) : ℤ) ∧
    (∃ g, g < wcfg.maxOpenFiles ∧
      wSt14.free_open_file_entries g = AllocState.FREE) ∧
    (∃ s' h, tfs_open wcfg wSt14 "/f" TFS_O_TRUNC
        = some (s', ((h : ℕ) : ℤ)) ∧
      h < wcfg.maxOpenFiles ∧
      s'.open_file_table h = ⟨((1 : ℕ) : ℤ), 0, 0⟩ ∧
      (s'.inode_table 1).i_size = 0 ∧
      (∀ i, i < wcfg.maxFileBlocks →
        s'.free_blocks ((wSt14.inode_table 1).i_data_blocks i).toNat
          = AllocState.FREE) ∧
      (wcfg.maxFileBlocks * wcfg.blockSize < c14.length →
        s'.free_blocks (wSt14.inode_table 1).i_indir_block.toNat
          = AllocState.FREE ∧
        (∀ j, j < (c14.length - wcfg.maxFileBlocks * wcfg.blockSize)
            / wcfg.blockSize →
          s'.free_blocks (intVal
            (wSt14.fs_data (wSt14.inode_table 1).i_indir_block.toNat)
              j).toNat = AllocState.FREE) ∧
        ((c14.length - wcfg.maxFileBlocks * wcfg.blockSize)
            % wcfg.blockSize ≠ 0 →
          s'.free_blocks (intVal
            (wSt14.fs_data (wSt14.inode_table 1).i_indir_block.toNat)
            ((c14.length - wcfg.maxFileBlocks * wcfg.blockSize)
              / wcfg.blockSize)).toNat = AllocState.TAKEN))) :=
  ⟨wSt14_inv, by decide, by decide, rfl, ⟨1, by decide, by decide⟩,
    tfs_open_trunc_releases_blocks wcfg wSt14 1 "/f" c14 wSt14_inv
      (by decide) (by decide) rfl ⟨1, by decide, by decide⟩⟩

end TFS
